import Mathlib

/-!
# smart-ptrs: reference-counted shared / weak ownership

Shallow embedding of `src/weak/sw_fwd.h`, `src/weak/shared.h` and
`src/weak/weak.h`.

* A heap is a list of control blocks; a block reference (`ControlBlockBase*`)
  is `Option Nat` (`none` is `nullptr`, `some b` is the block at index `b`).
* An object address (`T*`) is a `Nat`, `0` being `nullptr`.
* `size_t` counters are `Nat` with explicit wrap-around modulo `2 ^ 64`.
* A member call through a null or already deleted block is undefined behaviour
  in C++; the embedding stops there with a `Fault`.
* The destructor `~T()` of a managed object releases the smart pointers the
  object owns (`members`), in order; this is what makes `Delete` re-entrant.
-/

namespace SmartPtrs

/-- Modulus of `size_t` arithmetic (64 bit). -/
@[reducible] def SIZE_MOD : Nat := 18446744073709551616

/-- The pre-increment `++x` on a `size_t`. -/
def sizeInc (x : Nat) : Nat := (x + 1) % SIZE_MOD

/-- The pre-decrement `--x` on a `size_t`. -/
def sizeDec (x : Nat) : Nat := (x + (SIZE_MOD - 1)) % SIZE_MOD

/-- Ways an operation can stop without returning normally. -/
inductive Fault where
  /-- The exception of `throw BadWeakPtr()`. -/
  | badWeakPtr
  /-- A member call through `block_ == nullptr` (undefined behaviour). -/
  | nullBlock
  /-- A control block accessed after `delete this` (undefined behaviour). -/
  | danglingBlock (b : Nat)
  /-- The recursion budget of the embedding ran out (not a program behaviour). -/
  | outOfFuel
deriving DecidableEq, Repr

/-- Life events of one control block. -/
inductive Event where
  /-- One call of `Delete()`. -/
  | finalize
  /-- One execution of `delete this`. -/
  | free
deriving DecidableEq, Repr

/-- The fields of `SharedPtr<T>`. -/
structure SharedPtr where
  block_ : Option Nat
  observed_ : Nat
deriving DecidableEq, Repr

/-- The fields of `WeakPtr<T>`. -/
structure WeakPtr where
  block_ : Option Nat
  observed_ : Nat
deriving DecidableEq, Repr

/-- A smart pointer owned by a managed object (a data member of `T`). -/
inductive Member where
  | shared (s : SharedPtr)
  | weak (w : WeakPtr)
deriving DecidableEq, Repr

/-- Which subclass of `ControlBlockBase` a block is. -/
inductive BlockKind where
  /-- The class `ControlBlockPtr<T>`: `ptr_` points at a separately allocated object. -/
  | ptr
  /-- The class `ControlBlockObj<T>`: the object lives in `aligned_storage_`. -/
  | obj
deriving DecidableEq, Repr

/-- One control block. `ptr_` is the field `ptr_` of a `ControlBlockPtr` and the
address of `aligned_storage_` of a `ControlBlockObj`. `members` are the smart
pointers owned by the managed object, `trace` records the calls of `Delete()`
and the executions of `delete this`, `freed` says that `delete this` has run. -/
structure ControlBlock where
  kind : BlockKind
  strong_ : Nat
  weak_ : Nat
  ptr_ : Nat
  members : List Member
  trace : List Event
  freed : Bool
deriving DecidableEq, Repr

/-- The heap: every control block ever allocated, indexed by allocation order. -/
abbrev Heap := List ControlBlock

/-- Follow a non-null block pointer: a block that was deleted (or never
allocated) cannot be used. -/
def Heap.deref (h : Heap) (b : Nat) : Except Fault ControlBlock :=
  match h[b]? with
  | some blk => if blk.freed then .error (.danglingBlock b) else .ok blk
  | none => .error (.danglingBlock b)

/-- The statement `delete this;` executed by block `b`. -/
def Heap.deleteThis (h : Heap) (b : Nat) : Except Fault Heap := do
  let blk ← h.deref b
  pure (h.set b { blk with freed := true, trace := blk.trace ++ [Event.free] })

/-- The constructor `ControlBlockPtr(T* ptr)`: counters start at 0, `++strong_`. -/
def ControlBlockPtr.new (ptr : Nat) (members : List Member) : ControlBlock :=
  { kind := .ptr, strong_ := sizeInc 0, weak_ := 0, ptr_ := ptr,
    members := members, trace := [], freed := false }

/-- The constructor `ControlBlockObj(Args&&... args)`: the object is built in
`aligned_storage_` (at address `storage`), then `++strong_`. -/
def ControlBlockObj.new (storage : Nat) (members : List Member) : ControlBlock :=
  { kind := .obj, strong_ := sizeInc 0, weak_ := 0, ptr_ := storage,
    members := members, trace := [], freed := false }

/-- `ControlBlockObj::GetPtr`. -/
def ControlBlock.GetPtr (blk : ControlBlock) : Nat := blk.ptr_

/-- `IncreaseStrongCounter()` of a block: `++strong_`. -/
def ControlBlock.IncreaseStrongCounter (h : Heap) (b : Nat) : Except Fault Heap := do
  let blk ← h.deref b
  pure (h.set b { blk with strong_ := sizeInc blk.strong_ })

/-- `DecreaseStrongCounter()` of a block: `--strong_`. -/
def ControlBlock.DecreaseStrongCounter (h : Heap) (b : Nat) : Except Fault Heap := do
  let blk ← h.deref b
  pure (h.set b { blk with strong_ := sizeDec blk.strong_ })

/-- `IncreaseWeakCounter()` of a block: `++weak_`. -/
def ControlBlock.IncreaseWeakCounter (h : Heap) (b : Nat) : Except Fault Heap := do
  let blk ← h.deref b
  pure (h.set b { blk with weak_ := sizeInc blk.weak_ })

/-- `DecreaseWeakCounter()` of a block: `--weak_`. -/
def ControlBlock.DecreaseWeakCounter (h : Heap) (b : Nat) : Except Fault Heap := do
  let blk ← h.deref b
  pure (h.set b { blk with weak_ := sizeDec blk.weak_ })

/-- `UseCount()` of a block: `strong_ + weak_`. -/
def ControlBlock.UseCount (h : Heap) (b : Nat) : Except Fault Nat := do
  let blk ← h.deref b
  pure ((blk.strong_ + blk.weak_) % SIZE_MOD)

/-- `UseStrongCount()` of a block: `strong_`. -/
def ControlBlock.UseStrongCount (h : Heap) (b : Nat) : Except Fault Nat := do
  let blk ← h.deref b
  pure blk.strong_

/-- `ReleaseWeak()` of a block (the same text in both subclasses). -/
def ControlBlock.ReleaseWeak (h : Heap) (b : Nat) : Except Fault Heap := do
  let blk ← h.deref b
  if blk.weak_ ≠ 0 then
    let h1 ← ControlBlock.DecreaseWeakCounter h b
    let blk1 ← h1.deref b
    if blk1.weak_ = 0 then
      if blk1.strong_ = 0 then h1.deleteThis b else pure h1
    else pure h1
  else pure h

/-- The body of `SharedPtr::Release`, the block-level `Release` being `rel`:
returns the heap and the handle afterwards. -/
def SharedPtr.releaseVia (rel : Heap → Nat → Except Fault Heap) (h : Heap)
    (self : SharedPtr) : Except Fault (Heap × SharedPtr) :=
  if self.observed_ ≠ 0 then
    match self.block_ with
    | none => .error .nullBlock
    | some b => do
      let h1 ← rel h b
      pure (h1, { block_ := none, observed_ := 0 })
  else pure (h, self)

/-- `WeakPtr::ReleaseWeak`: returns the heap and the handle afterwards. -/
def WeakPtr.ReleaseWeak (h : Heap) (self : WeakPtr) : Except Fault (Heap × WeakPtr) :=
  if self.observed_ ≠ 0 then
    match self.block_ with
    | none => .error .nullBlock
    | some b => do
      let h1 ← ControlBlock.ReleaseWeak h b
      pure (h1, { block_ := none, observed_ := 0 })
  else pure (h, self)

/-- The destructor of one data member of a managed object. -/
def Member.destroy (rel : Heap → Nat → Except Fault Heap) (h : Heap) :
    Member → Except Fault Heap
  | .shared s => do
    let r ← SharedPtr.releaseVia rel h s
    pure r.1
  | .weak w => do
    let r ← WeakPtr.ReleaseWeak h w
    pure r.1

/-- The destructor `~T()` of a managed object: its data members are destroyed
one after the other. -/
def destroyMembers (rel : Heap → Nat → Except Fault Heap) :
    List Member → Heap → Except Fault Heap
  | [], h => pure h
  | m :: ms, h => do
    let h1 ← m.destroy rel h
    destroyMembers rel ms h1

/-- `Delete()` of a block. `ControlBlockPtr`: `delete ptr_` (nothing happens for
a null `ptr_`); `ControlBlockObj`: `GetPtr()->~T()`. -/
def ControlBlock.Delete (rel : Heap → Nat → Except Fault Heap) (h : Heap) (b : Nat) :
    Except Fault Heap := do
  let blk ← h.deref b
  let logged := { blk with trace := blk.trace ++ [Event.finalize] }
  match blk.kind with
  | .ptr =>
    if blk.ptr_ = 0 then pure (h.set b logged)
    else destroyMembers rel blk.members (h.set b { logged with members := [] })
  | .obj =>
    if blk.GetPtr ≠ 0 then
      destroyMembers rel blk.members (h.set b { logged with members := [] })
    else pure (h.set b logged)

/-- `Release()` of a block (the same text in both subclasses). The first
argument bounds the nesting depth of destructors. -/
def ControlBlock.Release : Nat → Heap → Nat → Except Fault Heap
  | 0, _, _ => .error .outOfFuel
  | fuel + 1, h, b => do
    let blk ← h.deref b
    if blk.strong_ ≠ 0 then
      let h1 ← ControlBlock.DecreaseStrongCounter h b
      let blk1 ← h1.deref b
      if blk1.strong_ = 0 then
        let h2 ← ControlBlock.Delete (fun g c => ControlBlock.Release fuel g c) h1 b
        let blk2 ← h2.deref b
        if blk2.weak_ = 0 then h2.deleteThis b else pure h2
      else pure h1
    else pure h

/-- `SharedPtr::Release`. -/
def SharedPtr.Release (fuel : Nat) (h : Heap) (self : SharedPtr) :
    Except Fault (Heap × SharedPtr) :=
  SharedPtr.releaseVia (ControlBlock.Release fuel) h self

/-- The constructors `SharedPtr()` and `SharedPtr(std::nullptr_t)`. -/
def SharedPtr.empty : SharedPtr := { block_ := none, observed_ := 0 }

/-- The constructor `SharedPtr(T* ptr)`: a new `ControlBlockPtr<T>(ptr)` is
allocated; `members` are the smart pointers the adopted object owns. -/
def SharedPtr.ofPtr (h : Heap) (ptr : Nat) (members : List Member) : Heap × SharedPtr :=
  (h ++ [ControlBlockPtr.new ptr members], { block_ := some h.length, observed_ := ptr })

/-- The constructor `SharedPtr(ControlBlockObj<T>* cb)`. -/
def SharedPtr.ofBlockObj (h : Heap) (cb : Nat) : Except Fault SharedPtr := do
  let blk ← h.deref cb
  pure { block_ := some cb, observed_ := blk.GetPtr }

/-- `MakeShared<T>(args...)`: `new ControlBlockObj<T>(args...)` handed to the
constructor above; `storage` is the address of the embedded object. -/
def MakeShared (h : Heap) (storage : Nat) (members : List Member) :
    Except Fault (Heap × SharedPtr) := do
  let h1 := h ++ [ControlBlockObj.new storage members]
  let s ← SharedPtr.ofBlockObj h1 h.length
  pure (h1, s)

/-- `SharedPtr::IncreaseStrongCounter`. -/
def SharedPtr.IncreaseStrongCounter (h : Heap) (self : SharedPtr) : Except Fault Heap :=
  if self.observed_ ≠ 0 then
    match self.block_ with
    | none => .error .nullBlock
    | some b => ControlBlock.IncreaseStrongCounter h b
  else pure h

/-- The copy constructor `SharedPtr(const SharedPtr<T>& other)`. -/
def SharedPtr.copy (h : Heap) (other : SharedPtr) : Except Fault (Heap × SharedPtr) := do
  let self : SharedPtr := { block_ := other.block_, observed_ := other.observed_ }
  let h1 ← self.IncreaseStrongCounter h
  pure (h1, self)

/-- The move constructor `SharedPtr(SharedPtr<T>&& other)`: the new handle and
`other` afterwards. -/
def SharedPtr.move (other : SharedPtr) : SharedPtr × SharedPtr :=
  ({ block_ := other.block_, observed_ := other.observed_ }, { block_ := none, observed_ := 0 })

/-- The aliasing constructor `SharedPtr(const SharedPtr<Y>& other, T* ptr)`. -/
def SharedPtr.alias (h : Heap) (other : SharedPtr) (ptr : Nat) :
    Except Fault (Heap × SharedPtr) := do
  let self : SharedPtr := { block_ := other.block_, observed_ := ptr }
  let h1 ← self.IncreaseStrongCounter h
  pure (h1, self)

/-- `SharedPtr::UseCount`. -/
def SharedPtr.UseCount (h : Heap) (self : SharedPtr) : Except Fault Nat :=
  match self.block_ with
  | none => pure 0
  | some b => ControlBlock.UseStrongCount h b

/-- `SharedPtr::operator bool`. -/
def SharedPtr.toBool (self : SharedPtr) : Bool := self.observed_ != 0

/-- `SharedPtr::Get`. -/
def SharedPtr.Get (self : SharedPtr) : Nat :=
  if self.toBool then self.observed_ else 0

/-- `SharedPtr::operator=(const SharedPtr<T>& other)`: the heap and `*this`
afterwards. -/
def SharedPtr.copyAssign (fuel : Nat) (h : Heap) (self other : SharedPtr) :
    Except Fault (Heap × SharedPtr) :=
  if self.observed_ = other.observed_ then pure (h, self)
  else do
    let r ← self.Release fuel h
    let self1 : SharedPtr := { block_ := other.block_, observed_ := other.observed_ }
    let h2 ← self1.IncreaseStrongCounter r.1
    pure (h2, self1)

/-- `SharedPtr::operator=(SharedPtr<T>&& other)`: the heap, `*this` and `other`
afterwards. -/
def SharedPtr.moveAssign (fuel : Nat) (h : Heap) (self other : SharedPtr) :
    Except Fault (Heap × SharedPtr × SharedPtr) :=
  if self.observed_ = other.observed_ then pure (h, self, other)
  else do
    let r ← self.Release fuel h
    pure (r.1, { block_ := other.block_, observed_ := other.observed_ },
      { block_ := none, observed_ := 0 })

/-- `SharedPtr::Reset()`. -/
def SharedPtr.Reset (fuel : Nat) (h : Heap) (self : SharedPtr) :
    Except Fault (Heap × SharedPtr) :=
  self.Release fuel h

/-- The destructor `~SharedPtr()`: the heap afterwards and what is left in the
handle. -/
def SharedPtr.destructor (fuel : Nat) (h : Heap) (self : SharedPtr) :
    Except Fault (Heap × SharedPtr) :=
  self.Release fuel h

/-- `SharedPtr::Reset(T* ptr)`; `members` are the smart pointers the adopted
object owns. -/
def SharedPtr.ResetPtr (fuel : Nat) (h : Heap) (self : SharedPtr) (ptr : Nat)
    (members : List Member) : Except Fault (Heap × SharedPtr) := do
  let temp := self.block_
  let h1 := h ++ [ControlBlockPtr.new ptr members]
  let self1 : SharedPtr := { block_ := some h.length, observed_ := ptr }
  match temp with
  | some b => do
    let h2 ← ControlBlock.Release fuel h1 b
    pure (h2, self1)
  | none => pure (h1, self1)

/-- `SharedPtr::Swap`. -/
def SharedPtr.Swap (self other : SharedPtr) : SharedPtr × SharedPtr := (other, self)

/-- The constructor `WeakPtr()`. -/
def WeakPtr.empty : WeakPtr := { block_ := none, observed_ := 0 }

/-- `WeakPtr::IncreaseWeakCounter`. -/
def WeakPtr.IncreaseWeakCounter (h : Heap) (self : WeakPtr) : Except Fault Heap :=
  if self.observed_ ≠ 0 then
    match self.block_ with
    | none => .error .nullBlock
    | some b => ControlBlock.IncreaseWeakCounter h b
  else pure h

/-- The copy constructor `WeakPtr(const WeakPtr<T>& other)`. -/
def WeakPtr.copy (h : Heap) (other : WeakPtr) : Except Fault (Heap × WeakPtr) := do
  let self : WeakPtr := { block_ := other.block_, observed_ := other.observed_ }
  let h1 ← self.IncreaseWeakCounter h
  pure (h1, self)

/-- The move constructor `WeakPtr(WeakPtr<T>&& other)`: the new handle and
`other` afterwards. -/
def WeakPtr.move (other : WeakPtr) : WeakPtr × WeakPtr :=
  ({ block_ := other.block_, observed_ := other.observed_ }, { block_ := none, observed_ := 0 })

/-- The demoting constructor `WeakPtr(const SharedPtr<T>& other)`. -/
def WeakPtr.ofShared (h : Heap) (other : SharedPtr) : Except Fault (Heap × WeakPtr) := do
  let self : WeakPtr := { block_ := other.block_, observed_ := other.observed_ }
  let h1 ← self.IncreaseWeakCounter h
  pure (h1, self)

/-- `WeakPtr::operator=(const WeakPtr<T>& other)`. -/
def WeakPtr.copyAssign (h : Heap) (self other : WeakPtr) : Except Fault (Heap × WeakPtr) :=
  if self.observed_ = other.observed_ then pure (h, self)
  else do
    let r ← self.ReleaseWeak h
    let self1 : WeakPtr := { block_ := other.block_, observed_ := other.observed_ }
    let h2 ← self1.IncreaseWeakCounter r.1
    pure (h2, self1)

/-- `WeakPtr::operator=(WeakPtr<T>&& other)`: the heap, `*this` and `other`
afterwards. -/
def WeakPtr.moveAssign (h : Heap) (self other : WeakPtr) :
    Except Fault (Heap × WeakPtr × WeakPtr) :=
  if self.observed_ = other.observed_ then pure (h, self, other)
  else do
    let r ← self.ReleaseWeak h
    pure (r.1, { block_ := other.block_, observed_ := other.observed_ },
      { block_ := none, observed_ := 0 })

/-- `WeakPtr::Reset`. -/
def WeakPtr.Reset (h : Heap) (self : WeakPtr) : Except Fault (Heap × WeakPtr) :=
  self.ReleaseWeak h

/-- The destructor `~WeakPtr()`. -/
def WeakPtr.destructor (h : Heap) (self : WeakPtr) : Except Fault (Heap × WeakPtr) :=
  self.ReleaseWeak h

/-- `WeakPtr::Swap`. -/
def WeakPtr.Swap (self other : WeakPtr) : WeakPtr × WeakPtr := (other, self)

/-- `WeakPtr::UseCount`. -/
def WeakPtr.UseCount (h : Heap) (self : WeakPtr) : Except Fault Nat :=
  match self.block_ with
  | none => pure 0
  | some b => ControlBlock.UseStrongCount h b

/-- `WeakPtr::Expired`. -/
def WeakPtr.Expired (h : Heap) (self : WeakPtr) : Except Fault Bool :=
  match self.block_ with
  | some _ => do
    let n ← self.UseCount h
    pure (n == 0)
  | none => pure true

/-- `WeakPtr::Get`. -/
def WeakPtr.Get (h : Heap) (self : WeakPtr) : Except Fault Nat := do
  let e ← self.Expired h
  if e then pure 0 else pure self.observed_

/-- The promoting constructor `explicit SharedPtr(const WeakPtr<T>& other)`. -/
def SharedPtr.promote (h : Heap) (other : WeakPtr) : Except Fault (Heap × SharedPtr) := do
  let e ← other.Expired h
  if e then .error .badWeakPtr
  else do
    let self : SharedPtr := { block_ := other.block_, observed_ := other.observed_ }
    let h1 ← self.IncreaseStrongCounter h
    pure (h1, self)

/-- `WeakPtr::Lock`. -/
def WeakPtr.Lock (h : Heap) (self : WeakPtr) : Except Fault (Heap × SharedPtr) := do
  let e ← self.Expired h
  if e then pure (h, SharedPtr.empty)
  else SharedPtr.promote h self

/-! ## Programs: sequences of handle operations -/

/-- A program state: the heap and the `SharedPtr` and `WeakPtr` variables of the
program, numbered in order of construction. A destroyed variable keeps its slot
(holding what its destructor left in it). -/
structure World where
  heap : Heap
  shared : List SharedPtr
  weak : List WeakPtr
deriving DecidableEq, Repr

/-- One statement of a program over the handle variables. -/
inductive Op where
  /-- The statement `SharedPtr<T> fresh(shared[src]);`. -/
  | copyCtor (src : Nat)
  /-- The statement `SharedPtr<T> fresh(std::move(shared[src]));`. -/
  | moveCtor (src : Nat)
  /-- The statement `shared[dst] = shared[src];`. -/
  | copyAssign (dst src : Nat)
  /-- The statement `shared[dst] = std::move(shared[src]);`. -/
  | moveAssign (dst src : Nat)
  /-- The statement `shared[i].Reset();`. -/
  | reset (i : Nat)
  /-- The destructor of `shared[i]` runs. -/
  | destroy (i : Nat)
  /-- The statement `WeakPtr<T> fresh(shared[src]);`. -/
  | demote (src : Nat)
  /-- The statement `WeakPtr<T> fresh(weak[src]);`. -/
  | weakCopyCtor (src : Nat)
  /-- The statement `WeakPtr<T> fresh(std::move(weak[src]));`. -/
  | weakMoveCtor (src : Nat)
  /-- The statement `weak[dst] = weak[src];`. -/
  | weakCopyAssign (dst src : Nat)
  /-- The statement `weak[dst] = std::move(weak[src]);`. -/
  | weakMoveAssign (dst src : Nat)
  /-- The statement `weak[i].Reset();`. -/
  | weakReset (i : Nat)
  /-- The destructor of `weak[i]` runs. -/
  | weakDestroy (i : Nat)
  /-- The statement `SharedPtr<T> fresh = weak[src].Lock();`. -/
  | lock (src : Nat)
deriving DecidableEq, Repr

/-- Statements that involve no `WeakPtr`. -/
def Op.sharedOnly : Op → Bool
  | .copyCtor _ | .moveCtor _ | .copyAssign _ _ | .moveAssign _ _ | .reset _ | .destroy _ => true
  | _ => false

/-- Execute one statement. A statement naming a variable that does not exist
is not part of any program and leaves the state as it is. -/
def World.step (fuel : Nat) (w : World) : Op → Except Fault World
  | .copyCtor src =>
    match w.shared[src]? with
    | none => pure w
    | some s => do
      let r ← SharedPtr.copy w.heap s
      pure { w with heap := r.1, shared := w.shared ++ [r.2] }
  | .moveCtor src =>
    match w.shared[src]? with
    | none => pure w
    | some s =>
      let r := SharedPtr.move s
      pure { w with shared := (w.shared.set src r.2) ++ [r.1] }
  | .copyAssign dst src =>
    match w.shared[dst]?, w.shared[src]? with
    | some d, some s => do
      let r ← SharedPtr.copyAssign fuel w.heap d s
      pure { w with heap := r.1, shared := w.shared.set dst r.2 }
    | _, _ => pure w
  | .moveAssign dst src =>
    match w.shared[dst]?, w.shared[src]? with
    | some d, some s => do
      let r ← SharedPtr.moveAssign fuel w.heap d s
      pure { w with heap := r.1, shared := (w.shared.set src r.2.2).set dst r.2.1 }
    | _, _ => pure w
  | .reset i =>
    match w.shared[i]? with
    | none => pure w
    | some s => do
      let r ← SharedPtr.Reset fuel w.heap s
      pure { w with heap := r.1, shared := w.shared.set i r.2 }
  | .destroy i =>
    match w.shared[i]? with
    | none => pure w
    | some s => do
      let r ← SharedPtr.destructor fuel w.heap s
      pure { w with heap := r.1, shared := w.shared.set i r.2 }
  | .demote src =>
    match w.shared[src]? with
    | none => pure w
    | some s => do
      let r ← WeakPtr.ofShared w.heap s
      pure { w with heap := r.1, weak := w.weak ++ [r.2] }
  | .weakCopyCtor src =>
    match w.weak[src]? with
    | none => pure w
    | some s => do
      let r ← WeakPtr.copy w.heap s
      pure { w with heap := r.1, weak := w.weak ++ [r.2] }
  | .weakMoveCtor src =>
    match w.weak[src]? with
    | none => pure w
    | some s =>
      let r := WeakPtr.move s
      pure { w with weak := (w.weak.set src r.2) ++ [r.1] }
  | .weakCopyAssign dst src =>
    match w.weak[dst]?, w.weak[src]? with
    | some d, some s => do
      let r ← WeakPtr.copyAssign w.heap d s
      pure { w with heap := r.1, weak := w.weak.set dst r.2 }
    | _, _ => pure w
  | .weakMoveAssign dst src =>
    match w.weak[dst]?, w.weak[src]? with
    | some d, some s => do
      let r ← WeakPtr.moveAssign w.heap d s
      pure { w with heap := r.1, weak := (w.weak.set src r.2.2).set dst r.2.1 }
    | _, _ => pure w
  | .weakReset i =>
    match w.weak[i]? with
    | none => pure w
    | some s => do
      let r ← WeakPtr.Reset w.heap s
      pure { w with heap := r.1, weak := w.weak.set i r.2 }
  | .weakDestroy i =>
    match w.weak[i]? with
    | none => pure w
    | some s => do
      let r ← WeakPtr.destructor w.heap s
      pure { w with heap := r.1, weak := w.weak.set i r.2 }
  | .lock src =>
    match w.weak[src]? with
    | none => pure w
    | some s => do
      let r ← WeakPtr.Lock w.heap s
      pure { w with heap := r.1, shared := w.shared ++ [r.2] }

/-- Execute a program. -/
def World.run (fuel : Nat) : World → List Op → Except Fault World
  | w, [] => pure w
  | w, op :: ops => do
    let w1 ← w.step fuel op
    World.run fuel w1 ops

/-- The one creation a program starts from: `SharedPtr<T> a(p)` for a
`ControlBlockPtr`, `auto a = MakeShared<T>(...)` (object at address `p`) for a
`ControlBlockObj`; the managed object owns no smart pointers. -/
def World.create (kind : BlockKind) (p : Nat) : Except Fault World :=
  match kind with
  | .ptr =>
    let r := SharedPtr.ofPtr [] p []
    pure { heap := r.1, shared := [r.2], weak := [] }
  | .obj => do
    let r ← MakeShared [] p []
    pure { heap := r.1, shared := [r.2], weak := [] }

/-- A creation followed by a program. -/
def World.runFrom (fuel : Nat) (kind : BlockKind) (p : Nat) (ops : List Op) :
    Except Fault World := do
  let w ← World.create kind p
  World.run fuel w ops

/-- Number of times event `e` is recorded for block `b`. -/
def World.events (w : World) (b : Nat) (e : Event) : Nat :=
  match w.heap[b]? with
  | some blk => blk.trace.count e
  | none => 0

/-- The value of `strong_` in block `b`. -/
def World.strong (w : World) (b : Nat) : Nat :=
  match w.heap[b]? with
  | some blk => blk.strong_
  | none => 0

/-- The value of `weak_` in block `b`. -/
def World.weakCount (w : World) (b : Nat) : Nat :=
  match w.heap[b]? with
  | some blk => blk.weak_
  | none => 0

/-- Number of `SharedPtr` variables whose `block_` is block `b`. -/
def World.sharedHolders (w : World) (b : Nat) : Nat :=
  w.shared.countP (fun s => s.block_ == some b)

/-- Number of `WeakPtr` variables whose `block_` is block `b`. -/
def World.weakHolders (w : World) (b : Nat) : Nat :=
  w.weak.countP (fun s => s.block_ == some b)

/-- Block `b` has been deleted. -/
def World.isFreed (w : World) (b : Nat) : Bool :=
  match w.heap[b]? with
  | some blk => blk.freed
  | none => false

/-! ## Concrete programs used below -/

/-- The managed object of block `b` takes ownership of the smart pointer `m`
(it is moved into a data member of the object). -/
def Heap.giveMember (h : Heap) (b : Nat) (m : Member) : Heap :=
  match h[b]? with
  | some blk => h.set b { blk with members := blk.members ++ [m] }
  | none => h

/-- The program `auto a = MakeShared<Node>(); a->self = WeakPtr<Node>(a);` for
`struct Node { WeakPtr<Node> self; };`: the heap and the handle `a`. -/
def selfObserving : Except Fault (Heap × SharedPtr) := do
  let a ← MakeShared [] 7 []
  let v ← WeakPtr.ofShared a.1 a.2
  pure (Heap.giveMember v.1 0 (Member.weak v.2), a.2)

/-- The same with an adopted object: `SharedPtr<Node> a(new Node);
a->self = WeakPtr<Node>(a);`. -/
def selfObservingPtr : Except Fault (Heap × SharedPtr) := do
  let a := SharedPtr.ofPtr [] 7 []
  let v ← WeakPtr.ofShared a.1 a.2
  pure (Heap.giveMember v.1 0 (Member.weak v.2), a.2)

/-- The program `auto a = MakeShared<int>(42); SharedPtr<int> b(a, nullptr);`
with variables `a`, `b` in slots 0 and 1. -/
def aliasNull : Except Fault World := do
  let a ← MakeShared [] 7 []
  let b ← SharedPtr.alias a.1 a.2 0
  pure { heap := b.1, shared := [a.2, b.2], weak := [] }

/-- The program `int* p = nullptr; SharedPtr<int> s(p); WeakPtr<int> w(s);`:
the heap, `s` and `w`. -/
def adoptNull : Except Fault (Heap × SharedPtr × WeakPtr) := do
  let s := SharedPtr.ofPtr [] 0 []
  let w ← WeakPtr.ofShared s.1 s.2
  pure (w.1, s.2, w.2)

/-- A heap of two blocks: the object of block 0 owns a `SharedPtr` to the
object of block 1 and is observed by one `WeakPtr`. -/
def chainHeap : Heap :=
  [ { kind := .obj, strong_ := 1, weak_ := 1, ptr_ := 7,
      members := [Member.shared { block_ := some 1, observed_ := 9 }], trace := [], freed := false },
    { kind := .ptr, strong_ := 1, weak_ := 0, ptr_ := 9,
      members := [], trace := [], freed := false } ]

/-! ## Invariant of single-creation programs -/

/-- The state of the block of a single-creation program when `S` `SharedPtr`
and `W` `WeakPtr` variables hold it: `Delete()` has run once `S = 0`, and
`delete this` once `S = 0` and `W = 0`. -/
def blockAt (k : BlockKind) (q S W : Nat) : ControlBlock :=
  { kind := k, strong_ := S, weak_ := W, ptr_ := q, members := [],
    trace := if S ≠ 0 then [] else if W ≠ 0 then [Event.finalize]
      else [Event.finalize, Event.free],
    freed := decide (S = 0 ∧ W = 0) }

/-- Invariant of a program that starts from one creation of an object at address
`p`: one block; every handle is empty or holds that block and caches `p`; the
counters are the numbers of holders; at most `n` variables exist. -/
def Inv (p n : Nat) (w : World) : Prop :=
  (∃ k q, w.heap = [blockAt k q (w.sharedHolders 0) (w.weakHolders 0)]) ∧
  (∀ s ∈ w.shared, s = { block_ := none, observed_ := 0 } ∨ s = { block_ := some 0, observed_ := p }) ∧
  (∀ s ∈ w.weak, s = { block_ := none, observed_ := 0 } ∨ s = { block_ := some 0, observed_ := p }) ∧
  w.shared.length + w.weak.length ≤ n

/-- What one statement of a single-creation program guarantees: it returns, the
invariant still holds, the strong count drops by at most one and does not leave
zero, and the counters stay zero once both are. -/
def StepGood (fuel p n : Nat) (w : World) (op : Op) : Prop :=
  ∃ w1, w.step (fuel + 1) op = .ok w1 ∧ Inv p (n + 1) w1 ∧
    w.sharedHolders 0 ≤ w1.sharedHolders 0 + 1 ∧
    (w.sharedHolders 0 = 0 → w1.sharedHolders 0 = 0) ∧
    (w.sharedHolders 0 = 0 → w.weakHolders 0 = 0 → w1.weakHolders 0 = 0)

/-- Invariant of a program whose creation cached a null address (adoption of a
null pointer): the heap is the one block `B`, never touched, and every handle
caches the null address. -/
def InvNull (B : ControlBlock) (w : World) : Prop :=
  w.heap = [B] ∧
  (∀ s ∈ w.shared, s.observed_ = 0 ∧ (s.block_ = none ∨ s.block_ = some 0)) ∧
  (∀ s ∈ w.weak, s.observed_ = 0 ∧ (s.block_ = none ∨ s.block_ = some 0))

/-! ## `src/intrusive/intrusive.h` -/

/-- Ways an operation on intrusive pointers can go wrong (undefined behaviour). -/
inductive IFault where
  /-- An object used after `Deleter::Destroy` was invoked on it (or never allocated). -/
  | danglingObject (o : Nat)
deriving DecidableEq, Repr

/-- A reference-counted object, `RefCounted<Derived, SimpleCounter, Deleter>`:
the field `count_` of its `SimpleCounter`, and the number of times
`Deleter::Destroy` has been invoked on it. -/
structure RefCounted where
  count_ : Nat
  destroyCalls : Nat
deriving DecidableEq, Repr

/-- Every reference-counted object ever allocated; a `T*` is `Option Nat`, `none`
being `nullptr`. -/
abbrev ObjHeap := List RefCounted

/-- Follow a non-null object pointer; a destroyed object cannot be used. -/
def ObjHeap.deref (h : ObjHeap) (o : Nat) : Except IFault RefCounted :=
  match h[o]? with
  | some obj => if obj.destroyCalls ≠ 0 then .error (.danglingObject o) else .ok obj
  | none => .error (.danglingObject o)

/-- `RefCounted::IncRef`: `counter_.IncRef()`, that is `++count_`. -/
def RefCounted.IncRef (h : ObjHeap) (o : Nat) : Except IFault ObjHeap := do
  let obj ← h.deref o
  pure (h.set o { obj with count_ := sizeInc obj.count_ })

/-- `RefCounted::RefCount`. -/
def RefCounted.RefCount (h : ObjHeap) (o : Nat) : Except IFault Nat := do
  let obj ← h.deref o
  pure obj.count_

/-- `RefCounted::DecRef`: `counter_.DecRef()` (`--count_`), then
`Deleter::Destroy(this)` if `RefCount() == 0`. -/
def RefCounted.DecRef (h : ObjHeap) (o : Nat) : Except IFault ObjHeap := do
  let obj ← h.deref o
  let h1 := h.set o { obj with count_ := sizeDec obj.count_ }
  let n ← RefCounted.RefCount h1 o
  if n = 0 then
    let obj1 ← ObjHeap.deref h1 o
    pure (h1.set o { obj1 with destroyCalls := obj1.destroyCalls + 1 })
  else pure h1

/-- The field of `IntrusivePtr<T>`. -/
structure IntrusivePtr where
  ptr_ : Option Nat
deriving DecidableEq, Repr

/-- The constructors `IntrusivePtr()` and `IntrusivePtr(std::nullptr_t)`. -/
def IntrusivePtr.empty : IntrusivePtr := { ptr_ := none }

/-- The constructor `IntrusivePtr(T* ptr)`. -/
def IntrusivePtr.ofPtr (h : ObjHeap) (ptr : Option Nat) : Except IFault (ObjHeap × IntrusivePtr) :=
  match ptr with
  | some o => do
    let h1 ← RefCounted.IncRef h o
    pure (h1, { ptr_ := ptr })
  | none => pure (h, { ptr_ := ptr })

/-- The copy constructor `IntrusivePtr(const IntrusivePtr& other)`. -/
def IntrusivePtr.copy (h : ObjHeap) (other : IntrusivePtr) :
    Except IFault (ObjHeap × IntrusivePtr) :=
  match other.ptr_ with
  | some o => do
    let h1 ← RefCounted.IncRef h o
    pure (h1, { ptr_ := other.ptr_ })
  | none => pure (h, { ptr_ := other.ptr_ })

/-- The move constructor `IntrusivePtr(IntrusivePtr&& other)`: the new handle and
`other` afterwards. -/
def IntrusivePtr.move (other : IntrusivePtr) : IntrusivePtr × IntrusivePtr :=
  ({ ptr_ := other.ptr_ }, { ptr_ := none })

/-- `IntrusivePtr::Reset()`. -/
def IntrusivePtr.Reset (h : ObjHeap) (self : IntrusivePtr) :
    Except IFault (ObjHeap × IntrusivePtr) :=
  match self.ptr_ with
  | some o => do
    let h1 ← RefCounted.DecRef h o
    pure (h1, { ptr_ := none })
  | none => pure (h, { ptr_ := none })

/-- `IntrusivePtr::Reset(T* ptr)`. -/
def IntrusivePtr.ResetPtr (h : ObjHeap) (self : IntrusivePtr) (ptr : Option Nat) :
    Except IFault (ObjHeap × IntrusivePtr) := do
  let r ← self.Reset h
  match ptr with
  | some o => do
    let h1 ← RefCounted.IncRef r.1 o
    pure (h1, { ptr_ := ptr })
  | none => pure (r.1, { ptr_ := ptr })

/-- `IntrusivePtr::operator=(const IntrusivePtr& other)`. -/
def IntrusivePtr.copyAssign (h : ObjHeap) (self other : IntrusivePtr) :
    Except IFault (ObjHeap × IntrusivePtr) :=
  if self.ptr_ = other.ptr_ then pure (h, self)
  else do
    let r ← self.Reset h
    match other.ptr_ with
    | some o => do
      let h1 ← RefCounted.IncRef r.1 o
      pure (h1, { ptr_ := other.ptr_ })
    | none => pure (r.1, { ptr_ := other.ptr_ })

/-- `IntrusivePtr::operator=(IntrusivePtr&& other)`: the heap, `*this` and `other`
afterwards. -/
def IntrusivePtr.moveAssign (h : ObjHeap) (self other : IntrusivePtr) :
    Except IFault (ObjHeap × IntrusivePtr × IntrusivePtr) :=
  if self.ptr_ = other.ptr_ then pure (h, self, other)
  else do
    let r ← self.Reset h
    pure (r.1, { ptr_ := other.ptr_ }, { ptr_ := none })

/-- The destructor `~IntrusivePtr()`. -/
def IntrusivePtr.destructor (h : ObjHeap) (self : IntrusivePtr) :
    Except IFault (ObjHeap × IntrusivePtr) :=
  self.Reset h

/-- `IntrusivePtr::Swap`. -/
def IntrusivePtr.Swap (self other : IntrusivePtr) : IntrusivePtr × IntrusivePtr := (other, self)

/-- `IntrusivePtr::Get`. -/
def IntrusivePtr.Get (self : IntrusivePtr) : Option Nat := self.ptr_

/-- `IntrusivePtr::UseCount`. -/
def IntrusivePtr.UseCount (h : ObjHeap) (self : IntrusivePtr) : Except IFault Nat :=
  match self.ptr_ with
  | none => pure 0
  | some o => RefCounted.RefCount h o

/-- `IntrusivePtr::operator bool`. -/
def IntrusivePtr.toBool (h : ObjHeap) (self : IntrusivePtr) : Except IFault Bool :=
  match self.ptr_ with
  | some _ => do
    let n ← self.UseCount h
    pure (n != 0)
  | none => pure false

/-- `MakeIntrusive<T>(args...)`: `new T(...)` (its counter starts at 0) handed to
`IntrusivePtr(T* ptr)`. -/
def MakeIntrusive (h : ObjHeap) : Except IFault (ObjHeap × IntrusivePtr) :=
  IntrusivePtr.ofPtr (h ++ [{ count_ := 0, destroyCalls := 0 }]) (some h.length)

/-! ## `src/unique/unique.h` -/

/-- What a `UniquePtr` does to a raw pointer it gives up. -/
inductive UEvent where
  /-- The call `GetDeleter()(p)` with the deleter `d` stored in the handle. -/
  | deleterCall (d p : Nat)
  /-- The expression `delete p` (`delete[] p` in the array specialization). -/
  | plainDelete (p : Nat)
deriving DecidableEq, Repr

/-- The field `CompressedPair<T*, Deleter> ptr_` of `UniquePtr<T, Deleter>`: the
raw pointer (`0` is `nullptr`) and the state of the deleter (`0` is the
default-constructed `Deleter()`). -/
structure UniquePtr where
  first : Nat
  second : Nat
deriving DecidableEq, Repr

/-- `UniquePtr::Clear`. -/
def UniquePtr.Clear (_self : UniquePtr) : UniquePtr := { first := 0, second := 0 }

/-- `UniquePtr::Get`. -/
def UniquePtr.Get (self : UniquePtr) : Nat := self.first

/-- `UniquePtr::GetDeleter`. -/
def UniquePtr.GetDeleter (self : UniquePtr) : Nat := self.second

/-- The constructor `UniquePtr(T* ptr, Deleter deleter)`. -/
def UniquePtr.new (ptr deleter : Nat) : UniquePtr := { first := ptr, second := deleter }

/-- `UniquePtr::Destructor` (the body of `~UniquePtr()` and of
`operator=(std::nullptr_t)`): the events so far and the handle afterwards. -/
def UniquePtr.Destructor (log : List UEvent) (self : UniquePtr) : List UEvent × UniquePtr :=
  if self.Get ≠ 0 then (log ++ [UEvent.deleterCall self.GetDeleter self.Get], self.Clear)
  else (log, self.Clear)

/-- `UniquePtr::operator=(std::nullptr_t)`. -/
def UniquePtr.assignNull (log : List UEvent) (self : UniquePtr) : List UEvent × UniquePtr :=
  self.Destructor log

/-- `UniquePtr::operator=(UniquePtr&& other)`: the events, `*this` and `other`
afterwards. -/
def UniquePtr.moveAssign (log : List UEvent) (self other : UniquePtr) :
    List UEvent × UniquePtr × UniquePtr :=
  if other.first = self.first then (log, self, other)
  else
    let r := self.Destructor log
    (r.1, { first := other.first, second := other.second }, other.Clear)

/-- `UniquePtr::Release`: the pointer returned and the handle afterwards. -/
def UniquePtr.Release (self : UniquePtr) : Nat × UniquePtr := (self.Get, self.Clear)

/-- `UniquePtr::Reset(T* ptr)`: `delete temp` on a null `temp` does nothing. -/
def UniquePtr.Reset (log : List UEvent) (self : UniquePtr) (ptr : Nat) :
    List UEvent × UniquePtr :=
  if ptr = self.first then (log, self)
  else
    let temp := self.first
    let self1 : UniquePtr := { first := ptr, second := 0 }
    if temp ≠ 0 then (log ++ [UEvent.plainDelete temp], self1) else (log, self1)

/-- `UniquePtr::Swap`. -/
def UniquePtr.Swap (self other : UniquePtr) : UniquePtr × UniquePtr := (other, self)

/-! ## Sequences of calls on one control block -/

/-- A call of one of the two releasing member functions of a control block. -/
inductive BlockCall where
  | Release
  | ReleaseWeak
deriving DecidableEq, Repr

/-- Make the call on block `b`. -/
def BlockCall.run (fuel : Nat) (h : Heap) (b : Nat) : BlockCall → Except Fault Heap
  | .Release => ControlBlock.Release fuel h b
  | .ReleaseWeak => ControlBlock.ReleaseWeak h b

/-- Make the calls on block `b` one after the other. -/
def runCalls (fuel : Nat) (b : Nat) : Heap → List BlockCall → Except Fault Heap
  | h, [] => pure h
  | h, c :: cs => do
    let h1 ← c.run fuel h b
    runCalls fuel b h1 cs

/-- What a sequence of releasing calls keeps true of the block, compared with
its counters `S`, `W` and its number `F` of `Delete()` calls at the start. -/
def CallsGood (S W F : Nat) (blk : ControlBlock) : Prop :=
  blk.strong_ ≤ S ∧ blk.weak_ ≤ W ∧
  blk.trace.count Event.finalize = F + (if S ≠ 0 ∧ blk.strong_ = 0 then 1 else 0) ∧
  (blk.strong_ ≠ 0 → blk.members = [])

/-! ## Programs that create any number of objects -/

/-- One statement of a program over the handle variables that may create any
number of objects; the managed objects own no smart pointers. -/
inductive Stmt where
  /-- A statement of `Op`. -/
  | op (o : Op)
  /-- The statement `SharedPtr<T> fresh;`. -/
  | defaultCtor
  /-- The statement `WeakPtr<T> fresh;`. -/
  | weakDefaultCtor
  /-- The statement `auto fresh = MakeShared<T>(...);`, the object being built
  at address `p`. -/
  | makeShared (p : Nat)
  /-- The statement `SharedPtr<T> fresh(p);`. -/
  | adopt (p : Nat)
  /-- The statement `SharedPtr<T> fresh(shared[src], p);`. -/
  | aliasCtor (src p : Nat)
  /-- The statement `shared[i].Reset(p);`. -/
  | resetPtr (i p : Nat)
  /-- The statement `shared[i].Swap(shared[j]);`. -/
  | swap (i j : Nat)
  /-- The statement `weak[i].Swap(weak[j]);`. -/
  | weakSwap (i j : Nat)
  /-- The statement `SharedPtr<T> fresh(weak[src]);` inside a `try` block whose
  handler for `BadWeakPtr` is empty. -/
  | promote (src : Nat)
deriving DecidableEq, Repr

/-- Statements that involve no `WeakPtr`. -/
def Stmt.sharedOnly : Stmt → Bool
  | .op o => o.sharedOnly
  | .defaultCtor | .makeShared _ | .adopt _ | .aliasCtor _ _ | .resetPtr _ _ | .swap _ _ => true
  | _ => false

/-- Statements other than the aliasing constructor and the adoption of a null
pointer. The address of an object built by `MakeShared` is the address of
`aligned_storage_` inside the block, which is not null. -/
def Stmt.plain : Stmt → Bool
  | .aliasCtor _ _ => false
  | .makeShared p | .adopt p | .resetPtr _ p => p != 0
  | _ => true

/-- The state before the first statement: no block, no variable. -/
def World.init : World := { heap := [], shared := [], weak := [] }

/-- Execute one statement. A statement naming a variable that does not exist
is not part of any program and leaves the state as it is. -/
def World.exec (fuel : Nat) (w : World) : Stmt → Except Fault World
  | .op o => w.step fuel o
  | .defaultCtor => pure { w with shared := w.shared ++ [SharedPtr.empty] }
  | .weakDefaultCtor => pure { w with weak := w.weak ++ [WeakPtr.empty] }
  | .makeShared p => do
    let r ← MakeShared w.heap p []
    pure { w with heap := r.1, shared := w.shared ++ [r.2] }
  | .adopt p =>
    let r := SharedPtr.ofPtr w.heap p []
    pure { w with heap := r.1, shared := w.shared ++ [r.2] }
  | .aliasCtor src p =>
    match w.shared[src]? with
    | none => pure w
    | some s => do
      let r ← SharedPtr.alias w.heap s p
      pure { w with heap := r.1, shared := w.shared ++ [r.2] }
  | .resetPtr i p =>
    match w.shared[i]? with
    | none => pure w
    | some s => do
      let r ← SharedPtr.ResetPtr fuel w.heap s p []
      pure { w with heap := r.1, shared := w.shared.set i r.2 }
  | .swap i j =>
    match w.shared[i]?, w.shared[j]? with
    | some a, some b =>
      let r := SharedPtr.Swap a b
      pure { w with shared := (w.shared.set i r.1).set j r.2 }
    | _, _ => pure w
  | .weakSwap i j =>
    match w.weak[i]?, w.weak[j]? with
    | some a, some b =>
      let r := WeakPtr.Swap a b
      pure { w with weak := (w.weak.set i r.1).set j r.2 }
    | _, _ => pure w
  | .promote src =>
    match w.weak[src]? with
    | none => pure w
    | some s =>
      match SharedPtr.promote w.heap s with
      | .ok r => pure { w with heap := r.1, shared := w.shared ++ [r.2] }
      | .error .badWeakPtr => pure w
      | .error e => .error e

/-- Execute a program. -/
def World.execAll (fuel : Nat) : World → List Stmt → Except Fault World
  | w, [] => pure w
  | w, st :: sts => do
    let w1 ← w.exec fuel st
    World.execAll fuel w1 sts

/-- The block reference of a `SharedPtr` is null exactly when its cached address
is null. -/
def SharedPtr.shaped (s : SharedPtr) : Prop := s.block_ = none ↔ s.observed_ = 0

/-- The block reference of a `WeakPtr` is null exactly when its cached address
is null. -/
def WeakPtr.shaped (s : WeakPtr) : Prop := s.block_ = none ↔ s.observed_ = 0

/-- Every handle variable has a null block reference exactly when its cached
address is null. -/
def Shaped (w : World) : Prop :=
  (∀ s ∈ w.shared, s.shaped) ∧ (∀ s ∈ w.weak, s.shaped)

/-- A program that uses each kind of statement other than the aliasing
constructor. -/
def shapedProgram : List Stmt :=
  [Stmt.defaultCtor, Stmt.weakDefaultCtor, Stmt.makeShared 7, Stmt.adopt 9,
    Stmt.op (Op.copyCtor 1), Stmt.op (Op.moveCtor 2), Stmt.op (Op.demote 1),
    Stmt.op (Op.lock 1), Stmt.promote 1, Stmt.promote 0, Stmt.op (Op.copyAssign 0 4),
    Stmt.op (Op.moveAssign 2 3), Stmt.resetPtr 4 11, Stmt.swap 0 5, Stmt.weakSwap 0 1,
    Stmt.op (Op.reset 1), Stmt.op (Op.weakCopyCtor 0), Stmt.op (Op.weakReset 0),
    Stmt.op (Op.destroy 6)]

/-- The state `shapedProgram` ends in. -/
def shapedWorld : World :=
  { heap := [blockAt BlockKind.obj 7 2 1, blockAt BlockKind.ptr 9 1 0,
      blockAt BlockKind.ptr 11 1 0],
    shared := [{ block_ := some 0, observed_ := 7 }, SharedPtr.empty,
      { block_ := some 0, observed_ := 7 }, SharedPtr.empty,
      { block_ := some 2, observed_ := 11 }, { block_ := some 1, observed_ := 9 },
      SharedPtr.empty],
    weak := [WeakPtr.empty, WeakPtr.empty, { block_ := some 0, observed_ := 7 }] }

/-! ## `src/shared/shared.h`: one counter -/

/-- One control block of `src/shared/shared.h`: `counter_` of `ControlBlockBase`
and, by subclass, `ptr_` of a `ControlBlockPtr` or the address of `obj_` of a
`ControlBlockObj`. `trace` records the destruction of the managed object and
the execution of `delete this`, `freed` says that `delete this` has run. -/
structure Single.ControlBlock where
  kind : BlockKind
  counter_ : Nat
  ptr_ : Nat
  trace : List Event
  freed : Bool
deriving DecidableEq, Repr

/-- The heap of the single-counter implementation. -/
abbrev Single.Heap := List Single.ControlBlock

/-- Follow a non-null block pointer. -/
def Single.Heap.deref (h : Single.Heap) (b : Nat) : Except Fault Single.ControlBlock :=
  match h[b]? with
  | some blk => if blk.freed then .error (.danglingBlock b) else .ok blk
  | none => .error (.danglingBlock b)

/-- The constructor `ControlBlockPtr(T* ptr)`: `counter_` starts at 0, then
`IncreaseCounter()`. -/
def Single.ControlBlockPtr.new (ptr : Nat) : Single.ControlBlock :=
  { kind := .ptr, counter_ := sizeInc 0, ptr_ := ptr, trace := [], freed := false }

/-- The constructor `ControlBlockObj(Args&&... args)`: `obj_` is built (at
address `storage`), then `IncreaseCounter()`. -/
def Single.ControlBlockObj.new (storage : Nat) : Single.ControlBlock :=
  { kind := .obj, counter_ := sizeInc 0, ptr_ := storage, trace := [], freed := false }

/-- `ControlBlockBase::IncreaseCounter`: `++counter_`. -/
def Single.ControlBlock.IncreaseCounter (h : Single.Heap) (b : Nat) :
    Except Fault Single.Heap := do
  let blk ← Single.Heap.deref h b
  pure (h.set b { blk with counter_ := sizeInc blk.counter_ })

/-- `ControlBlockBase::DecreaseCounter`: `--counter_`. -/
def Single.ControlBlock.DecreaseCounter (h : Single.Heap) (b : Nat) :
    Except Fault Single.Heap := do
  let blk ← Single.Heap.deref h b
  pure (h.set b { blk with counter_ := sizeDec blk.counter_ })

/-- The virtual `Delete()`. `ControlBlockPtr`: `delete ptr_`; `ControlBlockObj`:
empty body. -/
def Single.ControlBlock.Delete (h : Single.Heap) (b : Nat) : Except Fault Single.Heap := do
  let blk ← Single.Heap.deref h b
  match blk.kind with
  | .ptr => pure (h.set b { blk with trace := blk.trace ++ [Event.finalize] })
  | .obj => pure h

/-- The statement `delete this;` executed by block `b`: the destructor of the
subclass calls `ControlBlockBase::Release()` (here `rel`), then the data members
are destroyed (`obj_` of a `ControlBlockObj` is the managed object), then the
block is gone. -/
def Single.Heap.deleteThis (rel : Single.Heap → Nat → Except Fault Single.Heap)
    (h : Single.Heap) (b : Nat) : Except Fault Single.Heap := do
  let h1 ← rel h b
  let blk ← Single.Heap.deref h1 b
  let gone := match blk.kind with
    | .ptr => blk.trace
    | .obj => blk.trace ++ [Event.finalize]
  pure (h1.set b { blk with freed := true, trace := gone ++ [Event.free] })

/-- `ControlBlockBase::Release()`; `operator bool` of the block is
`counter_ != 0`. The first argument bounds the nesting of calls. -/
def Single.ControlBlock.Release : Nat → Single.Heap → Nat → Except Fault Single.Heap
  | 0, _, _ => .error .outOfFuel
  | fuel + 1, h, b => do
    let blk ← Single.Heap.deref h b
    if blk.counter_ ≠ 0 then
      let h1 ← Single.ControlBlock.DecreaseCounter h b
      let blk1 ← Single.Heap.deref h1 b
      if blk1.counter_ = 0 then
        let h2 ← Single.ControlBlock.Delete h1 b
        Single.Heap.deleteThis (fun g c => Single.ControlBlock.Release fuel g c) h2 b
      else pure h1
    else pure h

/-- `SharedPtr::Release` of `src/shared/shared.h`. -/
def Single.SharedPtr.Release (fuel : Nat) (h : Single.Heap) (self : SharedPtr) :
    Except Fault (Single.Heap × SharedPtr) :=
  if self.observed_ ≠ 0 then
    match self.block_ with
    | none => .error .nullBlock
    | some b => do
      let h1 ← Single.ControlBlock.Release fuel h b
      pure (h1, { block_ := none, observed_ := 0 })
  else pure (h, self)

/-- The constructor `SharedPtr(T* ptr)` of `src/shared/shared.h`. -/
def Single.SharedPtr.ofPtr (h : Single.Heap) (ptr : Nat) : Single.Heap × SharedPtr :=
  (h ++ [Single.ControlBlockPtr.new ptr], { block_ := some h.length, observed_ := ptr })

/-- The constructor `SharedPtr(ControlBlockObj<T>* cb)` of `src/shared/shared.h`. -/
def Single.SharedPtr.ofBlockObj (h : Single.Heap) (cb : Nat) : Except Fault SharedPtr := do
  let blk ← Single.Heap.deref h cb
  pure { block_ := some cb, observed_ := blk.ptr_ }

/-- `MakeShared<T>(args...)` of `src/shared/shared.h`. -/
def Single.MakeShared (h : Single.Heap) (storage : Nat) :
    Except Fault (Single.Heap × SharedPtr) := do
  let h1 := h ++ [Single.ControlBlockObj.new storage]
  let s ← Single.SharedPtr.ofBlockObj h1 h.length
  pure (h1, s)

/-- `SharedPtr::IncreaseCounter`. -/
def Single.SharedPtr.IncreaseCounter (h : Single.Heap) (self : SharedPtr) :
    Except Fault Single.Heap :=
  if self.observed_ ≠ 0 then
    match self.block_ with
    | none => .error .nullBlock
    | some b => Single.ControlBlock.IncreaseCounter h b
  else pure h

/-- The copy constructor of `src/shared/shared.h`. -/
def Single.SharedPtr.copy (h : Single.Heap) (other : SharedPtr) :
    Except Fault (Single.Heap × SharedPtr) := do
  let self : SharedPtr := { block_ := other.block_, observed_ := other.observed_ }
  let h1 ← Single.SharedPtr.IncreaseCounter h self
  pure (h1, self)

/-- The move constructor of `src/shared/shared.h`: the new handle and `other`
afterwards. -/
def Single.SharedPtr.move (other : SharedPtr) : SharedPtr × SharedPtr :=
  ({ block_ := other.block_, observed_ := other.observed_ }, { block_ := none, observed_ := 0 })

/-- The aliasing constructor of `src/shared/shared.h`. -/
def Single.SharedPtr.alias (h : Single.Heap) (other : SharedPtr) (ptr : Nat) :
    Except Fault (Single.Heap × SharedPtr) := do
  let self : SharedPtr := { block_ := other.block_, observed_ := ptr }
  let h1 ← Single.SharedPtr.IncreaseCounter h self
  pure (h1, self)

/-- `SharedPtr::UseCount` of `src/shared/shared.h`: `block_->counter_`. -/
def Single.SharedPtr.UseCount (h : Single.Heap) (self : SharedPtr) : Except Fault Nat :=
  match self.block_ with
  | none => pure 0
  | some b => do
    let blk ← Single.Heap.deref h b
    pure blk.counter_

/-- `SharedPtr::operator bool` of `src/shared/shared.h`. -/
def Single.SharedPtr.toBool (self : SharedPtr) : Bool := self.observed_ != 0

/-- `SharedPtr::Get` of `src/shared/shared.h`. -/
def Single.SharedPtr.Get (self : SharedPtr) : Nat :=
  if Single.SharedPtr.toBool self then self.observed_ else 0

/-- `SharedPtr::operator=(const SharedPtr<T>& other)` of `src/shared/shared.h`. -/
def Single.SharedPtr.copyAssign (fuel : Nat) (h : Single.Heap) (self other : SharedPtr) :
    Except Fault (Single.Heap × SharedPtr) :=
  if self.observed_ = other.observed_ then pure (h, self)
  else do
    let r ← Single.SharedPtr.Release fuel h self
    let self1 : SharedPtr := { block_ := other.block_, observed_ := other.observed_ }
    let h2 ← Single.SharedPtr.IncreaseCounter r.1 self1
    pure (h2, self1)

/-- `SharedPtr::operator=(SharedPtr<T>&& other)` of `src/shared/shared.h`. -/
def Single.SharedPtr.moveAssign (fuel : Nat) (h : Single.Heap) (self other : SharedPtr) :
    Except Fault (Single.Heap × SharedPtr × SharedPtr) :=
  if self.observed_ = other.observed_ then pure (h, self, other)
  else do
    let r ← Single.SharedPtr.Release fuel h self
    pure (r.1, { block_ := other.block_, observed_ := other.observed_ },
      { block_ := none, observed_ := 0 })

/-- `SharedPtr::Reset()` of `src/shared/shared.h`. -/
def Single.SharedPtr.Reset (fuel : Nat) (h : Single.Heap) (self : SharedPtr) :
    Except Fault (Single.Heap × SharedPtr) :=
  Single.SharedPtr.Release fuel h self

/-- The destructor `~SharedPtr()` of `src/shared/shared.h`. -/
def Single.SharedPtr.destructor (fuel : Nat) (h : Single.Heap) (self : SharedPtr) :
    Except Fault (Single.Heap × SharedPtr) :=
  Single.SharedPtr.Release fuel h self

/-- `SharedPtr::Reset(T* ptr)` of `src/shared/shared.h`. -/
def Single.SharedPtr.ResetPtr (fuel : Nat) (h : Single.Heap) (self : SharedPtr) (ptr : Nat) :
    Except Fault (Single.Heap × SharedPtr) := do
  let temp := self.block_
  let h1 := h ++ [Single.ControlBlockPtr.new ptr]
  let self1 : SharedPtr := { block_ := some h.length, observed_ := ptr }
  match temp with
  | some b => do
    let h2 ← Single.ControlBlock.Release fuel h1 b
    pure (h2, self1)
  | none => pure (h1, self1)

/-- `SharedPtr::Swap` of `src/shared/shared.h`. -/
def Single.SharedPtr.Swap (self other : SharedPtr) : SharedPtr × SharedPtr := (other, self)

/-- A program state of the single-counter implementation. -/
structure Single.World where
  heap : Single.Heap
  shared : List SharedPtr
deriving DecidableEq, Repr

/-- The state before the first statement. -/
def Single.World.init : Single.World := { heap := [], shared := [] }

/-- Execute one statement on the single-counter implementation. The header has
no `WeakPtr`: a statement that names one is not part of any program and
leaves the state as it is. -/
def Single.World.exec (fuel : Nat) (w : Single.World) : Stmt → Except Fault Single.World
  | .op (.copyCtor src) =>
    match w.shared[src]? with
    | none => pure w
    | some s => do
      let r ← Single.SharedPtr.copy w.heap s
      pure { w with heap := r.1, shared := w.shared ++ [r.2] }
  | .op (.moveCtor src) =>
    match w.shared[src]? with
    | none => pure w
    | some s =>
      let r := Single.SharedPtr.move s
      pure { w with shared := (w.shared.set src r.2) ++ [r.1] }
  | .op (.copyAssign dst src) =>
    match w.shared[dst]?, w.shared[src]? with
    | some d, some s => do
      let r ← Single.SharedPtr.copyAssign fuel w.heap d s
      pure { w with heap := r.1, shared := w.shared.set dst r.2 }
    | _, _ => pure w
  | .op (.moveAssign dst src) =>
    match w.shared[dst]?, w.shared[src]? with
    | some d, some s => do
      let r ← Single.SharedPtr.moveAssign fuel w.heap d s
      pure { w with heap := r.1, shared := (w.shared.set src r.2.2).set dst r.2.1 }
    | _, _ => pure w
  | .op (.reset i) =>
    match w.shared[i]? with
    | none => pure w
    | some s => do
      let r ← Single.SharedPtr.Reset fuel w.heap s
      pure { w with heap := r.1, shared := w.shared.set i r.2 }
  | .op (.destroy i) =>
    match w.shared[i]? with
    | none => pure w
    | some s => do
      let r ← Single.SharedPtr.destructor fuel w.heap s
      pure { w with heap := r.1, shared := w.shared.set i r.2 }
  | .op _ => pure w
  | .defaultCtor => pure { w with shared := w.shared ++ [SharedPtr.empty] }
  | .makeShared p => do
    let r ← Single.MakeShared w.heap p
    pure { w with heap := r.1, shared := w.shared ++ [r.2] }
  | .adopt p =>
    let r := Single.SharedPtr.ofPtr w.heap p
    pure { w with heap := r.1, shared := w.shared ++ [r.2] }
  | .aliasCtor src p =>
    match w.shared[src]? with
    | none => pure w
    | some s => do
      let r ← Single.SharedPtr.alias w.heap s p
      pure { w with heap := r.1, shared := w.shared ++ [r.2] }
  | .resetPtr i p =>
    match w.shared[i]? with
    | none => pure w
    | some s => do
      let r ← Single.SharedPtr.ResetPtr fuel w.heap s p
      pure { w with heap := r.1, shared := w.shared.set i r.2 }
  | .swap i j =>
    match w.shared[i]?, w.shared[j]? with
    | some a, some b =>
      let r := Single.SharedPtr.Swap a b
      pure { w with shared := (w.shared.set i r.1).set j r.2 }
    | _, _ => pure w
  | _ => pure w

/-- Execute a program on the single-counter implementation. -/
def Single.World.execAll (fuel : Nat) : Single.World → List Stmt → Except Fault Single.World
  | w, [] => pure w
  | w, st :: sts => do
    let w1 ← w.exec fuel st
    Single.World.execAll fuel w1 sts

/-- A block of the single-counter implementation seen as a block of the
dual-counter one: no `WeakPtr` exists and the managed object owns no smart
pointers. -/
def Single.ControlBlock.toDual (blk : Single.ControlBlock) : SmartPtrs.ControlBlock :=
  { kind := blk.kind, strong_ := blk.counter_, weak_ := 0, ptr_ := blk.ptr_,
    members := [], trace := blk.trace, freed := blk.freed }

/-- A state of the single-counter implementation seen as a state of the
dual-counter one. -/
def Single.World.toDual (w : Single.World) : SmartPtrs.World :=
  { heap := w.heap.map Single.ControlBlock.toDual, shared := w.shared, weak := [] }

/-- A program without `WeakPtr` that uses each kind of statement, the aliasing
constructor and the adoption of a null pointer included. -/
def sharedProgram : List Stmt :=
  [Stmt.makeShared 7, Stmt.op (Op.copyCtor 0), Stmt.adopt 9, Stmt.aliasCtor 0 5,
    Stmt.aliasCtor 2 0, Stmt.resetPtr 1 11, Stmt.swap 0 2, Stmt.op (Op.moveCtor 2),
    Stmt.defaultCtor, Stmt.op (Op.copyAssign 6 3), Stmt.op (Op.moveAssign 1 0),
    Stmt.adopt 0, Stmt.op (Op.reset 3), Stmt.op (Op.destroy 5), Stmt.op (Op.destroy 6),
    Stmt.op (Op.reset 1)]

/-! ## Programs over intrusive pointers -/

/-- The field of `SimpleCounter`; a new counter holds 0. -/
structure SimpleCounter where
  count_ : Nat
deriving DecidableEq, Repr

/-- `SimpleCounter::IncRef`: `return ++count_;` (the value returned and the
counter afterwards). -/
def SimpleCounter.IncRef (self : SimpleCounter) : Nat × SimpleCounter :=
  (sizeInc self.count_, { count_ := sizeInc self.count_ })

/-- `SimpleCounter::DecRef`: `return --count_;` (the value returned and the
counter afterwards). -/
def SimpleCounter.DecRef (self : SimpleCounter) : Nat × SimpleCounter :=
  (sizeDec self.count_, { count_ := sizeDec self.count_ })

/-- `SimpleCounter::RefCount`. -/
def SimpleCounter.RefCount (self : SimpleCounter) : Nat := self.count_

/-- `SimpleCounter::operator=(const SimpleCounter& sc)`: `return *this;`. -/
def SimpleCounter.copyAssign (self _sc : SimpleCounter) : SimpleCounter := self

/-- `SimpleCounter::operator=(SimpleCounter&& sc)`: `return *this;`. -/
def SimpleCounter.moveAssign (self _sc : SimpleCounter) : SimpleCounter := self

/-- A program state: the reference-counted objects and the `IntrusivePtr`
variables of the program, numbered in order of construction. A destroyed
variable keeps its slot (holding the null pointer its destructor left). The
objects own no smart pointers. -/
structure IWorld where
  heap : ObjHeap
  ptrs : List IntrusivePtr
deriving DecidableEq, Repr

/-- One statement of a program over `IntrusivePtr` variables. -/
inductive IOp where
  /-- The statement `auto fresh = MakeIntrusive<T>();`. -/
  | makeIntrusive
  /-- The statement `T* raw = new T;` (the object is held by no handle yet). -/
  | newObject
  /-- The statement `IntrusivePtr<T> fresh(p);` for a raw pointer `p`. -/
  | ofPtr (p : Option Nat)
  /-- The statement `IntrusivePtr<T> fresh(ptrs[src]);`. -/
  | copyCtor (src : Nat)
  /-- The statement `IntrusivePtr<T> fresh(std::move(ptrs[src]));`. -/
  | moveCtor (src : Nat)
  /-- The statement `ptrs[dst] = ptrs[src];`. -/
  | copyAssign (dst src : Nat)
  /-- The statement `ptrs[dst] = std::move(ptrs[src]);`. -/
  | moveAssign (dst src : Nat)
  /-- The statement `ptrs[i].Reset();`. -/
  | reset (i : Nat)
  /-- The statement `ptrs[i].Swap(ptrs[j]);`. -/
  | swap (i j : Nat)
  /-- The destructor of `ptrs[i]` runs. -/
  | destroy (i : Nat)
deriving DecidableEq, Repr

/-- The state before the first statement. -/
def IWorld.init : IWorld := { heap := [], ptrs := [] }

/-- Execute one statement. A statement naming a variable that does not exist
is not part of any program and leaves the state as it is. -/
def IWorld.step (w : IWorld) : IOp → Except IFault IWorld
  | .makeIntrusive => do
    let r ← MakeIntrusive w.heap
    pure { heap := r.1, ptrs := w.ptrs ++ [r.2] }
  | .newObject => pure { w with heap := w.heap ++ [{ count_ := 0, destroyCalls := 0 }] }
  | .ofPtr p => do
    let r ← IntrusivePtr.ofPtr w.heap p
    pure { heap := r.1, ptrs := w.ptrs ++ [r.2] }
  | .copyCtor src =>
    match w.ptrs[src]? with
    | none => pure w
    | some s => do
      let r ← IntrusivePtr.copy w.heap s
      pure { heap := r.1, ptrs := w.ptrs ++ [r.2] }
  | .moveCtor src =>
    match w.ptrs[src]? with
    | none => pure w
    | some s =>
      let r := IntrusivePtr.move s
      pure { w with ptrs := (w.ptrs.set src r.2) ++ [r.1] }
  | .copyAssign dst src =>
    match w.ptrs[dst]?, w.ptrs[src]? with
    | some d, some s => do
      let r ← IntrusivePtr.copyAssign w.heap d s
      pure { heap := r.1, ptrs := w.ptrs.set dst r.2 }
    | _, _ => pure w
  | .moveAssign dst src =>
    match w.ptrs[dst]?, w.ptrs[src]? with
    | some d, some s => do
      let r ← IntrusivePtr.moveAssign w.heap d s
      pure { heap := r.1, ptrs := (w.ptrs.set src r.2.2).set dst r.2.1 }
    | _, _ => pure w
  | .reset i =>
    match w.ptrs[i]? with
    | none => pure w
    | some s => do
      let r ← IntrusivePtr.Reset w.heap s
      pure { heap := r.1, ptrs := w.ptrs.set i r.2 }
  | .swap i j =>
    match w.ptrs[i]?, w.ptrs[j]? with
    | some a, some b =>
      let r := IntrusivePtr.Swap a b
      pure { w with ptrs := (w.ptrs.set i r.1).set j r.2 }
    | _, _ => pure w
  | .destroy i =>
    match w.ptrs[i]? with
    | none => pure w
    | some s => do
      let r ← IntrusivePtr.destructor w.heap s
      pure { heap := r.1, ptrs := w.ptrs.set i r.2 }

/-- Execute a program. -/
def IWorld.run : IWorld → List IOp → Except IFault IWorld
  | w, [] => pure w
  | w, op :: ops => do
    let w1 ← w.step op
    IWorld.run w1 ops

/-- Number of handles in `l` that point at object `o`. -/
def holdersIn (l : List IntrusivePtr) (o : Nat) : Nat :=
  l.countP (fun s => s.ptr_ == some o)

/-- Number of `IntrusivePtr` variables that point at object `o`. -/
def IWorld.holders (w : IWorld) (o : Nat) : Nat := holdersIn w.ptrs o

/-- The value of `count_` in object `o` of `h` (0 when never allocated). -/
def countOf (h : ObjHeap) (o : Nat) : Nat :=
  match h[o]? with
  | some obj => obj.count_
  | none => 0

/-- Number of times `Deleter::Destroy` has been invoked on object `o` of `h`. -/
def destroyCallsOf (h : ObjHeap) (o : Nat) : Nat :=
  match h[o]? with
  | some obj => obj.destroyCalls
  | none => 0

/-- The value of `count_` in object `o`. -/
def IWorld.count (w : IWorld) (o : Nat) : Nat := countOf w.heap o

/-- Number of times `Deleter::Destroy` has been invoked on object `o`. -/
def IWorld.destroyCalls (w : IWorld) (o : Nat) : Nat := destroyCallsOf w.heap o

/-- Object `o` has been allocated and not destroyed. -/
def IWorld.live (w : IWorld) (o : Nat) : Bool :=
  match w.heap[o]? with
  | some obj => obj.destroyCalls == 0
  | none => false

/-- The objects of `h` are counted by `c`: an object that has not been destroyed
has `count_ = c o`; a destroyed one was destroyed once, has `count_ = 0` and
`c o = 0`; and `c o = 0` for an object never allocated. -/
def Counts (h : ObjHeap) (c : Nat → Nat) : Prop :=
  (∀ o obj, h[o]? = some obj →
    (obj.destroyCalls = 0 ∧ obj.count_ = c o) ∨
      (obj.destroyCalls = 1 ∧ obj.count_ = 0 ∧ c o = 0)) ∧
  (∀ o, h.length ≤ o → c o = 0)

/-- Invariant of programs over intrusive pointers: every object is counted by
the number of variables that point at it, and at most `n` variables exist. -/
def IInv (n : Nat) (w : IWorld) : Prop :=
  Counts w.heap (holdersIn w.ptrs) ∧ w.ptrs.length ≤ n

/-- A statement does not hand the constructor a raw pointer to an object that
was destroyed or never allocated. -/
def IOp.valid (w : IWorld) : IOp → Bool
  | .ofPtr (some o) => w.live o
  | _ => true

/-- From heap `h` to heap `h1`, `Deleter::Destroy` was invoked on an object
exactly if its count went from 1 to 0, and then once. -/
def Eff (h h1 : ObjHeap) : Prop :=
  ∀ z, destroyCallsOf h1 z
    = destroyCallsOf h z + (if countOf h z = 1 ∧ countOf h1 z = 0 then 1 else 0)

/-- What one statement of a program over intrusive pointers guarantees: it
returns, the invariant still holds, and `Deleter::Destroy` was invoked exactly
on an object whose count went from 1 to 0. -/
def IStepGood (n : Nat) (w : IWorld) (op : IOp) : Prop :=
  ∃ w1, w.step op = .ok w1 ∧ IInv (n + 1) w1 ∧ Eff w.heap w1.heap

/-- A program that uses each kind of statement but `Reset()` and destruction. -/
def intrusiveProgram : List IOp :=
  [IOp.makeIntrusive, IOp.newObject, IOp.ofPtr (some 1), IOp.ofPtr none, IOp.copyCtor 0,
    IOp.moveCtor 1, IOp.copyAssign 2 0, IOp.moveAssign 1 4, IOp.swap 0 3]

/-- The state `intrusiveProgram` ends in: three variables on object 0, one on
object 1. -/
def intrusiveWorld : IWorld :=
  { heap := [{ count_ := 3, destroyCalls := 0 }, { count_ := 1, destroyCalls := 0 }],
    ptrs := [{ ptr_ := some 0 }, { ptr_ := some 1 }, { ptr_ := some 0 }, { ptr_ := some 0 },
      { ptr_ := none }] }

/-! ## Arithmetic and heap lemmas -/

theorem sizeInc_eq (x : Nat) (hx : x + 1 < SIZE_MOD) : sizeInc x = x + 1 := by
  unfold sizeInc
  exact Nat.mod_eq_of_lt hx

theorem sizeDec_eq (x : Nat) (h1 : 1 ≤ x) (hx : x < SIZE_MOD) : sizeDec x = x - 1 := by
  unfold sizeDec SIZE_MOD at *
  omega

theorem deref_eq {h : Heap} {b : Nat} {blk : ControlBlock} (hb : h[b]? = some blk)
    (hf : blk.freed = false) : h.deref b = .ok blk := by
  simp [Heap.deref, hb, hf]

theorem deref_set {h : Heap} {b : Nat} {blk blk1 : ControlBlock} (hb : h[b]? = some blk)
    (hf : blk1.freed = false) : Heap.deref (h.set b blk1) b = .ok blk1 := by
  have hlt : b < h.length := by
    rcases List.getElem?_eq_some.mp hb with ⟨hl, _⟩
    exact hl
  simp [Heap.deref, List.getElem?_set, hlt, hf]

theorem ReleaseWeak_eq {h : Heap} {b : Nat} {x : ControlBlock} (hb : h[b]? = some x)
    (hf : x.freed = false) (h1 : 1 ≤ x.weak_) (hlt : x.weak_ < SIZE_MOD) :
    ControlBlock.ReleaseWeak h b = .ok (h.set b
      (if x.weak_ = 1 ∧ x.strong_ = 0 then
        { x with weak_ := 0, freed := true, trace := x.trace ++ [Event.free] }
      else { x with weak_ := x.weak_ - 1 })) := by
  have hne : x.weak_ ≠ 0 := by omega
  have hd := sizeDec_eq _ h1 hlt
  unfold ControlBlock.ReleaseWeak ControlBlock.DecreaseWeakCounter Heap.deleteThis
  simp only [deref_eq hb hf, Except.bind, bind, pure, Except.pure, hne, ne_eq, not_false_eq_true, if_true]
  rw [deref_set hb (by simpa using hf)]
  simp only [hd]
  by_cases hw : x.weak_ = 1
  · by_cases hs : x.strong_ = 0
    · simp [hw, hs]
    · simp [hw, hs]
  · have : x.weak_ - 1 ≠ 0 := by omega
    simp [hw, this]

theorem getElem?_lt {h : Heap} {b : Nat} {blk : ControlBlock} (hb : h[b]? = some blk) :
    b < h.length := by
  rcases List.getElem?_eq_some.mp hb with ⟨hl, _⟩
  exact hl

theorem Release_many {f : Nat} {h : Heap} {b : Nat} {x : ControlBlock}
    (hb : h[b]? = some x) (hf : x.freed = false) (h2 : 2 ≤ x.strong_)
    (hlt : x.strong_ < SIZE_MOD) :
    ControlBlock.Release (f + 1) h b = .ok (h.set b { x with strong_ := x.strong_ - 1 }) := by
  have hne : x.strong_ ≠ 0 := by omega
  have hd := sizeDec_eq _ (by omega) hlt
  have hne1 : x.strong_ - 1 ≠ 0 := by omega
  unfold ControlBlock.Release ControlBlock.DecreaseStrongCounter
  simp only [deref_eq hb hf, Except.bind, bind, pure, Except.pure, hne, ne_eq, not_false_eq_true, if_true]
  rw [deref_set hb (by simpa using hf)]
  simp [hd, hne1]

theorem Release_last {f : Nat} {h h2 : Heap} {b : Nat} {x y : ControlBlock}
    (hb : h[b]? = some x) (hf : x.freed = false) (h1 : x.strong_ = 1)
    (hD : ControlBlock.Delete (fun g c => ControlBlock.Release f g c)
      (h.set b { x with strong_ := 0 }) b = .ok h2)
    (hb2 : h2[b]? = some y) (hf2 : y.freed = false) :
    ControlBlock.Release (f + 1) h b = .ok
      (if y.weak_ = 0 then
        h2.set b { y with freed := true, trace := y.trace ++ [Event.free] }
      else h2) := by
  have hd : sizeDec x.strong_ = 0 := by rw [h1]; rfl
  unfold ControlBlock.Release ControlBlock.DecreaseStrongCounter Heap.deleteThis
  simp only [deref_eq hb hf, Except.bind, bind, pure, Except.pure, h1, ne_eq, not_false_eq_true,
    if_true, one_ne_zero]
  rw [deref_set hb (by simpa using hf)]
  simp only [hd] at *
  have hd1 : sizeDec 1 = 0 := rfl
  simp only [hd1, hD, deref_eq hb2 hf2, if_true]
  by_cases hw : y.weak_ = 0 <;> simp [hw]

theorem Delete_plain {r : Heap → Nat → Except Fault Heap} {h : Heap} {b : Nat}
    {x : ControlBlock} (hb : h[b]? = some x) (hf : x.freed = false)
    (hm : x.members = []) :
    ControlBlock.Delete r h b
      = .ok (h.set b { x with trace := x.trace ++ [Event.finalize] }) := by
  unfold ControlBlock.Delete
  simp only [deref_eq hb hf, Except.bind, bind, pure, Except.pure, hm, destroyMembers]
  cases x.kind <;> simp

/-- Claim C6: `ReleaseWeak()` of a live control block (either subclass) with weak
count `W ≥ 1` and strong count `S` returns; afterwards the weak count is
`W - 1` and the strong count is still `S`; `Delete()` is not called; and
`delete this` has run exactly when `W - 1 = 0` and `S = 0`. No other block is
touched. -/
theorem releaseWeak_contract (h : Heap) (b : Nat) (blk : ControlBlock)
    (hb : h[b]? = some blk) (hlive : blk.freed = false)
    (hW : 1 ≤ blk.weak_) (hsize : blk.weak_ < SIZE_MOD) :
    ∃ blk3, ControlBlock.ReleaseWeak h b = .ok (h.set b blk3) ∧
      blk3.weak_ = blk.weak_ - 1 ∧ blk3.strong_ = blk.strong_ ∧
      blk3.trace.count Event.finalize = blk.trace.count Event.finalize ∧
      blk3.trace = blk.trace ++
        (if blk.weak_ - 1 = 0 ∧ blk.strong_ = 0 then [Event.free] else []) ∧
      (blk3.freed = true ↔ blk.weak_ - 1 = 0 ∧ blk.strong_ = 0) := by
  refine ⟨_, ReleaseWeak_eq hb hlive hW hsize, ?_⟩
  have e : blk.weak_ - 1 = 0 ↔ blk.weak_ = 1 := by omega
  by_cases hc : blk.weak_ = 1 ∧ blk.strong_ = 0
  · simp [hc, List.count_append]
  · have hc2 : ¬ (blk.weak_ - 1 = 0 ∧ blk.strong_ = 0) := by rw [e]; exact hc
    simp only [hc, hc2, if_false, List.append_nil, true_and, hlive]
    simp

/-- Claim C7: both creation paths allocate a new control block (appended to the
heap, the blocks already there untouched) with strong count 1 and weak count 0;
the handle returned has `UseCount() == 1` and the block has combined
`UseCount() == 1`. The handle of `MakeShared` caches `GetPtr()`, the address of
the object embedded in the block; the handle of `SharedPtr(T* ptr)` caches
`ptr` and the block stores it. -/
theorem creation_counts (h : Heap) (p : Nat) (members : List Member) :
    (∃ blk s, MakeShared h p members = .ok (h ++ [blk], s) ∧
      blk.kind = BlockKind.obj ∧ blk.strong_ = 1 ∧ blk.weak_ = 0 ∧ blk.freed = false ∧
      s.block_ = some h.length ∧ s.observed_ = blk.GetPtr ∧ blk.GetPtr = p ∧
      SharedPtr.UseCount (h ++ [blk]) s = .ok 1 ∧
      ControlBlock.UseCount (h ++ [blk]) h.length = .ok 1) ∧
    (∃ blk s, SharedPtr.ofPtr h p members = (h ++ [blk], s) ∧
      blk.kind = BlockKind.ptr ∧ blk.strong_ = 1 ∧ blk.weak_ = 0 ∧ blk.freed = false ∧
      s.block_ = some h.length ∧ s.observed_ = p ∧ blk.ptr_ = p ∧
      SharedPtr.UseCount (h ++ [blk]) s = .ok 1 ∧
      ControlBlock.UseCount (h ++ [blk]) h.length = .ok 1) := by
  constructor
  · refine ⟨ControlBlockObj.new p members, ⟨some h.length, p⟩, ?_⟩
    simp [MakeShared, SharedPtr.ofBlockObj, Heap.deref, ControlBlockObj.new, ControlBlock.GetPtr,
      SharedPtr.UseCount, ControlBlock.UseStrongCount, ControlBlock.UseCount, sizeInc,
      bind, Except.bind, pure, Except.pure]
  · refine ⟨ControlBlockPtr.new p members, ⟨some h.length, p⟩, ?_⟩
    simp [SharedPtr.ofPtr, Heap.deref, ControlBlockPtr.new,
      SharedPtr.UseCount, ControlBlock.UseStrongCount, ControlBlock.UseCount, sizeInc,
      bind, Except.bind, pure, Except.pure]

/-- Claim C6 at a concrete heap. -/
theorem releaseWeak_contract_witness :
    ∃ blk3, ControlBlock.ReleaseWeak chainHeap 0 = .ok (chainHeap.set 0 blk3) ∧
      blk3.weak_ = 0 ∧ blk3.strong_ = 1 ∧
      blk3.trace.count Event.finalize = 0 ∧ blk3.trace = [] ∧
      (blk3.freed = true ↔ (1 : Nat) - 1 = 0 ∧ (1 : Nat) = 0) :=
  releaseWeak_contract chainHeap 0
    { kind := .obj, strong_ := 1, weak_ := 1, ptr_ := 7,
      members := [Member.shared { block_ := some 1, observed_ := 9 }], trace := [], freed := false }
    rfl rfl (by decide) (by decide)

/-- Claim C3 fails on the code: the managed object owns the last `WeakPtr` on its
own block (strong count 1, weak count 1). `Release()` takes the strong count to
0 and calls `Delete()`; the destructor of the object releases that `WeakPtr`,
whose `ReleaseWeak()` finds both counters 0 and runs `delete this`; when
`Delete()` returns, `Release()` reads `weak_` of the block that has just been
deleted. The same happens for a `ControlBlockObj` and for a `ControlBlockPtr`. -/
theorem reentrant_release_reads_deleted_block (fuel : Nat) :
    ∃ h a blk, selfObserving = .ok (h, a) ∧ h[0]? = some blk ∧
      blk.strong_ = 1 ∧ blk.weak_ = 1 ∧
      (∃ h2 blk2, ControlBlock.Delete (fun g c => ControlBlock.Release fuel g c)
          (h.set 0 { blk with strong_ := 0 }) 0 = .ok h2 ∧
        h2[0]? = some blk2 ∧ blk2.freed = true ∧
        blk2.trace = [Event.finalize, Event.free]) ∧
      ControlBlock.Release (fuel + 1) h 0 = .error (Fault.danglingBlock 0) ∧
      SharedPtr.Reset (fuel + 1) h a = .error (Fault.danglingBlock 0) ∧
    ∃ h1 a1, selfObservingPtr = .ok (h1, a1) ∧
      SharedPtr.Reset (fuel + 1) h1 a1 = .error (Fault.danglingBlock 0) :=
  ⟨_, _, _, rfl, rfl, rfl, rfl, ⟨_, _, rfl, rfl, rfl, rfl⟩, rfl, rfl, _, _, rfl, rfl⟩

/-- Claim C4 fails on the code: after `auto a = MakeShared<int>(42);
SharedPtr<int> b(a, nullptr);` two handles hold block 0 and its strong count
is 1; after `a.Reset()` the block has been deleted although `b` still refers
to it, and `b.UseCount()` reads the deleted block. -/
theorem aliasing_with_null_is_not_counted :
    ∃ w w1, aliasNull = .ok w ∧
      w.sharedHolders 0 = 2 ∧ w.strong 0 = 1 ∧ w.isFreed 0 = false ∧
      w.step 1 (Op.reset 0) = .ok w1 ∧
      w1.isFreed 0 = true ∧ w1.sharedHolders 0 = 1 ∧
      w1.shared[1]? = some { block_ := some 0, observed_ := 0 } ∧
      SharedPtr.UseCount w1.heap { block_ := some 0, observed_ := 0 }
        = .error (Fault.danglingBlock 0) :=
  ⟨_, _, rfl, rfl, rfl, rfl, rfl, rfl, rfl, rfl, rfl⟩

/-- Claim C8 fails on the code: for `int* p = nullptr; SharedPtr<int> s(p);
WeakPtr<int> w(s);` the weak pointer holds block 0, whose strong count is 1;
the promoting constructor does not throw, yields a handle on block 0, and the
strong count is still 1. -/
theorem promote_of_null_address_keeps_count :
    ∃ h s w, adoptNull = .ok (h, s, w) ∧ w.block_ = some 0 ∧
      ControlBlock.UseStrongCount h 0 = .ok 1 ∧
      ∃ h1 t, SharedPtr.promote h w = .ok (h1, t) ∧ t.block_ = some 0 ∧
        ControlBlock.UseStrongCount h1 0 = .ok 1 :=
  ⟨_, _, _, rfl, rfl, rfl, _, _, rfl, rfl, rfl⟩

/-- Claim C9 fails as stated: for `int* p = nullptr; SharedPtr<int> s(p);
WeakPtr<int> w(s);` the promoting constructor does not throw, yet `w.Lock()`
returns a handle whose bool conversion is false and whose `Get()` is null. -/
theorem lock_empty_where_promote_succeeds :
    ∃ h s w, adoptNull = .ok (h, s, w) ∧
      (∃ r, SharedPtr.promote h w = .ok r) ∧
      ∃ t, WeakPtr.Lock h w = .ok (h, t) ∧ t.toBool = false ∧ t.Get = 0 :=
  ⟨_, _, _, rfl, ⟨_, rfl⟩, _, rfl, rfl, rfl⟩

theorem deref_cases (h : Heap) (b : Nat) :
    (∃ blk, h[b]? = some blk ∧ blk.freed = false ∧ Heap.deref h b = .ok blk) ∨
      Heap.deref h b = .error (Fault.danglingBlock b) := by
  unfold Heap.deref
  cases hb : h[b]? with
  | none => right; rfl
  | some blk =>
    cases hf : blk.freed with
    | false => left; exact ⟨blk, rfl, hf, by simp [hf]⟩
    | true => right; simp [hf]

theorem Lock_ne_badWeakPtr (h : Heap) (w : WeakPtr) :
    WeakPtr.Lock h w ≠ .error Fault.badWeakPtr := by
  obtain ⟨blk_, obs⟩ := w
  cases blk_ with
  | none => simp [WeakPtr.Lock, WeakPtr.Expired, bind, Except.bind, pure, Except.pure]
  | some b =>
    rcases deref_cases h b with ⟨blk, hb, hf, hd⟩ | hd
    · by_cases hs : blk.strong_ = 0
      · simp [WeakPtr.Lock, WeakPtr.Expired, WeakPtr.UseCount, ControlBlock.UseStrongCount, hd,
          bind, Except.bind, pure, Except.pure, hs]
      · by_cases ho : obs = 0
        · simp [WeakPtr.Lock, WeakPtr.Expired, WeakPtr.UseCount, ControlBlock.UseStrongCount, hd,
            bind, Except.bind, pure, Except.pure, hs, SharedPtr.promote,
            SharedPtr.IncreaseStrongCounter, ho]
        · simp [WeakPtr.Lock, WeakPtr.Expired, WeakPtr.UseCount, ControlBlock.UseStrongCount, hd,
            bind, Except.bind, pure, Except.pure, hs, SharedPtr.promote,
            SharedPtr.IncreaseStrongCounter, ho, ControlBlock.IncreaseStrongCounter]
    · simp [WeakPtr.Lock, WeakPtr.Expired, WeakPtr.UseCount, ControlBlock.UseStrongCount, hd,
        bind, Except.bind, pure, Except.pure]

/-- Claim C10: for a `WeakPtr` that is default-constructed (no block) or holds
a block that has not been deleted (the observed object alive or expired),
`Lock()` returns a `SharedPtr`; and `Lock()` never ends in `BadWeakPtr`: the
throwing branch of the promoting constructor is not reached from it. -/
theorem lock_never_raises (h : Heap) (w : WeakPtr)
    (hw : w.block_ = none ∨ ∃ b blk, w.block_ = some b ∧ h[b]? = some blk ∧ blk.freed = false) :
    (∃ r, WeakPtr.Lock h w = .ok r) ∧ WeakPtr.Lock h w ≠ .error Fault.badWeakPtr := by
  refine ⟨?_, Lock_ne_badWeakPtr h w⟩
  obtain ⟨blk_, obs⟩ := w
  rcases hw with hn | ⟨b, blk, hb0, hb, hf⟩
  · simp only at hn
    subst hn
    simp [WeakPtr.Lock, WeakPtr.Expired, bind, Except.bind, pure, Except.pure]
  · simp only at hb0
    subst hb0
    have hd := deref_eq hb hf
    by_cases hs : blk.strong_ = 0
    · simp [WeakPtr.Lock, WeakPtr.Expired, WeakPtr.UseCount, ControlBlock.UseStrongCount, hd,
        bind, Except.bind, pure, Except.pure, hs]
    · by_cases ho : obs = 0
      · simp [WeakPtr.Lock, WeakPtr.Expired, WeakPtr.UseCount, ControlBlock.UseStrongCount, hd,
          bind, Except.bind, pure, Except.pure, hs, SharedPtr.promote,
          SharedPtr.IncreaseStrongCounter, ho]
      · simp [WeakPtr.Lock, WeakPtr.Expired, WeakPtr.UseCount, ControlBlock.UseStrongCount, hd,
          bind, Except.bind, pure, Except.pure, hs, SharedPtr.promote,
          SharedPtr.IncreaseStrongCounter, ho, ControlBlock.IncreaseStrongCounter]

/-- Claim C10 at a concrete heap and a `WeakPtr` on a live object. -/
theorem lock_never_raises_witness :
    (∃ r, WeakPtr.Lock chainHeap { block_ := some 0, observed_ := 7 } = .ok r) ∧
      WeakPtr.Lock chainHeap { block_ := some 0, observed_ := 7 } ≠ .error Fault.badWeakPtr :=
  lock_never_raises chainHeap { block_ := some 0, observed_ := 7 }
    (Or.inr ⟨0, _, rfl, rfl, rfl⟩)

/-! ## Single-block lemmas -/

theorem rel_blockAt (fuel : Nat) (k : BlockKind) (q S W : Nat) (hS : S + 1 < SIZE_MOD) :
    ControlBlock.Release (fuel + 1) [blockAt k q (S + 1) W] 0 = .ok [blockAt k q S W] := by
  by_cases h0 : S = 0
  · subst h0
    have hD := Delete_plain (r := fun g c => ControlBlock.Release fuel g c)
      (h := List.set [blockAt k q 1 W] 0 { blockAt k q 1 W with strong_ := 0 }) (b := 0)
      (x := { blockAt k q 1 W with strong_ := 0 }) rfl (by simp [blockAt]) rfl
    have hR := Release_last (f := fuel) (h := [blockAt k q 1 W]) (b := 0)
      (x := blockAt k q 1 W) rfl (by simp [blockAt]) rfl hD
      (y := { blockAt k q 0 W with trace := [Event.finalize], freed := false })
      (by simp [blockAt]) rfl
    rw [hR]
    by_cases hw : W = 0
    · simp [blockAt, hw]
    · simp [blockAt, hw]
  · have hR := Release_many (f := fuel) (h := [blockAt k q (S + 1) W]) (b := 0)
      (x := blockAt k q (S + 1) W) rfl (by simp [blockAt]) (by simp [blockAt]; omega)
      (by simpa [blockAt] using hS)
    rw [hR]
    simp [blockAt, h0]

theorem relWeak_blockAt (k : BlockKind) (q S W : Nat) (hW : W + 1 < SIZE_MOD) :
    ControlBlock.ReleaseWeak [blockAt k q S (W + 1)] 0 = .ok [blockAt k q S W] := by
  have hR := ReleaseWeak_eq (h := [blockAt k q S (W + 1)]) (b := 0)
    (x := blockAt k q S (W + 1)) rfl (by simp [blockAt]) (by simp [blockAt])
    (by simpa [blockAt] using hW)
  rw [hR]
  by_cases hs : S = 0 <;> by_cases hw : W = 0 <;> simp [blockAt, hs, hw]

theorem incS_blockAt (k : BlockKind) (q S W : Nat) (hS : S + 2 < SIZE_MOD) :
    ControlBlock.IncreaseStrongCounter [blockAt k q (S + 1) W] 0
      = .ok [blockAt k q (S + 2) W] := by
  have e : sizeInc (S + 1) = S + 2 := sizeInc_eq _ hS
  simp [ControlBlock.IncreaseStrongCounter, Heap.deref, blockAt, bind, Except.bind, pure,
    Except.pure, e]

theorem incW_blockAt (k : BlockKind) (q S W : Nat) (hlive : S ≠ 0 ∨ W ≠ 0)
    (hW : W + 1 < SIZE_MOD) :
    ControlBlock.IncreaseWeakCounter [blockAt k q S W] 0 = .ok [blockAt k q S (W + 1)] := by
  have e : sizeInc W = W + 1 := sizeInc_eq _ hW
  have hl : ¬ (S = 0 ∧ W = 0) := by omega
  by_cases hs : S = 0
  · have hw : W ≠ 0 := by omega
    simp [ControlBlock.IncreaseWeakCounter, Heap.deref, blockAt, bind, Except.bind, pure,
      Except.pure, e, hs, hw]
  · simp [ControlBlock.IncreaseWeakCounter, Heap.deref, blockAt, bind, Except.bind, pure,
      Except.pure, e, hs]

theorem strongCount_blockAt (k : BlockKind) (q S W : Nat) (hlive : S ≠ 0 ∨ W ≠ 0) :
    ControlBlock.UseStrongCount [blockAt k q S W] 0 = .ok S := by
  have hl : ¬ (S = 0 ∧ W = 0) := by omega
  simp [ControlBlock.UseStrongCount, Heap.deref, blockAt, bind, Except.bind, pure,
    Except.pure, hl]

/-! ## Handle operations on the two handle shapes -/

theorem copy_empty (h : Heap) :
    SharedPtr.copy h { block_ := none, observed_ := 0 }
      = .ok (h, { block_ := none, observed_ := 0 }) := by
  simp [SharedPtr.copy, SharedPtr.IncreaseStrongCounter, bind, Except.bind, pure, Except.pure]

theorem copy_full (k : BlockKind) (q S W p : Nat) (hp : p ≠ 0) (hS : S + 2 < SIZE_MOD) :
    SharedPtr.copy [blockAt k q (S + 1) W] { block_ := some 0, observed_ := p }
      = .ok ([blockAt k q (S + 2) W], { block_ := some 0, observed_ := p }) := by
  simp [SharedPtr.copy, SharedPtr.IncreaseStrongCounter, bind, Except.bind, pure, Except.pure, hp,
    incS_blockAt k q S W hS]

theorem release_empty (fuel : Nat) (h : Heap) :
    SharedPtr.Release fuel h { block_ := none, observed_ := 0 }
      = .ok (h, { block_ := none, observed_ := 0 }) := by
  simp [SharedPtr.Release, SharedPtr.releaseVia, pure, Except.pure]

theorem release_full (fuel : Nat) (k : BlockKind) (q S W p : Nat) (hp : p ≠ 0)
    (hS : S + 1 < SIZE_MOD) :
    SharedPtr.Release (fuel + 1) [blockAt k q (S + 1) W] { block_ := some 0, observed_ := p }
      = .ok ([blockAt k q S W], { block_ := none, observed_ := 0 }) := by
  unfold SharedPtr.Release SharedPtr.releaseVia
  simp only [ne_eq, hp, not_false_eq_true, if_true]
  rw [rel_blockAt fuel k q S W hS]
  rfl

theorem copyAssign_same (fuel : Nat) (h : Heap) (d : SharedPtr) :
    SharedPtr.copyAssign fuel h d d = .ok (h, d) := by
  simp [SharedPtr.copyAssign, pure, Except.pure]

theorem copyAssign_empty_full (fuel : Nat) (k : BlockKind) (q S W p : Nat) (hp : p ≠ 0)
    (hS : S + 2 < SIZE_MOD) :
    SharedPtr.copyAssign (fuel + 1) [blockAt k q (S + 1) W] { block_ := none, observed_ := 0 }
        { block_ := some 0, observed_ := p }
      = .ok ([blockAt k q (S + 2) W], { block_ := some 0, observed_ := p }) := by
  simp [SharedPtr.copyAssign, release_empty, SharedPtr.IncreaseStrongCounter, bind, Except.bind,
    pure, Except.pure, hp, Ne.symm hp, incS_blockAt k q S W hS]

theorem copyAssign_full_empty (fuel : Nat) (k : BlockKind) (q S W p : Nat) (hp : p ≠ 0)
    (hS : S + 1 < SIZE_MOD) :
    SharedPtr.copyAssign (fuel + 1) [blockAt k q (S + 1) W] { block_ := some 0, observed_ := p }
        { block_ := none, observed_ := 0 }
      = .ok ([blockAt k q S W], { block_ := none, observed_ := 0 }) := by
  simp [SharedPtr.copyAssign, release_full fuel k q S W p hp hS, SharedPtr.IncreaseStrongCounter,
    bind, Except.bind, pure, Except.pure, hp]

theorem moveAssign_same (fuel : Nat) (h : Heap) (d : SharedPtr) :
    SharedPtr.moveAssign fuel h d d = .ok (h, d, d) := by
  simp [SharedPtr.moveAssign, pure, Except.pure]

theorem moveAssign_empty_full (fuel : Nat) (h : Heap) (p : Nat) (hp : p ≠ 0) :
    SharedPtr.moveAssign fuel h { block_ := none, observed_ := 0 }
        { block_ := some 0, observed_ := p }
      = .ok (h, { block_ := some 0, observed_ := p }, { block_ := none, observed_ := 0 }) := by
  simp [SharedPtr.moveAssign, release_empty, bind, Except.bind, pure, Except.pure, Ne.symm hp]

theorem moveAssign_full_empty (fuel : Nat) (k : BlockKind) (q S W p : Nat) (hp : p ≠ 0)
    (hS : S + 1 < SIZE_MOD) :
    SharedPtr.moveAssign (fuel + 1) [blockAt k q (S + 1) W] { block_ := some 0, observed_ := p }
        { block_ := none, observed_ := 0 }
      = .ok ([blockAt k q S W], { block_ := none, observed_ := 0 },
          { block_ := none, observed_ := 0 }) := by
  simp [SharedPtr.moveAssign, release_full fuel k q S W p hp hS, bind, Except.bind, pure,
    Except.pure, hp]

theorem weakCopy_empty (h : Heap) :
    WeakPtr.copy h { block_ := none, observed_ := 0 }
      = .ok (h, { block_ := none, observed_ := 0 }) := by
  simp [WeakPtr.copy, WeakPtr.IncreaseWeakCounter, bind, Except.bind, pure, Except.pure]

theorem weakCopy_full (k : BlockKind) (q S W p : Nat) (hp : p ≠ 0) (hW : W + 2 < SIZE_MOD) :
    WeakPtr.copy [blockAt k q S (W + 1)] { block_ := some 0, observed_ := p }
      = .ok ([blockAt k q S (W + 2)], { block_ := some 0, observed_ := p }) := by
  simp [WeakPtr.copy, WeakPtr.IncreaseWeakCounter, bind, Except.bind, pure, Except.pure, hp,
    incW_blockAt k q S (W + 1) (Or.inr (by omega)) hW]

theorem demote_empty (h : Heap) :
    WeakPtr.ofShared h { block_ := none, observed_ := 0 }
      = .ok (h, { block_ := none, observed_ := 0 }) := by
  simp [WeakPtr.ofShared, WeakPtr.IncreaseWeakCounter, bind, Except.bind, pure, Except.pure]

theorem demote_full (k : BlockKind) (q S W p : Nat) (hp : p ≠ 0) (hW : W + 1 < SIZE_MOD) :
    WeakPtr.ofShared [blockAt k q (S + 1) W] { block_ := some 0, observed_ := p }
      = .ok ([blockAt k q (S + 1) (W + 1)], { block_ := some 0, observed_ := p }) := by
  simp [WeakPtr.ofShared, WeakPtr.IncreaseWeakCounter, bind, Except.bind, pure, Except.pure, hp,
    incW_blockAt k q (S + 1) W (Or.inl (by omega)) hW]

theorem releaseWeak_empty (h : Heap) :
    WeakPtr.ReleaseWeak h { block_ := none, observed_ := 0 }
      = .ok (h, { block_ := none, observed_ := 0 }) := by
  simp [WeakPtr.ReleaseWeak, pure, Except.pure]

theorem releaseWeak_full (k : BlockKind) (q S W p : Nat) (hp : p ≠ 0) (hW : W + 1 < SIZE_MOD) :
    WeakPtr.ReleaseWeak [blockAt k q S (W + 1)] { block_ := some 0, observed_ := p }
      = .ok ([blockAt k q S W], { block_ := none, observed_ := 0 }) := by
  simp [WeakPtr.ReleaseWeak, pure, Except.pure, hp, bind, Except.bind,
    relWeak_blockAt k q S W hW]

theorem weakCopyAssign_same (h : Heap) (d : WeakPtr) :
    WeakPtr.copyAssign h d d = .ok (h, d) := by
  simp [WeakPtr.copyAssign, pure, Except.pure]

theorem weakCopyAssign_empty_full (k : BlockKind) (q S W p : Nat) (hp : p ≠ 0)
    (hW : W + 2 < SIZE_MOD) :
    WeakPtr.copyAssign [blockAt k q S (W + 1)] { block_ := none, observed_ := 0 }
        { block_ := some 0, observed_ := p }
      = .ok ([blockAt k q S (W + 2)], { block_ := some 0, observed_ := p }) := by
  simp [WeakPtr.copyAssign, releaseWeak_empty, WeakPtr.IncreaseWeakCounter, bind, Except.bind,
    pure, Except.pure, hp, Ne.symm hp, incW_blockAt k q S (W + 1) (Or.inr (by omega)) hW]

theorem weakCopyAssign_full_empty (k : BlockKind) (q S W p : Nat) (hp : p ≠ 0)
    (hW : W + 1 < SIZE_MOD) :
    WeakPtr.copyAssign [blockAt k q S (W + 1)] { block_ := some 0, observed_ := p }
        { block_ := none, observed_ := 0 }
      = .ok ([blockAt k q S W], { block_ := none, observed_ := 0 }) := by
  simp [WeakPtr.copyAssign, releaseWeak_full k q S W p hp hW, WeakPtr.IncreaseWeakCounter,
    bind, Except.bind, pure, Except.pure, hp]

theorem weakMoveAssign_same (h : Heap) (d : WeakPtr) :
    WeakPtr.moveAssign h d d = .ok (h, d, d) := by
  simp [WeakPtr.moveAssign, pure, Except.pure]

theorem weakMoveAssign_empty_full (h : Heap) (p : Nat) (hp : p ≠ 0) :
    WeakPtr.moveAssign h { block_ := none, observed_ := 0 }
        { block_ := some 0, observed_ := p }
      = .ok (h, { block_ := some 0, observed_ := p }, { block_ := none, observed_ := 0 }) := by
  simp [WeakPtr.moveAssign, releaseWeak_empty, bind, Except.bind, pure, Except.pure, Ne.symm hp]

theorem weakMoveAssign_full_empty (k : BlockKind) (q S W p : Nat) (hp : p ≠ 0)
    (hW : W + 1 < SIZE_MOD) :
    WeakPtr.moveAssign [blockAt k q S (W + 1)] { block_ := some 0, observed_ := p }
        { block_ := none, observed_ := 0 }
      = .ok ([blockAt k q S W], { block_ := none, observed_ := 0 },
          { block_ := none, observed_ := 0 }) := by
  simp [WeakPtr.moveAssign, releaseWeak_full k q S W p hp hW, bind, Except.bind, pure,
    Except.pure, hp]

theorem lock_empty (h : Heap) :
    WeakPtr.Lock h { block_ := none, observed_ := 0 }
      = .ok (h, { block_ := none, observed_ := 0 }) := by
  simp [WeakPtr.Lock, WeakPtr.Expired, SharedPtr.empty, bind, Except.bind, pure, Except.pure]

theorem lock_expired (k : BlockKind) (q W p : Nat) :
    WeakPtr.Lock [blockAt k q 0 (W + 1)] { block_ := some 0, observed_ := p }
      = .ok ([blockAt k q 0 (W + 1)], { block_ := none, observed_ := 0 }) := by
  simp [WeakPtr.Lock, WeakPtr.Expired, WeakPtr.UseCount, SharedPtr.empty, bind, Except.bind,
    pure, Except.pure, strongCount_blockAt k q 0 (W + 1) (Or.inr (by omega))]

theorem lock_live (k : BlockKind) (q S W p : Nat) (hp : p ≠ 0) (hS : S + 2 < SIZE_MOD) :
    WeakPtr.Lock [blockAt k q (S + 1) W] { block_ := some 0, observed_ := p }
      = .ok ([blockAt k q (S + 2) W], { block_ := some 0, observed_ := p }) := by
  simp [WeakPtr.Lock, WeakPtr.Expired, WeakPtr.UseCount, SharedPtr.promote,
    SharedPtr.IncreaseStrongCounter, bind, Except.bind,
    pure, Except.pure, strongCount_blockAt k q (S + 1) W (Or.inl (by omega)), hp,
    incS_blockAt k q S W hS]

/-! ## List lemmas -/

theorem countP_set_add {α : Type} (q : α → Bool) (l : List α) (i : Nat) (x a : α)
    (hx : l[i]? = some x) :
    (l.set i a).countP q + (if q x then 1 else 0) = l.countP q + (if q a then 1 else 0) := by
  induction l generalizing i with
  | nil => simp at hx
  | cons y ys ih =>
    cases i with
    | zero =>
      simp at hx
      subst hx
      simp [List.countP_cons]
      omega
    | succ j =>
      simp at hx
      have := ih j hx
      simp [List.countP_cons]
      omega

theorem countP_pos_of_get {α : Type} (q : α → Bool) (l : List α) (i : Nat) (x : α)
    (hx : l[i]? = some x) (hq : q x = true) : 1 ≤ l.countP q := by
  have hm : x ∈ l := List.getElem?_mem hx
  exact List.countP_pos_iff.mpr ⟨x, hm, hq⟩

theorem forall_mem_push {α : Type} {P : α → Prop} {l : List α} {a : α}
    (hl : ∀ s ∈ l, P s) (ha : P a) : ∀ s ∈ l ++ [a], P s := by
  intro s hs
  rcases List.mem_append.mp hs with h1 | h1
  · exact hl s h1
  · have : s = a := by simpa using h1
    rw [this]; exact ha

theorem forall_mem_set {α : Type} {P : α → Prop} {l : List α} {a : α} (i : Nat)
    (hl : ∀ s ∈ l, P s) (ha : P a) : ∀ s ∈ l.set i a, P s := by
  intro s hs
  rcases List.mem_or_eq_of_mem_set hs with h1 | h1
  · exact hl s h1
  · rw [h1]; exact ha

theorem get_set_of_get {α : Type} {l : List α} {i j : Nat} {x y : α} (a : α)
    (hi : l[i]? = some x) (hj : l[j]? = some y) :
    (l.set i a)[j]? = some (if i = j then a else y) := by
  have hlt : i < l.length := (List.getElem?_eq_some.mp hi).1
  by_cases hij : i = j
  · subst hij
    simp [hlt]
  · simp [List.getElem?_set, hij, hj]

theorem StepGood_intro {fuel p n : Nat} {k : BlockKind} {q : Nat} {sh u : List SharedPtr}
    {wk v : List WeakPtr} {S W X Y : Nat} {op : Op}
    (hstep : World.step (fuel + 1) ⟨[blockAt k q S W], sh, wk⟩ op
      = .ok ⟨[blockAt k q X Y], u, v⟩)
    (hS : sh.countP (fun s => s.block_ == some 0) = S)
    (hW : wk.countP (fun s => s.block_ == some 0) = W)
    (hS1 : u.countP (fun s => s.block_ == some 0) = X)
    (hW1 : v.countP (fun s => s.block_ == some 0) = Y)
    (hs1 : ∀ s ∈ u, s = { block_ := none, observed_ := 0 } ∨ s = { block_ := some 0, observed_ := p })
    (hw1 : ∀ s ∈ v, s = { block_ := none, observed_ := 0 } ∨ s = { block_ := some 0, observed_ := p })
    (hlen : u.length + v.length ≤ n + 1)
    (a1 : S ≤ X + 1) (a2 : S = 0 → X = 0) (a3 : S = 0 → W = 0 → Y = 0) :
    StepGood fuel p n ⟨[blockAt k q S W], sh, wk⟩ op := by
  refine ⟨_, hstep, ⟨⟨k, q, ?_⟩, hs1, hw1, hlen⟩, ?_, ?_, ?_⟩
  · simp [World.sharedHolders, World.weakHolders, hS1, hW1]
  · simpa [World.sharedHolders, hS, hS1] using a1
  · simpa [World.sharedHolders, hS, hS1] using a2
  · simpa [World.sharedHolders, World.weakHolders, hS, hS1, hW, hW1] using a3

theorem step_copyCtor {fuel p n : Nat} (hp : p ≠ 0) {k : BlockKind} {q : Nat}
    {sh : List SharedPtr} {wk : List WeakPtr} {S W : Nat}
    (hS : sh.countP (fun s => s.block_ == some 0) = S)
    (hW : wk.countP (fun s => s.block_ == some 0) = W)
    (hs : ∀ s ∈ sh, s = { block_ := none, observed_ := 0 } ∨ s = { block_ := some 0, observed_ := p })
    (hw : ∀ s ∈ wk, s = { block_ := none, observed_ := 0 } ∨ s = { block_ := some 0, observed_ := p })
    (hlen : sh.length + wk.length ≤ n) (hn : n + 1 < SIZE_MOD) (src : Nat) :
    StepGood fuel p n ⟨[blockAt k q S W], sh, wk⟩ (Op.copyCtor src) := by
  have hle := List.countP_le_length (fun s : SharedPtr => s.block_ == some 0) (l := sh)
  cases hsrc : sh[src]? with
  | none =>
    exact StepGood_intro (by simp [World.step, hsrc, pure, Except.pure]) hS hW hS hW hs hw
      (by omega) (by omega) id (fun _ h => h)
  | some s =>
    rcases hs s (List.getElem?_mem hsrc) with rfl | rfl
    · exact StepGood_intro (u := sh ++ [{ block_ := none, observed_ := 0 }])
        (by simp [World.step, hsrc, copy_empty, bind, Except.bind, pure, Except.pure]) hS hW
        (by simp [List.countP_append, hS]) hW (forall_mem_push hs (Or.inl rfl)) hw
        (by simp; omega) (by omega) id (fun _ h => h)
    · have hpos := countP_pos_of_get (fun s => s.block_ == some 0) sh src _ hsrc rfl
      obtain ⟨S0, rfl⟩ : ∃ S0, S = S0 + 1 := ⟨S - 1, by omega⟩
      exact StepGood_intro (u := sh ++ [{ block_ := some 0, observed_ := p }]) (X := S0 + 2)
        (by simp [World.step, hsrc, copy_full k q S0 W p hp (by omega), bind, Except.bind, pure,
          Except.pure]) hS hW
        (by simp [List.countP_append, hS]) hW (forall_mem_push hs (Or.inr rfl)) hw
        (by simp; omega) (by omega) (by omega) (by omega)

theorem step_reset {fuel p n : Nat} (hp : p ≠ 0) {k : BlockKind} {q : Nat}
    {sh : List SharedPtr} {wk : List WeakPtr} {S W : Nat}
    (hS : sh.countP (fun s => s.block_ == some 0) = S)
    (hW : wk.countP (fun s => s.block_ == some 0) = W)
    (hs : ∀ s ∈ sh, s = { block_ := none, observed_ := 0 } ∨ s = { block_ := some 0, observed_ := p })
    (hw : ∀ s ∈ wk, s = { block_ := none, observed_ := 0 } ∨ s = { block_ := some 0, observed_ := p })
    (hlen : sh.length + wk.length ≤ n) (hn : n + 1 < SIZE_MOD) (i : Nat) :
    StepGood fuel p n ⟨[blockAt k q S W], sh, wk⟩ (Op.reset i) := by
  have hle := List.countP_le_length (fun s : SharedPtr => s.block_ == some 0) (l := sh)
  have hlw := List.countP_le_length (fun s : WeakPtr => s.block_ == some 0) (l := wk)
  cases hi : sh[i]? with
  | none =>
    exact StepGood_intro (by simp [World.step, hi, pure, Except.pure]) hS hW hS hW hs hw
      (by omega) (by omega) id (fun _ h => h)
  | some s =>
    rcases hs s (List.getElem?_mem hi) with rfl | rfl
    · have hc := countP_set_add (fun s : SharedPtr => s.block_ == some 0) sh i _ { block_ := none, observed_ := 0 } hi
      simp at hc
      exact StepGood_intro (u := sh.set i { block_ := none, observed_ := 0 })
        (by simp [World.step, hi, SharedPtr.Reset, release_empty, bind, Except.bind, pure, Except.pure]) hS hW
        (by omega) hW (forall_mem_set i hs (Or.inl rfl)) hw
        (by simp; omega) (by omega) id (fun _ h => h)
    · have hpos := countP_pos_of_get (fun s => s.block_ == some 0) sh i _ hi rfl
      obtain ⟨S0, rfl⟩ : ∃ S0, S = S0 + 1 := ⟨S - 1, by omega⟩
      have hc := countP_set_add (fun s : SharedPtr => s.block_ == some 0) sh i _ { block_ := none, observed_ := 0 } hi
      simp at hc
      exact StepGood_intro (u := sh.set i { block_ := none, observed_ := 0 }) (X := S0)
        (by simp [World.step, hi, SharedPtr.Reset, release_full fuel k q S0 W p hp (by omega), bind, Except.bind, pure, Except.pure]) hS hW
        (by omega) hW (forall_mem_set i hs (Or.inl rfl)) hw
        (by simp; omega) (by omega) (by omega) (by omega)

theorem step_destroy {fuel p n : Nat} (hp : p ≠ 0) {k : BlockKind} {q : Nat}
    {sh : List SharedPtr} {wk : List WeakPtr} {S W : Nat}
    (hS : sh.countP (fun s => s.block_ == some 0) = S)
    (hW : wk.countP (fun s => s.block_ == some 0) = W)
    (hs : ∀ s ∈ sh, s = { block_ := none, observed_ := 0 } ∨ s = { block_ := some 0, observed_ := p })
    (hw : ∀ s ∈ wk, s = { block_ := none, observed_ := 0 } ∨ s = { block_ := some 0, observed_ := p })
    (hlen : sh.length + wk.length ≤ n) (hn : n + 1 < SIZE_MOD) (i : Nat) :
    StepGood fuel p n ⟨[blockAt k q S W], sh, wk⟩ (Op.destroy i) := by
  have hle := List.countP_le_length (fun s : SharedPtr => s.block_ == some 0) (l := sh)
  have hlw := List.countP_le_length (fun s : WeakPtr => s.block_ == some 0) (l := wk)
  cases hi : sh[i]? with
  | none =>
    exact StepGood_intro (by simp [World.step, hi, pure, Except.pure]) hS hW hS hW hs hw
      (by omega) (by omega) id (fun _ h => h)
  | some s =>
    rcases hs s (List.getElem?_mem hi) with rfl | rfl
    · have hc := countP_set_add (fun s : SharedPtr => s.block_ == some 0) sh i _ { block_ := none, observed_ := 0 } hi
      simp at hc
      exact StepGood_intro (u := sh.set i { block_ := none, observed_ := 0 })
        (by simp [World.step, hi, SharedPtr.destructor, release_empty, bind, Except.bind, pure, Except.pure]) hS hW
        (by omega) hW (forall_mem_set i hs (Or.inl rfl)) hw
        (by simp; omega) (by omega) id (fun _ h => h)
    · have hpos := countP_pos_of_get (fun s => s.block_ == some 0) sh i _ hi rfl
      obtain ⟨S0, rfl⟩ : ∃ S0, S = S0 + 1 := ⟨S - 1, by omega⟩
      have hc := countP_set_add (fun s : SharedPtr => s.block_ == some 0) sh i _ { block_ := none, observed_ := 0 } hi
      simp at hc
      exact StepGood_intro (u := sh.set i { block_ := none, observed_ := 0 }) (X := S0)
        (by simp [World.step, hi, SharedPtr.destructor, release_full fuel k q S0 W p hp (by omega), bind, Except.bind, pure, Except.pure]) hS hW
        (by omega) hW (forall_mem_set i hs (Or.inl rfl)) hw
        (by simp; omega) (by omega) (by omega) (by omega)

theorem step_weakReset {fuel p n : Nat} (hp : p ≠ 0) {k : BlockKind} {q : Nat}
    {sh : List SharedPtr} {wk : List WeakPtr} {S W : Nat}
    (hS : sh.countP (fun s => s.block_ == some 0) = S)
    (hW : wk.countP (fun s => s.block_ == some 0) = W)
    (hs : ∀ s ∈ sh, s = { block_ := none, observed_ := 0 } ∨ s = { block_ := some 0, observed_ := p })
    (hw : ∀ s ∈ wk, s = { block_ := none, observed_ := 0 } ∨ s = { block_ := some 0, observed_ := p })
    (hlen : sh.length + wk.length ≤ n) (hn : n + 1 < SIZE_MOD) (i : Nat) :
    StepGood fuel p n ⟨[blockAt k q S W], sh, wk⟩ (Op.weakReset i) := by
  have hle := List.countP_le_length (fun s : SharedPtr => s.block_ == some 0) (l := sh)
  have hlw := List.countP_le_length (fun s : WeakPtr => s.block_ == some 0) (l := wk)
  cases hi : wk[i]? with
  | none =>
    exact StepGood_intro (by simp [World.step, hi, pure, Except.pure]) hS hW hS hW hs hw
      (by omega) (by omega) id (fun _ h => h)
  | some s =>
    rcases hw s (List.getElem?_mem hi) with rfl | rfl
    · have hc := countP_set_add (fun s : WeakPtr => s.block_ == some 0) wk i _ { block_ := none, observed_ := 0 } hi
      simp at hc
      exact StepGood_intro (v := wk.set i { block_ := none, observed_ := 0 })
        (by simp [World.step, hi, WeakPtr.Reset, releaseWeak_empty, bind, Except.bind, pure, Except.pure]) hS hW
        hS (by omega) hs (forall_mem_set i hw (Or.inl rfl))
        (by simp; omega) (by omega) id (fun _ h => h)
    · have hpos := countP_pos_of_get (fun s => s.block_ == some 0) wk i _ hi rfl
      obtain ⟨W0, rfl⟩ : ∃ W0, W = W0 + 1 := ⟨W - 1, by omega⟩
      have hc := countP_set_add (fun s : WeakPtr => s.block_ == some 0) wk i _ { block_ := none, observed_ := 0 } hi
      simp at hc
      exact StepGood_intro (v := wk.set i { block_ := none, observed_ := 0 }) (Y := W0)
        (by simp [World.step, hi, WeakPtr.Reset, releaseWeak_full k q S W0 p hp (by omega), bind, Except.bind, pure, Except.pure]) hS hW
        hS (by omega) hs (forall_mem_set i hw (Or.inl rfl))
        (by simp; omega) (by omega) id (by omega)

theorem step_weakDestroy {fuel p n : Nat} (hp : p ≠ 0) {k : BlockKind} {q : Nat}
    {sh : List SharedPtr} {wk : List WeakPtr} {S W : Nat}
    (hS : sh.countP (fun s => s.block_ == some 0) = S)
    (hW : wk.countP (fun s => s.block_ == some 0) = W)
    (hs : ∀ s ∈ sh, s = { block_ := none, observed_ := 0 } ∨ s = { block_ := some 0, observed_ := p })
    (hw : ∀ s ∈ wk, s = { block_ := none, observed_ := 0 } ∨ s = { block_ := some 0, observed_ := p })
    (hlen : sh.length + wk.length ≤ n) (hn : n + 1 < SIZE_MOD) (i : Nat) :
    StepGood fuel p n ⟨[blockAt k q S W], sh, wk⟩ (Op.weakDestroy i) := by
  have hle := List.countP_le_length (fun s : SharedPtr => s.block_ == some 0) (l := sh)
  have hlw := List.countP_le_length (fun s : WeakPtr => s.block_ == some 0) (l := wk)
  cases hi : wk[i]? with
  | none =>
    exact StepGood_intro (by simp [World.step, hi, pure, Except.pure]) hS hW hS hW hs hw
      (by omega) (by omega) id (fun _ h => h)
  | some s =>
    rcases hw s (List.getElem?_mem hi) with rfl | rfl
    · have hc := countP_set_add (fun s : WeakPtr => s.block_ == some 0) wk i _ { block_ := none, observed_ := 0 } hi
      simp at hc
      exact StepGood_intro (v := wk.set i { block_ := none, observed_ := 0 })
        (by simp [World.step, hi, WeakPtr.destructor, releaseWeak_empty, bind, Except.bind, pure, Except.pure]) hS hW
        hS (by omega) hs (forall_mem_set i hw (Or.inl rfl))
        (by simp; omega) (by omega) id (fun _ h => h)
    · have hpos := countP_pos_of_get (fun s => s.block_ == some 0) wk i _ hi rfl
      obtain ⟨W0, rfl⟩ : ∃ W0, W = W0 + 1 := ⟨W - 1, by omega⟩
      have hc := countP_set_add (fun s : WeakPtr => s.block_ == some 0) wk i _ { block_ := none, observed_ := 0 } hi
      simp at hc
      exact StepGood_intro (v := wk.set i { block_ := none, observed_ := 0 }) (Y := W0)
        (by simp [World.step, hi, WeakPtr.destructor, releaseWeak_full k q S W0 p hp (by omega), bind, Except.bind, pure, Except.pure]) hS hW
        hS (by omega) hs (forall_mem_set i hw (Or.inl rfl))
        (by simp; omega) (by omega) id (by omega)

theorem step_moveCtor {fuel p n : Nat} (_hp : p ≠ 0) {k : BlockKind} {q : Nat}
    {sh : List SharedPtr} {wk : List WeakPtr} {S W : Nat}
    (hS : sh.countP (fun s => s.block_ == some 0) = S)
    (hW : wk.countP (fun s => s.block_ == some 0) = W)
    (hs : ∀ s ∈ sh, s = { block_ := none, observed_ := 0 } ∨ s = { block_ := some 0, observed_ := p })
    (hw : ∀ s ∈ wk, s = { block_ := none, observed_ := 0 } ∨ s = { block_ := some 0, observed_ := p })
    (hlen : sh.length + wk.length ≤ n) (_hn : n + 1 < SIZE_MOD) (src : Nat) :
    StepGood fuel p n ⟨[blockAt k q S W], sh, wk⟩ (Op.moveCtor src) := by
  have hle := List.countP_le_length (fun s : SharedPtr => s.block_ == some 0) (l := sh)
  have hlw := List.countP_le_length (fun s : WeakPtr => s.block_ == some 0) (l := wk)
  cases hsrc : sh[src]? with
  | none =>
    exact StepGood_intro (by simp [World.step, hsrc, pure, Except.pure]) hS hW hS hW hs hw
      (by omega) (by omega) id (fun _ h => h)
  | some s =>
    have hc := countP_set_add (fun s : SharedPtr => s.block_ == some 0) sh src _ { block_ := none, observed_ := 0 } hsrc
    rcases hs s (List.getElem?_mem hsrc) with rfl | rfl
    · simp at hc
      exact StepGood_intro (u := sh.set src { block_ := none, observed_ := 0 } ++ [{ block_ := none, observed_ := 0 }])
        (by simp [World.step, hsrc, SharedPtr.move, bind, Except.bind, pure, Except.pure]) hS hW
        (by simp [List.countP_append]; omega) hW
        (forall_mem_push (forall_mem_set src hs (Or.inl rfl)) (Or.inl rfl)) hw
        (by simp; omega) (by omega) id (fun _ h => h)
    · simp at hc
      exact StepGood_intro (u := sh.set src { block_ := none, observed_ := 0 } ++ [{ block_ := some 0, observed_ := p }])
        (by simp [World.step, hsrc, SharedPtr.move, bind, Except.bind, pure, Except.pure]) hS hW
        (by simp [List.countP_append]; omega) hW
        (forall_mem_push (forall_mem_set src hs (Or.inl rfl)) (Or.inr rfl)) hw
        (by simp; omega) (by omega) id (fun _ h => h)

theorem step_weakMoveCtor {fuel p n : Nat} (_hp : p ≠ 0) {k : BlockKind} {q : Nat}
    {sh : List SharedPtr} {wk : List WeakPtr} {S W : Nat}
    (hS : sh.countP (fun s => s.block_ == some 0) = S)
    (hW : wk.countP (fun s => s.block_ == some 0) = W)
    (hs : ∀ s ∈ sh, s = { block_ := none, observed_ := 0 } ∨ s = { block_ := some 0, observed_ := p })
    (hw : ∀ s ∈ wk, s = { block_ := none, observed_ := 0 } ∨ s = { block_ := some 0, observed_ := p })
    (hlen : sh.length + wk.length ≤ n) (_hn : n + 1 < SIZE_MOD) (src : Nat) :
    StepGood fuel p n ⟨[blockAt k q S W], sh, wk⟩ (Op.weakMoveCtor src) := by
  have hle := List.countP_le_length (fun s : SharedPtr => s.block_ == some 0) (l := sh)
  have hlw := List.countP_le_length (fun s : WeakPtr => s.block_ == some 0) (l := wk)
  cases hsrc : wk[src]? with
  | none =>
    exact StepGood_intro (by simp [World.step, hsrc, pure, Except.pure]) hS hW hS hW hs hw
      (by omega) (by omega) id (fun _ h => h)
  | some s =>
    have hc := countP_set_add (fun s : WeakPtr => s.block_ == some 0) wk src _ { block_ := none, observed_ := 0 } hsrc
    rcases hw s (List.getElem?_mem hsrc) with rfl | rfl
    · simp at hc
      exact StepGood_intro (v := wk.set src { block_ := none, observed_ := 0 } ++ [{ block_ := none, observed_ := 0 }])
        (by simp [World.step, hsrc, WeakPtr.move, bind, Except.bind, pure, Except.pure]) hS hW
        hS (by simp [List.countP_append]; omega) hs
        (forall_mem_push (forall_mem_set src hw (Or.inl rfl)) (Or.inl rfl))
        (by simp; omega) (by omega) id (fun _ h => h)
    · simp at hc
      exact StepGood_intro (v := wk.set src { block_ := none, observed_ := 0 } ++ [{ block_ := some 0, observed_ := p }])
        (by simp [World.step, hsrc, WeakPtr.move, bind, Except.bind, pure, Except.pure]) hS hW
        hS (by simp [List.countP_append]; omega) hs
        (forall_mem_push (forall_mem_set src hw (Or.inl rfl)) (Or.inr rfl))
        (by simp; omega) (by omega) id (fun _ h => h)

theorem step_weakCopyCtor {fuel p n : Nat} (hp : p ≠ 0) {k : BlockKind} {q : Nat}
    {sh : List SharedPtr} {wk : List WeakPtr} {S W : Nat}
    (hS : sh.countP (fun s => s.block_ == some 0) = S)
    (hW : wk.countP (fun s => s.block_ == some 0) = W)
    (hs : ∀ s ∈ sh, s = { block_ := none, observed_ := 0 } ∨ s = { block_ := some 0, observed_ := p })
    (hw : ∀ s ∈ wk, s = { block_ := none, observed_ := 0 } ∨ s = { block_ := some 0, observed_ := p })
    (hlen : sh.length + wk.length ≤ n) (hn : n + 1 < SIZE_MOD) (src : Nat) :
    StepGood fuel p n ⟨[blockAt k q S W], sh, wk⟩ (Op.weakCopyCtor src) := by
  have hle := List.countP_le_length (fun s : SharedPtr => s.block_ == some 0) (l := sh)
  have hlw := List.countP_le_length (fun s : WeakPtr => s.block_ == some 0) (l := wk)
  cases hsrc : wk[src]? with
  | none =>
    exact StepGood_intro (by simp [World.step, hsrc, pure, Except.pure]) hS hW hS hW hs hw
      (by omega) (by omega) id (fun _ h => h)
  | some s =>
    rcases hw s (List.getElem?_mem hsrc) with rfl | rfl
    · exact StepGood_intro (v := wk ++ [{ block_ := none, observed_ := 0 }])
        (by simp [World.step, hsrc, weakCopy_empty, bind, Except.bind, pure, Except.pure]) hS hW
        hS (by simp [List.countP_append, hW]) hs (forall_mem_push hw (Or.inl rfl))
        (by simp; omega) (by omega) id (fun _ h => h)
    · have hpos := countP_pos_of_get (fun s => s.block_ == some 0) wk src _ hsrc rfl
      obtain ⟨W0, rfl⟩ : ∃ W0, W = W0 + 1 := ⟨W - 1, by omega⟩
      exact StepGood_intro (v := wk ++ [{ block_ := some 0, observed_ := p }]) (Y := W0 + 2)
        (by simp [World.step, hsrc, weakCopy_full k q S W0 p hp (by omega), bind, Except.bind, pure, Except.pure]) hS hW
        hS (by simp [List.countP_append, hW]) hs (forall_mem_push hw (Or.inr rfl))
        (by simp; omega) (by omega) id (by omega)

theorem step_demote {fuel p n : Nat} (hp : p ≠ 0) {k : BlockKind} {q : Nat}
    {sh : List SharedPtr} {wk : List WeakPtr} {S W : Nat}
    (hS : sh.countP (fun s => s.block_ == some 0) = S)
    (hW : wk.countP (fun s => s.block_ == some 0) = W)
    (hs : ∀ s ∈ sh, s = { block_ := none, observed_ := 0 } ∨ s = { block_ := some 0, observed_ := p })
    (hw : ∀ s ∈ wk, s = { block_ := none, observed_ := 0 } ∨ s = { block_ := some 0, observed_ := p })
    (hlen : sh.length + wk.length ≤ n) (hn : n + 1 < SIZE_MOD) (src : Nat) :
    StepGood fuel p n ⟨[blockAt k q S W], sh, wk⟩ (Op.demote src) := by
  have hle := List.countP_le_length (fun s : SharedPtr => s.block_ == some 0) (l := sh)
  have hlw := List.countP_le_length (fun s : WeakPtr => s.block_ == some 0) (l := wk)
  cases hsrc : sh[src]? with
  | none =>
    exact StepGood_intro (by simp [World.step, hsrc, pure, Except.pure]) hS hW hS hW hs hw
      (by omega) (by omega) id (fun _ h => h)
  | some s =>
    rcases hs s (List.getElem?_mem hsrc) with rfl | rfl
    · exact StepGood_intro (v := wk ++ [{ block_ := none, observed_ := 0 }])
        (by simp [World.step, hsrc, demote_empty, bind, Except.bind, pure, Except.pure]) hS hW
        hS (by simp [List.countP_append, hW]) hs (forall_mem_push hw (Or.inl rfl))
        (by simp; omega) (by omega) id (fun _ h => h)
    · have hpos := countP_pos_of_get (fun s => s.block_ == some 0) sh src _ hsrc rfl
      obtain ⟨S0, rfl⟩ : ∃ S0, S = S0 + 1 := ⟨S - 1, by omega⟩
      exact StepGood_intro (v := wk ++ [{ block_ := some 0, observed_ := p }]) (Y := W + 1)
        (by simp [World.step, hsrc, demote_full k q S0 W p hp (by omega), bind, Except.bind, pure, Except.pure]) hS hW
        hS (by simp [List.countP_append, hW]) hs (forall_mem_push hw (Or.inr rfl))
        (by simp; omega) (by omega) id (by omega)

theorem step_lock {fuel p n : Nat} (hp : p ≠ 0) {k : BlockKind} {q : Nat}
    {sh : List SharedPtr} {wk : List WeakPtr} {S W : Nat}
    (hS : sh.countP (fun s => s.block_ == some 0) = S)
    (hW : wk.countP (fun s => s.block_ == some 0) = W)
    (hs : ∀ s ∈ sh, s = { block_ := none, observed_ := 0 } ∨ s = { block_ := some 0, observed_ := p })
    (hw : ∀ s ∈ wk, s = { block_ := none, observed_ := 0 } ∨ s = { block_ := some 0, observed_ := p })
    (hlen : sh.length + wk.length ≤ n) (hn : n + 1 < SIZE_MOD) (src : Nat) :
    StepGood fuel p n ⟨[blockAt k q S W], sh, wk⟩ (Op.lock src) := by
  have hle := List.countP_le_length (fun s : SharedPtr => s.block_ == some 0) (l := sh)
  have hlw := List.countP_le_length (fun s : WeakPtr => s.block_ == some 0) (l := wk)
  cases hsrc : wk[src]? with
  | none =>
    exact StepGood_intro (by simp [World.step, hsrc, pure, Except.pure]) hS hW hS hW hs hw
      (by omega) (by omega) id (fun _ h => h)
  | some s =>
    rcases hw s (List.getElem?_mem hsrc) with rfl | rfl
    · exact StepGood_intro (u := sh ++ [{ block_ := none, observed_ := 0 }])
        (by simp [World.step, hsrc, lock_empty, bind, Except.bind, pure, Except.pure]) hS hW
        (by simp [List.countP_append, hS]) hW (forall_mem_push hs (Or.inl rfl)) hw
        (by simp; omega) (by omega) id (fun _ h => h)
    · have hpos := countP_pos_of_get (fun s => s.block_ == some 0) wk src _ hsrc rfl
      obtain ⟨W0, rfl⟩ : ∃ W0, W = W0 + 1 := ⟨W - 1, by omega⟩
      cases S with
      | zero =>
        exact StepGood_intro (u := sh ++ [{ block_ := none, observed_ := 0 }])
          (by simp [World.step, hsrc, lock_expired, bind, Except.bind, pure, Except.pure]) hS hW
          (by simp [List.countP_append, hS]) hW (forall_mem_push hs (Or.inl rfl)) hw
          (by simp; omega) (by omega) id (fun _ h => h)
      | succ S0 =>
        exact StepGood_intro (u := sh ++ [{ block_ := some 0, observed_ := p }]) (X := S0 + 2)
          (by simp [World.step, hsrc, lock_live k q S0 (W0 + 1) p hp (by omega), bind, Except.bind, pure, Except.pure]) hS hW
          (by simp [List.countP_append, hS]) hW (forall_mem_push hs (Or.inr rfl)) hw
          (by simp; omega) (by omega) (by omega) (by omega)

theorem step_copyAssign {fuel p n : Nat} (hp : p ≠ 0) {k : BlockKind} {q : Nat}
    {sh : List SharedPtr} {wk : List WeakPtr} {S W : Nat}
    (hS : sh.countP (fun s => s.block_ == some 0) = S)
    (hW : wk.countP (fun s => s.block_ == some 0) = W)
    (hs : ∀ s ∈ sh, s = { block_ := none, observed_ := 0 } ∨ s = { block_ := some 0, observed_ := p })
    (hw : ∀ s ∈ wk, s = { block_ := none, observed_ := 0 } ∨ s = { block_ := some 0, observed_ := p })
    (hlen : sh.length + wk.length ≤ n) (hn : n + 1 < SIZE_MOD) (dst src : Nat) :
    StepGood fuel p n ⟨[blockAt k q S W], sh, wk⟩ (Op.copyAssign dst src) := by
  have hle := List.countP_le_length (fun s : SharedPtr => s.block_ == some 0) (l := sh)
  have hlw := List.countP_le_length (fun s : WeakPtr => s.block_ == some 0) (l := wk)
  cases hdst : sh[dst]? with
  | none =>
    exact StepGood_intro (by simp [World.step, hdst, pure, Except.pure]) hS hW hS hW hs hw
      (by omega) (by omega) id (fun _ h => h)
  | some d =>
    cases hsrc : sh[src]? with
    | none =>
      exact StepGood_intro (by simp [World.step, hdst, hsrc, pure, Except.pure]) hS hW hS hW hs hw
        (by omega) (by omega) id (fun _ h => h)
    | some s =>
      have hne : d ≠ s → src ≠ dst := by
        intro hds e
        subst e
        rw [hsrc] at hdst
        exact hds (Option.some.inj hdst).symm
      have hc := fun a => countP_set_add (fun s : SharedPtr => s.block_ == some 0) sh dst d a hdst
      rcases hs d (List.getElem?_mem hdst) with rfl | rfl <;>
        rcases hs s (List.getElem?_mem hsrc) with rfl | rfl
      · have hc1 := hc { block_ := none, observed_ := 0 }
        simp at hc1
        exact StepGood_intro (u := sh.set dst { block_ := none, observed_ := 0 })
          (by simp [World.step, hdst, hsrc, copyAssign_same, bind, Except.bind, pure, Except.pure]) hS hW
          (by omega) hW (forall_mem_set dst hs (Or.inl rfl)) hw
          (by simp; omega) (by omega) id (fun _ h => h)
      · have hpos := countP_pos_of_get (fun s => s.block_ == some 0) sh src _ hsrc rfl
        obtain ⟨S0, rfl⟩ : ∃ S0, S = S0 + 1 := ⟨S - 1, by omega⟩
        have hc1 := hc { block_ := some 0, observed_ := p }
        simp at hc1
        exact StepGood_intro (u := sh.set dst { block_ := some 0, observed_ := p }) (X := S0 + 2)
          (by simp [World.step, hdst, hsrc, copyAssign_empty_full fuel k q S0 W p hp (by omega), bind, Except.bind, pure, Except.pure]) hS hW
          (by omega) hW (forall_mem_set dst hs (Or.inr rfl)) hw
          (by simp; omega) (by omega) (by omega) (by omega)
      · have hpos := countP_pos_of_get (fun s => s.block_ == some 0) sh dst _ hdst rfl
        obtain ⟨S0, rfl⟩ : ∃ S0, S = S0 + 1 := ⟨S - 1, by omega⟩
        have hc1 := hc { block_ := none, observed_ := 0 }
        simp at hc1
        exact StepGood_intro (u := sh.set dst { block_ := none, observed_ := 0 }) (X := S0)
          (by simp [World.step, hdst, hsrc, copyAssign_full_empty fuel k q S0 W p hp (by omega), bind, Except.bind, pure, Except.pure]) hS hW
          (by omega) hW (forall_mem_set dst hs (Or.inl rfl)) hw
          (by simp; omega) (by omega) (by omega) (by omega)
      · have hc1 := hc { block_ := some 0, observed_ := p }
        simp at hc1
        exact StepGood_intro (u := sh.set dst { block_ := some 0, observed_ := p })
          (by simp [World.step, hdst, hsrc, copyAssign_same, bind, Except.bind, pure, Except.pure]) hS hW
          (by omega) hW (forall_mem_set dst hs (Or.inr rfl)) hw
          (by simp; omega) (by omega) id (fun _ h => h)

theorem step_weakCopyAssign {fuel p n : Nat} (hp : p ≠ 0) {k : BlockKind} {q : Nat}
    {sh : List SharedPtr} {wk : List WeakPtr} {S W : Nat}
    (hS : sh.countP (fun s => s.block_ == some 0) = S)
    (hW : wk.countP (fun s => s.block_ == some 0) = W)
    (hs : ∀ s ∈ sh, s = { block_ := none, observed_ := 0 } ∨ s = { block_ := some 0, observed_ := p })
    (hw : ∀ s ∈ wk, s = { block_ := none, observed_ := 0 } ∨ s = { block_ := some 0, observed_ := p })
    (hlen : sh.length + wk.length ≤ n) (hn : n + 1 < SIZE_MOD) (dst src : Nat) :
    StepGood fuel p n ⟨[blockAt k q S W], sh, wk⟩ (Op.weakCopyAssign dst src) := by
  have hle := List.countP_le_length (fun s : SharedPtr => s.block_ == some 0) (l := sh)
  have hlw := List.countP_le_length (fun s : WeakPtr => s.block_ == some 0) (l := wk)
  cases hdst : wk[dst]? with
  | none =>
    exact StepGood_intro (by simp [World.step, hdst, pure, Except.pure]) hS hW hS hW hs hw
      (by omega) (by omega) id (fun _ h => h)
  | some d =>
    cases hsrc : wk[src]? with
    | none =>
      exact StepGood_intro (by simp [World.step, hdst, hsrc, pure, Except.pure]) hS hW hS hW hs hw
        (by omega) (by omega) id (fun _ h => h)
    | some s =>
      have hne : d ≠ s → src ≠ dst := by
        intro hds e
        subst e
        rw [hsrc] at hdst
        exact hds (Option.some.inj hdst).symm
      have hc := fun a => countP_set_add (fun s : WeakPtr => s.block_ == some 0) wk dst d a hdst
      rcases hw d (List.getElem?_mem hdst) with rfl | rfl <;>
        rcases hw s (List.getElem?_mem hsrc) with rfl | rfl
      · have hc1 := hc { block_ := none, observed_ := 0 }
        simp at hc1
        exact StepGood_intro (v := wk.set dst { block_ := none, observed_ := 0 })
          (by simp [World.step, hdst, hsrc, weakCopyAssign_same, bind, Except.bind, pure, Except.pure]) hS hW
          hS (by omega) hs (forall_mem_set dst hw (Or.inl rfl))
          (by simp; omega) (by omega) id (fun _ h => h)
      · have hpos := countP_pos_of_get (fun s => s.block_ == some 0) wk src _ hsrc rfl
        obtain ⟨W0, rfl⟩ : ∃ W0, W = W0 + 1 := ⟨W - 1, by omega⟩
        have hc1 := hc { block_ := some 0, observed_ := p }
        simp at hc1
        exact StepGood_intro (v := wk.set dst { block_ := some 0, observed_ := p }) (Y := W0 + 2)
          (by simp [World.step, hdst, hsrc, weakCopyAssign_empty_full k q S W0 p hp (by omega), bind, Except.bind, pure, Except.pure]) hS hW
          hS (by omega) hs (forall_mem_set dst hw (Or.inr rfl))
          (by simp; omega) (by omega) id (by omega)
      · have hpos := countP_pos_of_get (fun s => s.block_ == some 0) wk dst _ hdst rfl
        obtain ⟨W0, rfl⟩ : ∃ W0, W = W0 + 1 := ⟨W - 1, by omega⟩
        have hc1 := hc { block_ := none, observed_ := 0 }
        simp at hc1
        exact StepGood_intro (v := wk.set dst { block_ := none, observed_ := 0 }) (Y := W0)
          (by simp [World.step, hdst, hsrc, weakCopyAssign_full_empty k q S W0 p hp (by omega), bind, Except.bind, pure, Except.pure]) hS hW
          hS (by omega) hs (forall_mem_set dst hw (Or.inl rfl))
          (by simp; omega) (by omega) id (by omega)
      · have hc1 := hc { block_ := some 0, observed_ := p }
        simp at hc1
        exact StepGood_intro (v := wk.set dst { block_ := some 0, observed_ := p })
          (by simp [World.step, hdst, hsrc, weakCopyAssign_same, bind, Except.bind, pure, Except.pure]) hS hW
          hS (by omega) hs (forall_mem_set dst hw (Or.inr rfl))
          (by simp; omega) (by omega) id (fun _ h => h)

theorem step_moveAssign {fuel p n : Nat} (hp : p ≠ 0) {k : BlockKind} {q : Nat}
    {sh : List SharedPtr} {wk : List WeakPtr} {S W : Nat}
    (hS : sh.countP (fun s => s.block_ == some 0) = S)
    (hW : wk.countP (fun s => s.block_ == some 0) = W)
    (hs : ∀ s ∈ sh, s = { block_ := none, observed_ := 0 } ∨ s = { block_ := some 0, observed_ := p })
    (hw : ∀ s ∈ wk, s = { block_ := none, observed_ := 0 } ∨ s = { block_ := some 0, observed_ := p })
    (hlen : sh.length + wk.length ≤ n) (hn : n + 1 < SIZE_MOD) (dst src : Nat) :
    StepGood fuel p n ⟨[blockAt k q S W], sh, wk⟩ (Op.moveAssign dst src) := by
  have hle := List.countP_le_length (fun s : SharedPtr => s.block_ == some 0) (l := sh)
  have hlw := List.countP_le_length (fun s : WeakPtr => s.block_ == some 0) (l := wk)
  cases hdst : sh[dst]? with
  | none =>
    exact StepGood_intro (by simp [World.step, hdst, pure, Except.pure]) hS hW hS hW hs hw
      (by omega) (by omega) id (fun _ h => h)
  | some d =>
    cases hsrc : sh[src]? with
    | none =>
      exact StepGood_intro (by simp [World.step, hdst, hsrc, pure, Except.pure]) hS hW hS hW hs hw
        (by omega) (by omega) id (fun _ h => h)
    | some s =>
      have hne : d ≠ s → src ≠ dst := by
        intro hds e
        subst e
        rw [hsrc] at hdst
        exact hds (Option.some.inj hdst).symm
      have hg := fun a => get_set_of_get (l := sh) (i := src) (j := dst) a hsrc hdst
      have hc := fun a => countP_set_add (fun s : SharedPtr => s.block_ == some 0) sh src s a hsrc
      have hc2 := fun a x b (hx : (sh.set src a)[dst]? = some x) =>
        countP_set_add (fun s : SharedPtr => s.block_ == some 0) (sh.set src a) dst x b hx
      rcases hs d (List.getElem?_mem hdst) with rfl | rfl <;>
        rcases hs s (List.getElem?_mem hsrc) with rfl | rfl
      · have hg1 := hg { block_ := none, observed_ := 0 }
        simp at hg1
        have hc1 := hc { block_ := none, observed_ := 0 }
        simp at hc1
        have hc3 := hc2 { block_ := none, observed_ := 0 } _ { block_ := none, observed_ := 0 } hg1
        simp at hc3
        exact StepGood_intro (u := (sh.set src { block_ := none, observed_ := 0 }).set dst { block_ := none, observed_ := 0 })
                (by simp [World.step, hdst, hsrc, moveAssign_same, bind, Except.bind, pure, Except.pure]) hS hW
                (by omega) hW (forall_mem_set dst (forall_mem_set src hs (Or.inl rfl)) (Or.inl rfl)) hw
                (by simp; omega) (by omega) id (fun _ h => h)
      · have hg1 := hg { block_ := none, observed_ := 0 }
        have hsd := hne (by simp)
        rw [if_neg hsd] at hg1
        have hc1 := hc { block_ := none, observed_ := 0 }
        simp at hc1
        have hc3 := hc2 { block_ := none, observed_ := 0 } _ { block_ := some 0, observed_ := p } hg1
        simp at hc3
        exact StepGood_intro (u := (sh.set src { block_ := none, observed_ := 0 }).set dst { block_ := some 0, observed_ := p })
                (by simp [World.step, hdst, hsrc, moveAssign_empty_full _ _ p hp, bind, Except.bind, pure, Except.pure]) hS hW
                (by omega) hW (forall_mem_set dst (forall_mem_set src hs (Or.inl rfl)) (Or.inr rfl)) hw
                (by simp; omega) (by omega) id (fun _ h => h)
      · have hpos := countP_pos_of_get (fun s => s.block_ == some 0) sh dst _ hdst rfl
        obtain ⟨S0, rfl⟩ : ∃ S0, S = S0 + 1 := ⟨S - 1, by omega⟩
        have hg1 := hg { block_ := none, observed_ := 0 }
        have hsd := hne (by simp)
        rw [if_neg hsd] at hg1
        have hc1 := hc { block_ := none, observed_ := 0 }
        simp at hc1
        have hc3 := hc2 { block_ := none, observed_ := 0 } _ { block_ := none, observed_ := 0 } hg1
        simp at hc3
        exact StepGood_intro (u := (sh.set src { block_ := none, observed_ := 0 }).set dst { block_ := none, observed_ := 0 }) (X := S0)
                (by simp [World.step, hdst, hsrc, moveAssign_full_empty fuel k q S0 W p hp (by omega), bind, Except.bind, pure, Except.pure]) hS hW
                (by omega) hW (forall_mem_set dst (forall_mem_set src hs (Or.inl rfl)) (Or.inl rfl)) hw
                (by simp; omega) (by omega) (by omega) (by omega)
      · have hg1 := hg { block_ := some 0, observed_ := p }
        simp at hg1
        have hc1 := hc { block_ := some 0, observed_ := p }
        simp at hc1
        have hc3 := hc2 { block_ := some 0, observed_ := p } _ { block_ := some 0, observed_ := p } hg1
        simp at hc3
        exact StepGood_intro (u := (sh.set src { block_ := some 0, observed_ := p }).set dst { block_ := some 0, observed_ := p })
                (by simp [World.step, hdst, hsrc, moveAssign_same, bind, Except.bind, pure, Except.pure]) hS hW
                (by omega) hW (forall_mem_set dst (forall_mem_set src hs (Or.inr rfl)) (Or.inr rfl)) hw
                (by simp; omega) (by omega) id (fun _ h => h)

theorem step_weakMoveAssign {fuel p n : Nat} (hp : p ≠ 0) {k : BlockKind} {q : Nat}
    {sh : List SharedPtr} {wk : List WeakPtr} {S W : Nat}
    (hS : sh.countP (fun s => s.block_ == some 0) = S)
    (hW : wk.countP (fun s => s.block_ == some 0) = W)
    (hs : ∀ s ∈ sh, s = { block_ := none, observed_ := 0 } ∨ s = { block_ := some 0, observed_ := p })
    (hw : ∀ s ∈ wk, s = { block_ := none, observed_ := 0 } ∨ s = { block_ := some 0, observed_ := p })
    (hlen : sh.length + wk.length ≤ n) (hn : n + 1 < SIZE_MOD) (dst src : Nat) :
    StepGood fuel p n ⟨[blockAt k q S W], sh, wk⟩ (Op.weakMoveAssign dst src) := by
  have hle := List.countP_le_length (fun s : SharedPtr => s.block_ == some 0) (l := sh)
  have hlw := List.countP_le_length (fun s : WeakPtr => s.block_ == some 0) (l := wk)
  cases hdst : wk[dst]? with
  | none =>
    exact StepGood_intro (by simp [World.step, hdst, pure, Except.pure]) hS hW hS hW hs hw
      (by omega) (by omega) id (fun _ h => h)
  | some d =>
    cases hsrc : wk[src]? with
    | none =>
      exact StepGood_intro (by simp [World.step, hdst, hsrc, pure, Except.pure]) hS hW hS hW hs hw
        (by omega) (by omega) id (fun _ h => h)
    | some s =>
      have hne : d ≠ s → src ≠ dst := by
        intro hds e
        subst e
        rw [hsrc] at hdst
        exact hds (Option.some.inj hdst).symm
      have hg := fun a => get_set_of_get (l := wk) (i := src) (j := dst) a hsrc hdst
      have hc := fun a => countP_set_add (fun s : WeakPtr => s.block_ == some 0) wk src s a hsrc
      have hc2 := fun a x b (hx : (wk.set src a)[dst]? = some x) =>
        countP_set_add (fun s : WeakPtr => s.block_ == some 0) (wk.set src a) dst x b hx
      rcases hw d (List.getElem?_mem hdst) with rfl | rfl <;>
        rcases hw s (List.getElem?_mem hsrc) with rfl | rfl
      · have hg1 := hg { block_ := none, observed_ := 0 }
        simp at hg1
        have hc1 := hc { block_ := none, observed_ := 0 }
        simp at hc1
        have hc3 := hc2 { block_ := none, observed_ := 0 } _ { block_ := none, observed_ := 0 } hg1
        simp at hc3
        exact StepGood_intro (v := (wk.set src { block_ := none, observed_ := 0 }).set dst { block_ := none, observed_ := 0 })
                (by simp [World.step, hdst, hsrc, weakMoveAssign_same, bind, Except.bind, pure, Except.pure]) hS hW
                hS (by omega) hs (forall_mem_set dst (forall_mem_set src hw (Or.inl rfl)) (Or.inl rfl))
                (by simp; omega) (by omega) id (fun _ h => h)
      · have hg1 := hg { block_ := none, observed_ := 0 }
        have hsd := hne (by simp)
        rw [if_neg hsd] at hg1
        have hc1 := hc { block_ := none, observed_ := 0 }
        simp at hc1
        have hc3 := hc2 { block_ := none, observed_ := 0 } _ { block_ := some 0, observed_ := p } hg1
        simp at hc3
        exact StepGood_intro (v := (wk.set src { block_ := none, observed_ := 0 }).set dst { block_ := some 0, observed_ := p })
                (by simp [World.step, hdst, hsrc, weakMoveAssign_empty_full _ p hp, bind, Except.bind, pure, Except.pure]) hS hW
                hS (by omega) hs (forall_mem_set dst (forall_mem_set src hw (Or.inl rfl)) (Or.inr rfl))
                (by simp; omega) (by omega) id (fun _ h => h)
      · have hpos := countP_pos_of_get (fun s => s.block_ == some 0) wk dst _ hdst rfl
        obtain ⟨W0, rfl⟩ : ∃ W0, W = W0 + 1 := ⟨W - 1, by omega⟩
        have hg1 := hg { block_ := none, observed_ := 0 }
        have hsd := hne (by simp)
        rw [if_neg hsd] at hg1
        have hc1 := hc { block_ := none, observed_ := 0 }
        simp at hc1
        have hc3 := hc2 { block_ := none, observed_ := 0 } _ { block_ := none, observed_ := 0 } hg1
        simp at hc3
        exact StepGood_intro (v := (wk.set src { block_ := none, observed_ := 0 }).set dst { block_ := none, observed_ := 0 }) (Y := W0)
                (by simp [World.step, hdst, hsrc, weakMoveAssign_full_empty k q S W0 p hp (by omega), bind, Except.bind, pure, Except.pure]) hS hW
                hS (by omega) hs (forall_mem_set dst (forall_mem_set src hw (Or.inl rfl)) (Or.inl rfl))
                (by simp; omega) (by omega) id (by omega)
      · have hg1 := hg { block_ := some 0, observed_ := p }
        simp at hg1
        have hc1 := hc { block_ := some 0, observed_ := p }
        simp at hc1
        have hc3 := hc2 { block_ := some 0, observed_ := p } _ { block_ := some 0, observed_ := p } hg1
        simp at hc3
        exact StepGood_intro (v := (wk.set src { block_ := some 0, observed_ := p }).set dst { block_ := some 0, observed_ := p })
                (by simp [World.step, hdst, hsrc, weakMoveAssign_same, bind, Except.bind, pure, Except.pure]) hS hW
                hS (by omega) hs (forall_mem_set dst (forall_mem_set src hw (Or.inr rfl)) (Or.inr rfl))
                (by simp; omega) (by omega) id (fun _ h => h)

/-! ## Programs preserve the invariant -/

theorem step_good (fuel p n : Nat) (hp : p ≠ 0) (w : World) (hinv : Inv p n w)
    (hn : n + 1 < SIZE_MOD) (op : Op) : StepGood fuel p n w op := by
  obtain ⟨heap, sh, wk⟩ := w
  obtain ⟨⟨k, q, hheap⟩, hs, hw, hlen⟩ := hinv
  simp only [World.sharedHolders, World.weakHolders] at hheap
  subst hheap
  cases op with
  | copyCtor src => exact step_copyCtor hp rfl rfl hs hw hlen hn src
  | moveCtor src => exact step_moveCtor hp rfl rfl hs hw hlen hn src
  | copyAssign dst src => exact step_copyAssign hp rfl rfl hs hw hlen hn dst src
  | moveAssign dst src => exact step_moveAssign hp rfl rfl hs hw hlen hn dst src
  | reset i => exact step_reset hp rfl rfl hs hw hlen hn i
  | destroy i => exact step_destroy hp rfl rfl hs hw hlen hn i
  | demote src => exact step_demote hp rfl rfl hs hw hlen hn src
  | weakCopyCtor src => exact step_weakCopyCtor hp rfl rfl hs hw hlen hn src
  | weakMoveCtor src => exact step_weakMoveCtor hp rfl rfl hs hw hlen hn src
  | weakCopyAssign dst src => exact step_weakCopyAssign hp rfl rfl hs hw hlen hn dst src
  | weakMoveAssign dst src => exact step_weakMoveAssign hp rfl rfl hs hw hlen hn dst src
  | weakReset i => exact step_weakReset hp rfl rfl hs hw hlen hn i
  | weakDestroy i => exact step_weakDestroy hp rfl rfl hs hw hlen hn i
  | lock src => exact step_lock hp rfl rfl hs hw hlen hn src

theorem run_good (fuel p : Nat) (hp : p ≠ 0) (ops : List Op) :
    ∀ (n : Nat) (w : World), Inv p n w → n + ops.length < SIZE_MOD →
      ∃ w1, World.run (fuel + 1) w ops = .ok w1 ∧ Inv p (n + ops.length) w1 := by
  induction ops with
  | nil =>
    intro n w hinv _
    exact ⟨w, rfl, by simpa using hinv⟩
  | cons op ops ih =>
    intro n w hinv hn
    simp only [List.length_cons] at hn
    obtain ⟨w1, hstep, hinv1, _⟩ := step_good fuel p n hp w hinv (by omega) op
    obtain ⟨w2, hrun, hinv2⟩ := ih (n + 1) w1 hinv1 (by omega)
    refine ⟨w2, ?_, ?_⟩
    · simp [World.run, hstep, hrun, bind, Except.bind]
    · have e : n + (op :: ops).length = n + 1 + ops.length := by simp; omega
      rw [e]; exact hinv2

theorem run_append (fuel : Nat) (ops : List Op) (op : Op) :
    ∀ (w w1 w2 : World), World.run fuel w ops = .ok w1 → w1.step fuel op = .ok w2 →
      World.run fuel w (ops ++ [op]) = .ok w2 := by
  induction ops with
  | nil =>
    intro w w1 w2 h1 h2
    simp only [World.run, pure, Except.pure] at h1
    injection h1 with h1
    subst h1
    simp [World.run, h2, bind, Except.bind, pure, Except.pure]
  | cons o ops ih =>
    intro w w1 w2 h1 h2
    simp only [World.run, bind, Except.bind] at h1
    cases hs : w.step fuel o with
    | error e => simp [hs] at h1
    | ok w3 =>
      simp only [hs] at h1
      have := ih w3 w1 w2 h1 h2
      simp [World.run, hs, this, bind, Except.bind]

theorem create_good (kind : BlockKind) (p : Nat) :
    ∃ w, World.create kind p = .ok w ∧ Inv p 1 w := by
  cases kind with
  | ptr =>
    refine ⟨_, rfl, ⟨BlockKind.ptr, p, ?_⟩, ?_, ?_, ?_⟩
    · simp [SharedPtr.ofPtr, ControlBlockPtr.new, blockAt, World.sharedHolders,
        World.weakHolders, sizeInc]
    · simp [SharedPtr.ofPtr]
    · simp
    · simp
  | obj =>
    refine ⟨⟨[blockAt BlockKind.obj p 1 0], [{ block_ := some 0, observed_ := p }], []⟩, ?_,
      ⟨BlockKind.obj, p, ?_⟩, ?_, ?_, ?_⟩
    · simp [World.create, MakeShared, SharedPtr.ofBlockObj, Heap.deref, ControlBlockObj.new,
        ControlBlock.GetPtr, blockAt, sizeInc, bind, Except.bind, pure, Except.pure]
    · simp [World.sharedHolders, World.weakHolders]
    · simp
    · simp
    · simp

theorem Inv_strong {p n : Nat} {w : World} (hinv : Inv p n w) :
    w.strong 0 = w.sharedHolders 0 ∧ w.weakCount 0 = w.weakHolders 0 ∧
    w.events 0 Event.finalize = (if w.sharedHolders 0 = 0 then 1 else 0) ∧
    w.events 0 Event.free = (if w.sharedHolders 0 = 0 ∧ w.weakHolders 0 = 0 then 1 else 0) ∧
    (w.isFreed 0 = true ↔ w.sharedHolders 0 = 0 ∧ w.weakHolders 0 = 0) := by
  obtain ⟨⟨k, q, hheap⟩, _, _, _⟩ := hinv
  generalize w.sharedHolders 0 = S at *
  generalize w.weakHolders 0 = W at *
  by_cases hS : S = 0 <;> by_cases hW : W = 0 <;>
    simp [World.strong, World.weakCount, World.events, World.isFreed, hheap, blockAt, hS, hW]

theorem holders_zero_of_empty {w : World}
    (he : ∀ s ∈ w.shared, s.block_ = none) : w.sharedHolders 0 = 0 := by
  unfold World.sharedHolders
  rw [List.countP_eq_zero]
  intro s hs
  simp [he s hs]

theorem program_step (fuel : Nat) (kind : BlockKind) (p : Nat) (hp : p ≠ 0) (ops : List Op)
    (op : Op) (hsize : ops.length + 2 < SIZE_MOD) :
    ∃ w w1 n, World.runFrom (fuel + 1) kind p ops = .ok w ∧ w.step (fuel + 1) op = .ok w1 ∧
      World.runFrom (fuel + 1) kind p (ops ++ [op]) = .ok w1 ∧
      Inv p n w ∧ Inv p (n + 1) w1 ∧
      w.sharedHolders 0 ≤ w1.sharedHolders 0 + 1 ∧
      (w.sharedHolders 0 = 0 → w1.sharedHolders 0 = 0) ∧
      (w.sharedHolders 0 = 0 → w.weakHolders 0 = 0 → w1.weakHolders 0 = 0) := by
  obtain ⟨w0, hc, hinv0⟩ := create_good kind p
  obtain ⟨w, hrun, hinv⟩ := run_good fuel p hp ops 1 w0 hinv0 (by omega)
  obtain ⟨w1, hstep, hinv1, h1, h2, h3⟩ :=
    step_good fuel p (1 + ops.length) hp w hinv (by omega) op
  refine ⟨w, w1, _, ?_, hstep, ?_, hinv, hinv1, h1, h2, h3⟩
  · simp [World.runFrom, hc, hrun, bind, Except.bind]
  · simp [World.runFrom, hc, run_append (fuel + 1) ops op w0 w w1 hrun hstep, bind, Except.bind]

/-- Claim C1: a program creates one object (by `MakeShared` or by adopting a
non-null pointer `p`) and then runs any statements over its handles (copy and
move construction, copy and move assignment, `Reset()`, destruction; statements
on `WeakPtr` are allowed too). Every statement returns. In the state `w` before
and the state `w1` after any statement, `Delete()` has been called at most once;
the statement adds a call of `Delete()` exactly when it takes the strong count
from 1 to 0; and in a state where every `SharedPtr` has been released,
`Delete()` has been called exactly once. -/
theorem finalize_exactly_once (fuel : Nat) (kind : BlockKind) (p : Nat) (hp : p ≠ 0)
    (ops : List Op) (op : Op) (hsize : ops.length + 2 < SIZE_MOD) :
    ∃ w w1, World.runFrom (fuel + 1) kind p ops = .ok w ∧ w.step (fuel + 1) op = .ok w1 ∧
      World.runFrom (fuel + 1) kind p (ops ++ [op]) = .ok w1 ∧
      w.events 0 Event.finalize ≤ 1 ∧ w1.events 0 Event.finalize ≤ 1 ∧
      w1.events 0 Event.finalize = w.events 0 Event.finalize +
        (if w.strong 0 = 1 ∧ w1.strong 0 = 0 then 1 else 0) ∧
      ((∀ s ∈ w.shared, s.block_ = none) → w.events 0 Event.finalize = 1) ∧
      ((∀ s ∈ w1.shared, s.block_ = none) → w1.events 0 Event.finalize = 1) := by
  obtain ⟨w, w1, n, hrun, hstep, hrun1, hinv, hinv1, h1, h2, _⟩ :=
    program_step fuel kind p hp ops op hsize
  obtain ⟨hs, _, hf, _, _⟩ := Inv_strong hinv
  obtain ⟨hs1, _, hf1, _, _⟩ := Inv_strong hinv1
  refine ⟨w, w1, hrun, hstep, hrun1, ?_, ?_, ?_, ?_, ?_⟩
  · rw [hf]; split <;> omega
  · rw [hf1]; split <;> omega
  · rw [hf, hf1, hs, hs1]
    by_cases a : w.sharedHolders 0 = 0
    · simp [a, h2 a]
    · by_cases b : w1.sharedHolders 0 = 0
      · have : w.sharedHolders 0 = 1 := by omega
        simp [b, this]
      · simp [a, b]
  · intro he
    rw [hf, holders_zero_of_empty he]; rfl
  · intro he
    rw [hf1, holders_zero_of_empty he]; rfl

/-- Claim C1 on the program `auto a = MakeShared<T>(); SharedPtr<T> b(a);
a.Reset();` followed by the destruction of `b`. -/
theorem finalize_exactly_once_witness :
    ∃ w w1, World.runFrom 1 BlockKind.obj 7 [Op.copyCtor 0, Op.reset 0] = .ok w ∧
      w.step 1 (Op.destroy 1) = .ok w1 ∧
      World.runFrom 1 BlockKind.obj 7 ([Op.copyCtor 0, Op.reset 0] ++ [Op.destroy 1]) = .ok w1 ∧
      w.events 0 Event.finalize ≤ 1 ∧ w1.events 0 Event.finalize ≤ 1 ∧
      w1.events 0 Event.finalize = w.events 0 Event.finalize +
        (if w.strong 0 = 1 ∧ w1.strong 0 = 0 then 1 else 0) ∧
      ((∀ s ∈ w.shared, s.block_ = none) → w.events 0 Event.finalize = 1) ∧
      ((∀ s ∈ w1.shared, s.block_ = none) → w1.events 0 Event.finalize = 1) :=
  finalize_exactly_once 0 BlockKind.obj 7 (by decide) [Op.copyCtor 0, Op.reset 0]
    (Op.destroy 1) (by decide)

/-! ## Programs whose creation adopted a null pointer -/

theorem copy_null (h : Heap) (s : SharedPtr) (hs : s.observed_ = 0) :
    SharedPtr.copy h s = .ok (h, s) := by
  obtain ⟨sb, so⟩ := s
  simp only at hs
  subst hs
  simp [SharedPtr.copy, SharedPtr.IncreaseStrongCounter, bind, Except.bind, pure, Except.pure]

theorem release_null (fuel : Nat) (h : Heap) (s : SharedPtr) (hs : s.observed_ = 0) :
    SharedPtr.Release fuel h s = .ok (h, s) := by
  simp [SharedPtr.Release, SharedPtr.releaseVia, hs, pure, Except.pure]

theorem copyAssign_null (fuel : Nat) (h : Heap) (d s : SharedPtr) (hd : d.observed_ = 0)
    (hs : s.observed_ = 0) : SharedPtr.copyAssign fuel h d s = .ok (h, d) := by
  simp [SharedPtr.copyAssign, hd, hs, pure, Except.pure]

theorem moveAssign_null (fuel : Nat) (h : Heap) (d s : SharedPtr) (hd : d.observed_ = 0)
    (hs : s.observed_ = 0) : SharedPtr.moveAssign fuel h d s = .ok (h, d, s) := by
  simp [SharedPtr.moveAssign, hd, hs, pure, Except.pure]

theorem weakCopy_null (h : Heap) (s : WeakPtr) (hs : s.observed_ = 0) :
    WeakPtr.copy h s = .ok (h, s) := by
  obtain ⟨sb, so⟩ := s
  simp only at hs
  subst hs
  simp [WeakPtr.copy, WeakPtr.IncreaseWeakCounter, bind, Except.bind, pure, Except.pure]

theorem demote_null (h : Heap) (s : SharedPtr) (hs : s.observed_ = 0) :
    WeakPtr.ofShared h s = .ok (h, { block_ := s.block_, observed_ := 0 }) := by
  simp [WeakPtr.ofShared, WeakPtr.IncreaseWeakCounter, hs, bind, Except.bind, pure, Except.pure]

theorem releaseWeak_null (h : Heap) (s : WeakPtr) (hs : s.observed_ = 0) :
    WeakPtr.ReleaseWeak h s = .ok (h, s) := by
  simp [WeakPtr.ReleaseWeak, hs, pure, Except.pure]

theorem weakCopyAssign_null (h : Heap) (d s : WeakPtr) (hd : d.observed_ = 0)
    (hs : s.observed_ = 0) : WeakPtr.copyAssign h d s = .ok (h, d) := by
  simp [WeakPtr.copyAssign, hd, hs, pure, Except.pure]

theorem weakMoveAssign_null (h : Heap) (d s : WeakPtr) (hd : d.observed_ = 0)
    (hs : s.observed_ = 0) : WeakPtr.moveAssign h d s = .ok (h, d, s) := by
  simp [WeakPtr.moveAssign, hd, hs, pure, Except.pure]

theorem lock_null (B : ControlBlock) (hB : B.strong_ = 1) (hlive : B.freed = false)
    (s : WeakPtr) (hs : s.observed_ = 0 ∧ (s.block_ = none ∨ s.block_ = some 0)) :
    ∃ t : SharedPtr, WeakPtr.Lock [B] s = .ok ([B], t) ∧
      t.observed_ = 0 ∧ (t.block_ = none ∨ t.block_ = some 0) := by
  obtain ⟨sb, so⟩ := s
  obtain ⟨ho, hb⟩ := hs
  simp only at ho hb
  subst ho
  rcases hb with rfl | rfl
  · exact ⟨SharedPtr.empty, by simp [WeakPtr.Lock, WeakPtr.Expired, bind, Except.bind, pure,
      Except.pure], rfl, Or.inl rfl⟩
  · refine ⟨{ block_ := some 0, observed_ := 0 }, ?_, rfl, Or.inr rfl⟩
    simp [WeakPtr.Lock, WeakPtr.Expired, WeakPtr.UseCount, ControlBlock.UseStrongCount,
      Heap.deref, hlive, hB, SharedPtr.promote, SharedPtr.IncreaseStrongCounter, bind,
      Except.bind, pure, Except.pure]

theorem step_null (fuel : Nat) (B : ControlBlock) (hB : B.strong_ = 1)
    (hlive : B.freed = false) (w : World) (hinv : InvNull B w) (op : Op) :
    ∃ w1, w.step fuel op = .ok w1 ∧ InvNull B w1 := by
  obtain ⟨heap, sh, wk⟩ := w
  obtain ⟨hheap, hs, hw⟩ := hinv
  simp only at hheap hs hw
  subst hheap
  have hE : ∀ {α : Type} (x : α), (pure x : Except Fault α) = .ok x := fun _ => rfl
  cases op with
  | copyCtor src =>
    cases hsrc : sh[src]? with
    | none => exact ⟨⟨[B], sh, wk⟩, by simp [World.step, hsrc, hE], rfl, hs, hw⟩
    | some s =>
      have h1 := hs s (List.getElem?_mem hsrc)
      exact ⟨⟨[B], sh ++ [s], wk⟩,
        by simp [World.step, hsrc, copy_null _ s h1.1, bind, Except.bind, hE],
        rfl, forall_mem_push hs h1, hw⟩
  | moveCtor src =>
    cases hsrc : sh[src]? with
    | none => exact ⟨⟨[B], sh, wk⟩, by simp [World.step, hsrc, hE], rfl, hs, hw⟩
    | some s =>
      have h1 := hs s (List.getElem?_mem hsrc)
      exact ⟨⟨[B], sh.set src { block_ := none, observed_ := 0 }
          ++ [{ block_ := s.block_, observed_ := s.observed_ }], wk⟩,
        by simp [World.step, hsrc, SharedPtr.move, hE],
        rfl, forall_mem_push (forall_mem_set src hs ⟨rfl, Or.inl rfl⟩) h1, hw⟩
  | copyAssign dst src =>
    cases hdst : sh[dst]? with
    | none => exact ⟨⟨[B], sh, wk⟩, by simp [World.step, hdst, hE], rfl, hs, hw⟩
    | some d =>
      cases hsrc : sh[src]? with
      | none => exact ⟨⟨[B], sh, wk⟩, by simp [World.step, hdst, hsrc, hE], rfl, hs, hw⟩
      | some s =>
        have h1 := hs d (List.getElem?_mem hdst)
        have h2 := hs s (List.getElem?_mem hsrc)
        exact ⟨⟨[B], sh.set dst d, wk⟩,
          by simp [World.step, hdst, hsrc, copyAssign_null _ _ d s h1.1 h2.1, bind, Except.bind,
            hE],
          rfl, forall_mem_set dst hs h1, hw⟩
  | moveAssign dst src =>
    cases hdst : sh[dst]? with
    | none => exact ⟨⟨[B], sh, wk⟩, by simp [World.step, hdst, hE], rfl, hs, hw⟩
    | some d =>
      cases hsrc : sh[src]? with
      | none => exact ⟨⟨[B], sh, wk⟩, by simp [World.step, hdst, hsrc, hE], rfl, hs, hw⟩
      | some s =>
        have h1 := hs d (List.getElem?_mem hdst)
        have h2 := hs s (List.getElem?_mem hsrc)
        exact ⟨⟨[B], (sh.set src s).set dst d, wk⟩,
          by simp [World.step, hdst, hsrc, moveAssign_null _ _ d s h1.1 h2.1, bind, Except.bind,
            hE],
          rfl, forall_mem_set dst (forall_mem_set src hs h2) h1, hw⟩
  | reset i =>
    cases hi : sh[i]? with
    | none => exact ⟨⟨[B], sh, wk⟩, by simp [World.step, hi, hE], rfl, hs, hw⟩
    | some s =>
      have h1 := hs s (List.getElem?_mem hi)
      exact ⟨⟨[B], sh.set i s, wk⟩,
        by simp [World.step, hi, SharedPtr.Reset, release_null _ _ s h1.1, bind, Except.bind, hE],
        rfl, forall_mem_set i hs h1, hw⟩
  | destroy i =>
    cases hi : sh[i]? with
    | none => exact ⟨⟨[B], sh, wk⟩, by simp [World.step, hi, hE], rfl, hs, hw⟩
    | some s =>
      have h1 := hs s (List.getElem?_mem hi)
      exact ⟨⟨[B], sh.set i s, wk⟩,
        by simp [World.step, hi, SharedPtr.destructor, release_null _ _ s h1.1, bind,
          Except.bind, hE],
        rfl, forall_mem_set i hs h1, hw⟩
  | demote src =>
    cases hsrc : sh[src]? with
    | none => exact ⟨⟨[B], sh, wk⟩, by simp [World.step, hsrc, hE], rfl, hs, hw⟩
    | some s =>
      have h1 := hs s (List.getElem?_mem hsrc)
      exact ⟨⟨[B], sh, wk ++ [{ block_ := s.block_, observed_ := 0 }]⟩,
        by simp [World.step, hsrc, demote_null _ s h1.1, bind, Except.bind, hE],
        rfl, hs, forall_mem_push hw ⟨rfl, h1.2⟩⟩
  | weakCopyCtor src =>
    cases hsrc : wk[src]? with
    | none => exact ⟨⟨[B], sh, wk⟩, by simp [World.step, hsrc, hE], rfl, hs, hw⟩
    | some s =>
      have h1 := hw s (List.getElem?_mem hsrc)
      exact ⟨⟨[B], sh, wk ++ [s]⟩,
        by simp [World.step, hsrc, weakCopy_null _ s h1.1, bind, Except.bind, hE],
        rfl, hs, forall_mem_push hw h1⟩
  | weakMoveCtor src =>
    cases hsrc : wk[src]? with
    | none => exact ⟨⟨[B], sh, wk⟩, by simp [World.step, hsrc, hE], rfl, hs, hw⟩
    | some s =>
      have h1 := hw s (List.getElem?_mem hsrc)
      exact ⟨⟨[B], sh, wk.set src { block_ := none, observed_ := 0 }
          ++ [{ block_ := s.block_, observed_ := s.observed_ }]⟩,
        by simp [World.step, hsrc, WeakPtr.move, hE],
        rfl, hs, forall_mem_push (forall_mem_set src hw ⟨rfl, Or.inl rfl⟩) h1⟩
  | weakCopyAssign dst src =>
    cases hdst : wk[dst]? with
    | none => exact ⟨⟨[B], sh, wk⟩, by simp [World.step, hdst, hE], rfl, hs, hw⟩
    | some d =>
      cases hsrc : wk[src]? with
      | none => exact ⟨⟨[B], sh, wk⟩, by simp [World.step, hdst, hsrc, hE], rfl, hs, hw⟩
      | some s =>
        have h1 := hw d (List.getElem?_mem hdst)
        have h2 := hw s (List.getElem?_mem hsrc)
        exact ⟨⟨[B], sh, wk.set dst d⟩,
          by simp [World.step, hdst, hsrc, weakCopyAssign_null _ d s h1.1 h2.1, bind,
            Except.bind, hE],
          rfl, hs, forall_mem_set dst hw h1⟩
  | weakMoveAssign dst src =>
    cases hdst : wk[dst]? with
    | none => exact ⟨⟨[B], sh, wk⟩, by simp [World.step, hdst, hE], rfl, hs, hw⟩
    | some d =>
      cases hsrc : wk[src]? with
      | none => exact ⟨⟨[B], sh, wk⟩, by simp [World.step, hdst, hsrc, hE], rfl, hs, hw⟩
      | some s =>
        have h1 := hw d (List.getElem?_mem hdst)
        have h2 := hw s (List.getElem?_mem hsrc)
        exact ⟨⟨[B], sh, (wk.set src s).set dst d⟩,
          by simp [World.step, hdst, hsrc, weakMoveAssign_null _ d s h1.1 h2.1, bind,
            Except.bind, hE],
          rfl, hs, forall_mem_set dst (forall_mem_set src hw h2) h1⟩
  | weakReset i =>
    cases hi : wk[i]? with
    | none => exact ⟨⟨[B], sh, wk⟩, by simp [World.step, hi, hE], rfl, hs, hw⟩
    | some s =>
      have h1 := hw s (List.getElem?_mem hi)
      exact ⟨⟨[B], sh, wk.set i s⟩,
        by simp [World.step, hi, WeakPtr.Reset, releaseWeak_null _ s h1.1, bind, Except.bind, hE],
        rfl, hs, forall_mem_set i hw h1⟩
  | weakDestroy i =>
    cases hi : wk[i]? with
    | none => exact ⟨⟨[B], sh, wk⟩, by simp [World.step, hi, hE], rfl, hs, hw⟩
    | some s =>
      have h1 := hw s (List.getElem?_mem hi)
      exact ⟨⟨[B], sh, wk.set i s⟩,
        by simp [World.step, hi, WeakPtr.destructor, releaseWeak_null _ s h1.1, bind,
          Except.bind, hE],
        rfl, hs, forall_mem_set i hw h1⟩
  | lock src =>
    cases hsrc : wk[src]? with
    | none => exact ⟨⟨[B], sh, wk⟩, by simp [World.step, hsrc, hE], rfl, hs, hw⟩
    | some s =>
      have h1 := hw s (List.getElem?_mem hsrc)
      obtain ⟨t, hL, ht⟩ := lock_null B hB hlive s h1
      exact ⟨⟨[B], sh ++ [t], wk⟩,
        by simp [World.step, hsrc, hL, bind, Except.bind, hE],
        rfl, forall_mem_push hs ht, hw⟩

theorem run_null (fuel : Nat) (B : ControlBlock) (hB : B.strong_ = 1)
    (hlive : B.freed = false) (ops : List Op) :
    ∀ w : World, InvNull B w → ∃ w1, World.run fuel w ops = .ok w1 ∧ InvNull B w1 := by
  induction ops with
  | nil => intro w hinv; exact ⟨w, rfl, hinv⟩
  | cons op ops ih =>
    intro w hinv
    obtain ⟨w1, hstep, hinv1⟩ := step_null fuel B hB hlive w hinv op
    obtain ⟨w2, hrun, hinv2⟩ := ih w1 hinv1
    exact ⟨w2, by simp [World.run, hstep, hrun, bind, Except.bind], hinv2⟩

theorem create_null (kind : BlockKind) :
    ∃ B w, World.create kind 0 = .ok w ∧ InvNull B w ∧ B.strong_ = 1 ∧ B.weak_ = 0 ∧
      B.freed = false ∧ B.trace = [] := by
  cases kind with
  | ptr =>
    exact ⟨ControlBlockPtr.new 0 [], _, rfl, ⟨rfl, by simp [SharedPtr.ofPtr], by simp⟩,
      rfl, rfl, rfl, rfl⟩
  | obj =>
    exact ⟨ControlBlockObj.new 0 [], ⟨[ControlBlockObj.new 0 []], [{ block_ := some 0, observed_ := 0 }], []⟩,
      rfl, ⟨rfl, by simp, by simp⟩, rfl, rfl, rfl, rfl⟩

theorem program_step_null (fuel : Nat) (kind : BlockKind) (ops : List Op) (op : Op) :
    ∃ B w w1, World.runFrom fuel kind 0 ops = .ok w ∧ w.step fuel op = .ok w1 ∧
      World.runFrom fuel kind 0 (ops ++ [op]) = .ok w1 ∧
      w.heap = [B] ∧ w1.heap = [B] ∧ B.strong_ = 1 ∧ B.weak_ = 0 ∧
      B.freed = false ∧ B.trace = [] := by
  obtain ⟨B, w0, hc, hinv0, hB, hW, hlive, htr⟩ := create_null kind
  obtain ⟨w, hrun, hinv⟩ := run_null fuel B hB hlive ops w0 hinv0
  obtain ⟨w1, hstep, hinv1⟩ := step_null fuel B hB hlive w hinv op
  refine ⟨B, w, w1, ?_, hstep, ?_, hinv.1, hinv1.1, hB, hW, hlive, htr⟩
  · simp [World.runFrom, hc, hrun, bind, Except.bind]
  · simp [World.runFrom, hc, run_append fuel ops op w0 w w1 hrun hstep, bind, Except.bind]

/-- Claim C2: a program creates one object (by `MakeShared` or by adopting a
pointer `p`, null or not) and then runs any statements over its `SharedPtr` and
`WeakPtr` variables (copy, move, demotion, `Lock()`, `Reset()`, destruction). Every statement returns. In every
state `delete this` has run at most once; a statement runs it exactly when it
brings the state from "not both counters zero" to "both counters zero" (both
stay zero afterwards); and the block is deleted exactly in the states where the
strong and the weak count are both zero, whichever of them reached zero first. -/
theorem block_freed_exactly_once (fuel : Nat) (kind : BlockKind) (p : Nat)
    (ops : List Op) (op : Op) (hsize : ops.length + 2 < SIZE_MOD) :
    ∃ w w1, World.runFrom (fuel + 1) kind p ops = .ok w ∧ w.step (fuel + 1) op = .ok w1 ∧
      World.runFrom (fuel + 1) kind p (ops ++ [op]) = .ok w1 ∧
      w.events 0 Event.free ≤ 1 ∧ w1.events 0 Event.free ≤ 1 ∧
      w1.events 0 Event.free = w.events 0 Event.free +
        (if ¬ (w.strong 0 = 0 ∧ w.weakCount 0 = 0) ∧ (w1.strong 0 = 0 ∧ w1.weakCount 0 = 0)
          then 1 else 0) ∧
      (w.strong 0 = 0 ∧ w.weakCount 0 = 0 → w1.strong 0 = 0 ∧ w1.weakCount 0 = 0) ∧
      (w.isFreed 0 = true ↔ w.strong 0 = 0 ∧ w.weakCount 0 = 0) ∧
      (w1.isFreed 0 = true ↔ w1.strong 0 = 0 ∧ w1.weakCount 0 = 0) ∧
      (w1.events 0 Event.free = 1 ↔ w1.isFreed 0 = true) := by
  by_cases hp : p = 0
  · subst hp
    obtain ⟨B, w, w1, hrun, hstep, hrun1, hh, hh1, hB, hW, hlive, htr⟩ :=
      program_step_null (fuel + 1) kind ops op
    refine ⟨w, w1, hrun, hstep, hrun1, ?_⟩
    simp [World.events, World.strong, World.weakCount, World.isFreed, hh, hh1, hB, hW, hlive,
      htr]
  obtain ⟨w, w1, n, hrun, hstep, hrun1, hinv, hinv1, _, h2, h3⟩ :=
    program_step fuel kind p hp ops op hsize
  obtain ⟨hs, hw, _, hf, hfr⟩ := Inv_strong hinv
  obtain ⟨hs1, hw1, _, hf1, hfr1⟩ := Inv_strong hinv1
  have keep : w.sharedHolders 0 = 0 ∧ w.weakHolders 0 = 0 →
      w1.sharedHolders 0 = 0 ∧ w1.weakHolders 0 = 0 := fun ⟨a, b⟩ => ⟨h2 a, h3 a b⟩
  refine ⟨w, w1, hrun, hstep, hrun1, ?_, ?_, ?_, ?_, ?_, ?_, ?_⟩
  · rw [hf]; split <;> omega
  · rw [hf1]; split <;> omega
  · rw [hf, hf1, hs, hs1, hw, hw1]
    by_cases a : w.sharedHolders 0 = 0 ∧ w.weakHolders 0 = 0
    · simp [a, keep a]
    · by_cases b : w1.sharedHolders 0 = 0 ∧ w1.weakHolders 0 = 0
      · simp [a, b]
      · simp [a, b]
  · rw [hs, hs1, hw, hw1]; exact keep
  · rw [hs, hw]; exact hfr
  · rw [hs1, hw1]; exact hfr1
  · rw [hf1, hfr1]
    by_cases b : w1.sharedHolders 0 = 0 ∧ w1.weakHolders 0 = 0 <;> simp [b]

/-- Claim C2 on the program `SharedPtr<T> a(p); WeakPtr<T> v(a); v.Reset();`
followed by `a.Reset()`: the weak count reaches zero first. -/
theorem block_freed_exactly_once_witness :
    ∃ w w1, World.runFrom 1 BlockKind.ptr 7 [Op.demote 0, Op.weakReset 0] = .ok w ∧
      w.step 1 (Op.reset 0) = .ok w1 ∧
      World.runFrom 1 BlockKind.ptr 7 ([Op.demote 0, Op.weakReset 0] ++ [Op.reset 0]) = .ok w1 ∧
      w.events 0 Event.free ≤ 1 ∧ w1.events 0 Event.free ≤ 1 ∧
      w1.events 0 Event.free = w.events 0 Event.free +
        (if ¬ (w.strong 0 = 0 ∧ w.weakCount 0 = 0) ∧ (w1.strong 0 = 0 ∧ w1.weakCount 0 = 0)
          then 1 else 0) ∧
      (w.strong 0 = 0 ∧ w.weakCount 0 = 0 → w1.strong 0 = 0 ∧ w1.weakCount 0 = 0) ∧
      (w.isFreed 0 = true ↔ w.strong 0 = 0 ∧ w.weakCount 0 = 0) ∧
      (w1.isFreed 0 = true ↔ w1.strong 0 = 0 ∧ w1.weakCount 0 = 0) ∧
      (w1.events 0 Event.free = 1 ↔ w1.isFreed 0 = true) :=
  block_freed_exactly_once 0 BlockKind.ptr 7 [Op.demote 0, Op.weakReset 0]
    (Op.reset 0) (by decide)

/-- Claim C9, as amended: in every state and for every `WeakPtr`, the promoting
constructor throws `BadWeakPtr` exactly when `Lock()` returns the
default-constructed `SharedPtr` (no block, null address) and leaves the heap
alone; and for a `WeakPtr` whose cached address is not null this is exactly
when `Lock()` returns a handle whose bool conversion is false and whose `Get()`
is null. -/
theorem promote_throws_iff_lock_empty (h : Heap) (w : WeakPtr) :
    (SharedPtr.promote h w = .error Fault.badWeakPtr ↔
      WeakPtr.Lock h w = .ok (h, SharedPtr.empty)) ∧
    (w.observed_ ≠ 0 →
      (SharedPtr.promote h w = .error Fault.badWeakPtr ↔
        ∃ t, WeakPtr.Lock h w = .ok (h, t) ∧ t.toBool = false ∧ t.Get = 0)) := by
  obtain ⟨blk_, obs⟩ := w
  cases blk_ with
  | none =>
    simp [WeakPtr.Lock, SharedPtr.promote, WeakPtr.Expired, SharedPtr.empty, SharedPtr.toBool,
      SharedPtr.Get, bind, Except.bind, pure, Except.pure]
  | some b =>
    rcases deref_cases h b with ⟨blk, hb, hf, hd⟩ | hd
    · by_cases hs : blk.strong_ = 0
      · simp [WeakPtr.Lock, WeakPtr.Expired, WeakPtr.UseCount, ControlBlock.UseStrongCount, hd,
          bind, Except.bind, pure, Except.pure, hs, SharedPtr.promote, SharedPtr.empty,
          SharedPtr.toBool, SharedPtr.Get]
      · by_cases ho : obs = 0
        · simp [WeakPtr.Lock, WeakPtr.Expired, WeakPtr.UseCount, ControlBlock.UseStrongCount, hd,
            bind, Except.bind, pure, Except.pure, hs, SharedPtr.promote, SharedPtr.empty,
            SharedPtr.IncreaseStrongCounter, ho]
        · simp [WeakPtr.Lock, WeakPtr.Expired, WeakPtr.UseCount, ControlBlock.UseStrongCount, hd,
            bind, Except.bind, pure, Except.pure, hs, SharedPtr.promote, SharedPtr.empty,
            SharedPtr.IncreaseStrongCounter, ho, ControlBlock.IncreaseStrongCounter,
            SharedPtr.toBool, SharedPtr.Get]
    · simp [WeakPtr.Lock, WeakPtr.Expired, WeakPtr.UseCount, ControlBlock.UseStrongCount, hd,
        bind, Except.bind, pure, Except.pure, SharedPtr.promote]

/-- Claim C9, as amended, at a `WeakPtr` with a non-null cached address. -/
theorem promote_throws_iff_lock_empty_witness :
    SharedPtr.promote chainHeap { block_ := some 0, observed_ := 7 } = .error Fault.badWeakPtr ↔
      ∃ t, WeakPtr.Lock chainHeap { block_ := some 0, observed_ := 7 } = .ok (chainHeap, t) ∧
        t.toBool = false ∧ t.Get = 0 :=
  (promote_throws_iff_lock_empty chainHeap { block_ := some 0, observed_ := 7 }).2 (by decide)

/-! ## Lock, Expired, copy and move -/

theorem Lock_live_eq {h : Heap} {b : Nat} {blk : ControlBlock} {o : Nat}
    (hblk : h[b]? = some blk) (hlive : blk.freed = false) (hn : blk.strong_ ≠ 0) (ho : o ≠ 0) :
    WeakPtr.Lock h { block_ := some b, observed_ := o }
      = .ok (h.set b { blk with strong_ := sizeInc blk.strong_ },
          { block_ := some b, observed_ := o }) := by
  have hd := deref_eq hblk hlive
  simp [WeakPtr.Lock, WeakPtr.Expired, WeakPtr.UseCount, ControlBlock.UseStrongCount, hd,
    bind, Except.bind, pure, Except.pure, hn, SharedPtr.promote,
    SharedPtr.IncreaseStrongCounter, ho, ControlBlock.IncreaseStrongCounter]

/-- Claim C11, as amended: for a `WeakPtr` `w` with a non-null cached address
whose block is alive with strong count `n ≥ 1`, `Lock()` returns a `SharedPtr`
whose bool conversion is true, which holds the block of `w` and returns from
`Get()` the address `w` caches (the one of the owner it was derived from);
afterwards the strong count is `n + 1`, the weak count is unchanged and no
other block is touched. -/
theorem lock_of_live_object (h : Heap) (w : WeakPtr) (b : Nat) (blk : ControlBlock)
    (hw : w.block_ = some b) (hobs : w.observed_ ≠ 0)
    (hblk : h[b]? = some blk) (hlive : blk.freed = false)
    (hn : 1 ≤ blk.strong_) (hsize : blk.strong_ + 1 < SIZE_MOD) :
    ∃ t blk1, WeakPtr.Lock h w = .ok (h.set b blk1, t) ∧
      t.toBool = true ∧ t.block_ = w.block_ ∧ t.Get = w.observed_ ∧
      blk1.strong_ = blk.strong_ + 1 ∧ blk1.weak_ = blk.weak_ ∧
      blk1.freed = false ∧ blk1.trace = blk.trace := by
  obtain ⟨wb, wo⟩ := w
  simp only at hw hobs
  subst hw
  refine ⟨_, _, Lock_live_eq hblk hlive (by omega) hobs, ?_⟩
  simp [SharedPtr.toBool, SharedPtr.Get, hobs, sizeInc_eq _ hsize, hlive]

/-- Claim C11, as amended, at a concrete heap. -/
theorem lock_of_live_object_witness :
    ∃ t blk1, WeakPtr.Lock chainHeap { block_ := some 0, observed_ := 7 }
        = .ok (chainHeap.set 0 blk1, t) ∧
      t.toBool = true ∧ t.block_ = some 0 ∧ t.Get = 7 ∧
      blk1.strong_ = 1 + 1 ∧ blk1.weak_ = 1 ∧ blk1.freed = false ∧ blk1.trace = [] :=
  lock_of_live_object chainHeap { block_ := some 0, observed_ := 7 } 0
    { kind := .obj, strong_ := 1, weak_ := 1, ptr_ := 7,
      members := [Member.shared { block_ := some 1, observed_ := 9 }], trace := [], freed := false }
    rfl (by decide) rfl rfl (by decide) (by decide)

/-- Claim C11 fails as stated: for `int* p = nullptr; SharedPtr<int> s(p);
WeakPtr<int> w(s);` the block of `w` has strong count 1, yet `w.Lock()` returns
a handle whose bool conversion is false and the strong count is still 1. -/
theorem lock_of_null_address_is_false :
    ∃ h s w, adoptNull = .ok (h, s, w) ∧ w.block_ = some 0 ∧
      ControlBlock.UseStrongCount h 0 = .ok 1 ∧
      ∃ t, WeakPtr.Lock h w = .ok (h, t) ∧ t.toBool = false ∧
        ControlBlock.UseStrongCount h 0 = .ok 1 :=
  ⟨_, _, _, rfl, rfl, rfl, _, rfl, rfl, rfl⟩

/-- Claim C12: for a `WeakPtr` whose block has strong count 0 and has not been
deleted (so some `WeakPtr` still holds it), `Lock()` returns a `SharedPtr` with
null block, `Get() == nullptr`, `UseCount() == 0` and bool conversion false,
and the heap, so both counters of the block, is left as it was. -/
theorem lock_after_owners_released (h : Heap) (w : WeakPtr) (b : Nat) (blk : ControlBlock)
    (hw : w.block_ = some b) (hblk : h[b]? = some blk) (hlive : blk.freed = false)
    (hS : blk.strong_ = 0) :
    ∃ t, WeakPtr.Lock h w = .ok (h, t) ∧ t.block_ = none ∧ t.Get = 0 ∧
      SharedPtr.UseCount h t = .ok 0 ∧ t.toBool = false := by
  obtain ⟨wb, wo⟩ := w
  simp only at hw
  subst hw
  have hd := deref_eq hblk hlive
  refine ⟨SharedPtr.empty, ?_, rfl, rfl, rfl, rfl⟩
  simp [WeakPtr.Lock, WeakPtr.Expired, WeakPtr.UseCount, ControlBlock.UseStrongCount, hd,
    bind, Except.bind, pure, Except.pure, hS]

/-- Claim C12 at a block with strong count 0 and weak count 1. -/
theorem lock_after_owners_released_witness :
    ∃ t, WeakPtr.Lock [blockAt BlockKind.obj 7 0 1] { block_ := some 0, observed_ := 7 }
        = .ok ([blockAt BlockKind.obj 7 0 1], t) ∧ t.block_ = none ∧ t.Get = 0 ∧
      SharedPtr.UseCount [blockAt BlockKind.obj 7 0 1] t = .ok 0 ∧ t.toBool = false :=
  lock_after_owners_released [blockAt BlockKind.obj 7 0 1] { block_ := some 0, observed_ := 7 } 0
    (blockAt BlockKind.obj 7 0 1) rfl rfl rfl rfl

/-- Claim C13: for a `WeakPtr` that holds no block or a block that has not been
deleted, `Expired()` returns, and it returns true exactly when no block is
held or the strong count of the held block is 0. The answer is the same for
every cached address, and the same after any change of a weak count. -/
theorem expired_iff (h : Heap) (w : WeakPtr)
    (hw : ∀ b, w.block_ = some b → ∃ blk, h[b]? = some blk ∧ blk.freed = false) :
    (∃ e, WeakPtr.Expired h w = .ok e) ∧
    (WeakPtr.Expired h w = .ok true ↔
      (w.block_ = none ∨ ∃ b blk, w.block_ = some b ∧ h[b]? = some blk ∧ blk.strong_ = 0)) ∧
    (∀ o, WeakPtr.Expired h { w with observed_ := o } = WeakPtr.Expired h w) ∧
    (∀ c blk n, h[c]? = some blk →
      WeakPtr.Expired (h.set c { blk with weak_ := n }) w = WeakPtr.Expired h w) := by
  obtain ⟨wb, wo⟩ := w
  cases wb with
  | none =>
    simp [WeakPtr.Expired, pure, Except.pure]
  | some b =>
    obtain ⟨blk, hblk, hlive⟩ := hw b rfl
    have hd := deref_eq hblk hlive
    have hlt := getElem?_lt hblk
    refine ⟨?_, ?_, ?_, ?_⟩
    · simp [WeakPtr.Expired, WeakPtr.UseCount, ControlBlock.UseStrongCount, hd, bind,
        Except.bind, pure, Except.pure]
    · simp [WeakPtr.Expired, WeakPtr.UseCount, ControlBlock.UseStrongCount, hd, bind,
        Except.bind, pure, Except.pure, hblk]
    · intro o
      simp [WeakPtr.Expired, WeakPtr.UseCount]
    · intro c blk1 n hc
      by_cases hcb : c = b
      · subst hcb
        rw [hblk] at hc
        injection hc with hc
        subst hc
        simp [WeakPtr.Expired, WeakPtr.UseCount, ControlBlock.UseStrongCount, Heap.deref, hblk,
          hlt, hlive, bind, Except.bind, pure, Except.pure]
      · simp [WeakPtr.Expired, WeakPtr.UseCount, ControlBlock.UseStrongCount, Heap.deref,
          List.getElem?_set, hcb, bind, Except.bind, pure, Except.pure]

/-- Claim C13 at a concrete heap. -/
theorem expired_iff_witness :
    (∃ e, WeakPtr.Expired chainHeap { block_ := some 1, observed_ := 9 } = .ok e) ∧
    (WeakPtr.Expired chainHeap { block_ := some 1, observed_ := 9 } = .ok true ↔
      ((some 1 : Option Nat) = none ∨ ∃ b blk, (some 1 : Option Nat) = some b ∧
        chainHeap[b]? = some blk ∧ blk.strong_ = 0)) ∧
    (∀ o, WeakPtr.Expired chainHeap { block_ := some 1, observed_ := o }
      = WeakPtr.Expired chainHeap { block_ := some 1, observed_ := 9 }) ∧
    (∀ c blk n, chainHeap[c]? = some blk →
      WeakPtr.Expired (chainHeap.set c { blk with weak_ := n })
          { block_ := some 1, observed_ := 9 }
        = WeakPtr.Expired chainHeap { block_ := some 1, observed_ := 9 }) :=
  expired_iff chainHeap { block_ := some 1, observed_ := 9 }
    (fun b hb => by
      have e : b = 1 := (Option.some.inj hb).symm
      subst e
      exact ⟨_, rfl, rfl⟩)

/-- Claim C14 fails on the code: for `int* p = nullptr; SharedPtr<int> s(p);` the
handle `s` holds block 0 with strong count 1; `SharedPtr<int> d(s)` holds the
same block and the heap, so the strong count, is unchanged. -/
theorem copy_of_null_address_keeps_count :
    ∃ h s w, adoptNull = .ok (h, s, w) ∧ s.block_ = some 0 ∧
      ControlBlock.UseStrongCount h 0 = .ok 1 ∧
      ∃ d, SharedPtr.copy h s = .ok (h, d) ∧ d.block_ = some 0 ∧ d.observed_ = 0 :=
  ⟨_, _, _, rfl, rfl, rfl, _, rfl, rfl, rfl⟩

/-- Claim C15: move construction gives the new handle exactly the block
reference and the cached address of the source and leaves the source in the
empty state (null block, null address, `UseCount() == 0`, bool false); as a
statement of a program it returns and leaves the heap, so every counter of
every block, as it was. -/
theorem move_ctor_transfers (src : SharedPtr) :
    (SharedPtr.move src).1 = src ∧
    (SharedPtr.move src).2.block_ = none ∧ (SharedPtr.move src).2.observed_ = 0 ∧
    (∀ h, SharedPtr.UseCount h (SharedPtr.move src).2 = .ok 0) ∧
    (SharedPtr.move src).2.toBool = false ∧
    (∀ (fuel : Nat) (w : World) (i : Nat),
      ∃ w1, w.step fuel (Op.moveCtor i) = .ok w1 ∧ w1.heap = w.heap) := by
  refine ⟨rfl, rfl, rfl, fun _ => rfl, rfl, ?_⟩
  intro fuel w i
  cases hi : w.shared[i]? with
  | none => exact ⟨w, by simp [World.step, hi, pure, Except.pure], rfl⟩
  | some s =>
    exact ⟨{ w with shared := (w.shared.set i (SharedPtr.move s).2) ++ [(SharedPtr.move s).1] },
      by simp [World.step, hi, pure, Except.pure], rfl⟩

theorem Release_frame {f : Nat} {h : Heap} {b : Nat} {blk : ControlBlock}
    (hblk : h[b]? = some blk) (hlive : blk.freed = false) (hsize : blk.strong_ < SIZE_MOD)
    (hm : blk.strong_ = 1 → blk.members = []) :
    ∃ h1, ControlBlock.Release (f + 1) h b = .ok h1 ∧ ∀ c, c ≠ b → h1[c]? = h[c]? := by
  have hlt := getElem?_lt hblk
  by_cases h0 : blk.strong_ = 0
  · refine ⟨h, ?_, fun _ _ => rfl⟩
    unfold ControlBlock.Release
    simp [deref_eq hblk hlive, h0, bind, Except.bind, pure, Except.pure]
  · by_cases h1 : blk.strong_ = 1
    · have hb1 : (h.set b { blk with strong_ := 0 })[b]? = some { blk with strong_ := 0 } := by
        simp [hlt]
      have hD := Delete_plain (r := fun g c => ControlBlock.Release f g c) hb1
        (by simpa using hlive) (by simpa using hm h1)
      have hb2 : ((h.set b { blk with strong_ := 0 }).set b
          { blk with strong_ := 0, trace := blk.trace ++ [Event.finalize] })[b]?
          = some { blk with strong_ := 0, trace := blk.trace ++ [Event.finalize] } := by
        simp [hlt]
      have hR := Release_last hblk hlive h1 hD hb2 (by simpa using hlive)
      refine ⟨_, hR, ?_⟩
      intro c hc
      have hc1 : b ≠ c := fun e => hc e.symm
      split <;> simp [List.getElem?_set, hc1]
    · refine ⟨_, Release_many hblk hlive (by omega) hsize, ?_⟩
      intro c hc
      have hc1 : b ≠ c := fun e => hc e.symm
      simp [List.getElem?_set, hc1]

/-- Claim C17 fails on the code: for `auto a = MakeShared<int>(42);` the aliasing
constructor `SharedPtr<int> t(a, nullptr)` yields a handle on block 0 and
leaves the strong count at 1; releasing that handle changes nothing: no
`Release()` reaches the block. -/
theorem alias_with_null_is_not_an_owner :
    ∃ h a, MakeShared [] 7 [] = .ok (h, a) ∧ ControlBlock.UseStrongCount h 0 = .ok 1 ∧
      ∃ t, SharedPtr.alias h a 0 = .ok (h, t) ∧ t.block_ = some 0 ∧ t.Get = 0 ∧
        ∀ fuel, SharedPtr.Release fuel h t = .ok (h, t) :=
  ⟨_, _, rfl, rfl, _, rfl, rfl, rfl, fun _ => rfl⟩

/-- Claim C18 fails on the code: for `int* p = nullptr; SharedPtr<int> s(p);` the
constructor `WeakPtr<int> w(s)` yields a handle on block 0 and leaves the heap
as it was: the weak count is still 0. -/
theorem demote_of_null_address_keeps_count :
    ∃ h s, SharedPtr.ofPtr [] 0 [] = (h, s) ∧ s.block_ = some 0 ∧
      h[0]?.map (fun blk => blk.weak_) = some 0 ∧
      ∃ w, WeakPtr.ofShared h s = .ok (h, w) ∧ w.block_ = some 0 :=
  ⟨_, _, rfl, rfl, rfl, _, rfl, rfl⟩

/-- Claim C19 fails on the code: for `int* p = nullptr; SharedPtr<int> s(p);
WeakPtr<int> w(s);` the copy `WeakPtr<int> v(w)` holds block 0 and leaves the
heap as it was: the weak count is still 0. -/
theorem weak_copy_of_null_address_keeps_count :
    ∃ h s w, adoptNull = .ok (h, s, w) ∧ w.block_ = some 0 ∧
      h[0]?.map (fun blk => blk.weak_) = some 0 ∧
      ∃ v, WeakPtr.copy h w = .ok (h, v) ∧ v.block_ = some 0 :=
  ⟨_, _, _, rfl, rfl, rfl, _, rfl, rfl⟩

/-- Claim C20 fails on the code: for `int* p = nullptr; SharedPtr<int> s(p);` the
call `s.Reset()` changes nothing: `s` still holds block 0, `s.UseCount()` is 1
and no `Release()` has reached the block. -/
theorem reset_of_null_address_keeps_block :
    ∃ h s, SharedPtr.ofPtr [] 0 [] = (h, s) ∧ s.block_ = some 0 ∧
      ∀ fuel, SharedPtr.Reset fuel h s = .ok (h, s) ∧ SharedPtr.UseCount h s = .ok 1 ∧
        ControlBlock.UseStrongCount h 0 = .ok 1 :=
  ⟨_, _, rfl, rfl, fun _ => ⟨rfl, rfl, rfl⟩⟩

/-! ## Reset of a WeakPtr, Reset(p), UseCount, scenario A -/

/-- Claim C21 fails on the code: for `int* p = nullptr; SharedPtr<int> s(p);
WeakPtr<int> w(s);` the call `w.Reset()` changes nothing: `w` still holds
block 0, `w.UseCount()` is 1, `w.Expired()` is false and no `ReleaseWeak()` has
reached the block. -/
theorem weak_reset_of_null_address_keeps_block :
    ∃ h s w, adoptNull = .ok (h, s, w) ∧ w.block_ = some 0 ∧
      WeakPtr.Reset h w = .ok (h, w) ∧ WeakPtr.UseCount h w = .ok 1 ∧
      WeakPtr.Expired h w = .ok false :=
  ⟨_, _, _, rfl, rfl, rfl, rfl, rfl⟩

/-- Claim C24: scenario A. After `auto a = MakeShared<int>(42)` the counts are
(1, 0); after `WeakPtr<int> b(a)` they are (1, 1); after `a.Reset()` `Delete()`
has run exactly once, the counts are (0, 1) and the block is not deleted;
`b.Lock()` then returns an empty `SharedPtr` and changes no count; destroying
`b` brings the counts to (0, 0) and deletes the block exactly once. -/
theorem scenario_A (fuel : Nat) :
    (∃ w, World.runFrom (fuel + 1) BlockKind.obj 7 [] = .ok w ∧
      w.strong 0 = 1 ∧ w.weakCount 0 = 0 ∧ w.events 0 Event.finalize = 0) ∧
    (∃ w, World.runFrom (fuel + 1) BlockKind.obj 7 [Op.demote 0] = .ok w ∧
      w.strong 0 = 1 ∧ w.weakCount 0 = 1 ∧ w.events 0 Event.finalize = 0) ∧
    (∃ w, World.runFrom (fuel + 1) BlockKind.obj 7 [Op.demote 0, Op.reset 0] = .ok w ∧
      w.strong 0 = 0 ∧ w.weakCount 0 = 1 ∧ w.events 0 Event.finalize = 1 ∧
      w.events 0 Event.free = 0 ∧ w.isFreed 0 = false) ∧
    (∃ w, World.runFrom (fuel + 1) BlockKind.obj 7 [Op.demote 0, Op.reset 0, Op.lock 0]
        = .ok w ∧
      w.shared[1]? = some SharedPtr.empty ∧
      (SharedPtr.empty).toBool = false ∧ (SharedPtr.empty).Get = 0 ∧
      w.strong 0 = 0 ∧ w.weakCount 0 = 1 ∧ w.events 0 Event.finalize = 1 ∧
      w.events 0 Event.free = 0 ∧ w.isFreed 0 = false) ∧
    (∃ w, World.runFrom (fuel + 1) BlockKind.obj 7
        [Op.demote 0, Op.reset 0, Op.lock 0, Op.weakDestroy 0] = .ok w ∧
      w.strong 0 = 0 ∧ w.weakCount 0 = 0 ∧ w.events 0 Event.finalize = 1 ∧
      w.events 0 Event.free = 1 ∧ w.isFreed 0 = true) :=
  ⟨⟨_, rfl, rfl, rfl, rfl⟩, ⟨_, rfl, rfl, rfl, rfl⟩, ⟨_, rfl, rfl, rfl, rfl, rfl, rfl⟩,
    ⟨_, rfl, rfl, rfl, rfl, rfl, rfl, rfl, rfl, rfl⟩, ⟨_, rfl, rfl, rfl, rfl, rfl, rfl⟩⟩

/-! ## Intrusive and unique pointers -/

/-- Claim C30 fails on the code: after `auto h = MakeIntrusive<T>();` the object
has `RefCount() == 1`. `h.Reset(h.Get())` first runs `Reset()`, whose `DecRef()`
takes the count to 0 and invokes `Deleter::Destroy` on the object; it then
stores the pointer again and calls `IncRef()` on the destroyed object. -/
theorem intrusive_self_reset_destroys_object :
    ∃ h s, MakeIntrusive [] = .ok (h, s) ∧ s.Get = some 0 ∧
      RefCounted.RefCount h 0 = .ok 1 ∧
      (∃ h1, IntrusivePtr.Reset h s = .ok (h1, IntrusivePtr.empty) ∧
        h1[0]?.map (fun obj => obj.destroyCalls) = some 1) ∧
      IntrusivePtr.ResetPtr h s s.Get = .error (IFault.danglingObject 0) :=
  ⟨_, _, rfl, rfl, rfl, ⟨_, rfl, rfl⟩, rfl⟩

/-- Claim C25 fails on the code: a `UniquePtr` that owns the pointer 5 with the
deleter 3 gives the pointer up in `Reset(9)` through `delete`, not through its
deleter (and in `Reset()` likewise), whereas the destructor, the assignment of
`nullptr` and the move assignment call the stored deleter once with it. -/
theorem unique_reset_bypasses_deleter :
    UniquePtr.Reset [] (UniquePtr.new 5 3) 9
      = ([UEvent.plainDelete 5], { first := 9, second := 0 }) ∧
    UniquePtr.Reset [] (UniquePtr.new 5 3) 0
      = ([UEvent.plainDelete 5], { first := 0, second := 0 }) ∧
    UniquePtr.Destructor [] (UniquePtr.new 5 3)
      = ([UEvent.deleterCall 3 5], { first := 0, second := 0 }) ∧
    UniquePtr.assignNull [] (UniquePtr.new 5 3)
      = ([UEvent.deleterCall 3 5], { first := 0, second := 0 }) ∧
    UniquePtr.moveAssign [] (UniquePtr.new 5 3) (UniquePtr.new 9 4)
      = ([UEvent.deleterCall 3 5], { first := 9, second := 4 }, { first := 0, second := 0 }) :=
  ⟨rfl, rfl, rfl, rfl, rfl⟩

/-! ## Reset(p), UseCount and the guards of Release -/

theorem Release_zero {f : Nat} {h : Heap} {b : Nat} {x : ControlBlock}
    (hb : h[b]? = some x) (hf : x.freed = false) (h0 : x.strong_ = 0) :
    ControlBlock.Release (f + 1) h b = .ok h := by
  unfold ControlBlock.Release
  simp [deref_eq hb hf, h0, bind, Except.bind, pure, Except.pure]

theorem ReleaseWeak_zero {h : Heap} {b : Nat} {x : ControlBlock}
    (hb : h[b]? = some x) (hf : x.freed = false) (h0 : x.weak_ = 0) :
    ControlBlock.ReleaseWeak h b = .ok h := by
  unfold ControlBlock.ReleaseWeak
  simp [deref_eq hb hf, h0, bind, Except.bind, pure, Except.pure]

/-- Claim C23 fails as stated: for `int* p = nullptr; SharedPtr<int> s(p);` the
bool conversion of `s` is false and `s.UseCount()` is 1. -/
theorem use_count_of_null_address_is_one :
    ∃ h s, SharedPtr.ofPtr [] 0 [] = (h, s) ∧ s.toBool = false ∧
      SharedPtr.UseCount h s = .ok 1 :=
  ⟨_, _, rfl, rfl, rfl⟩

/-- Claim C23, as amended: for a handle that holds no block or a block that has
not been deleted, `UseCount()` returns; it is the strong count of the block
held, whatever the weak counts are, and it is 0 when no block is held, as for
a default-constructed or moved-from handle; for a handle whose block is null
whenever its cached address is null, it is 0 whenever the bool conversion is
false. -/
theorem use_count_is_strong_count (h : Heap) (s : SharedPtr)
    (hs : ∀ b, s.block_ = some b → ∃ blk, h[b]? = some blk ∧ blk.freed = false) :
    (∃ n, SharedPtr.UseCount h s = .ok n ∧ (s.block_ = none → n = 0) ∧
      (∀ b blk, s.block_ = some b → h[b]? = some blk → n = blk.strong_)) ∧
    (∀ c blk n, h[c]? = some blk →
      SharedPtr.UseCount (h.set c { blk with weak_ := n }) s = SharedPtr.UseCount h s) ∧
    ((s.observed_ = 0 → s.block_ = none) → s.toBool = false →
      SharedPtr.UseCount h s = .ok 0) ∧
    SharedPtr.UseCount h SharedPtr.empty = .ok 0 ∧ SharedPtr.empty.toBool = false ∧
    (∀ src, SharedPtr.UseCount h (SharedPtr.move src).2 = .ok 0 ∧
      (SharedPtr.move src).2.toBool = false) := by
  obtain ⟨sb, so⟩ := s
  refine ⟨?_, ?_, ?_, rfl, rfl, fun _ => ⟨rfl, rfl⟩⟩
  · cases sb with
    | none => exact ⟨0, rfl, fun _ => rfl, fun b blk hb => by simp at hb⟩
    | some b =>
      obtain ⟨blk, hblk, hlive⟩ := hs b rfl
      refine ⟨blk.strong_, ?_, fun hn => by simp at hn, ?_⟩
      · simp [SharedPtr.UseCount, ControlBlock.UseStrongCount, deref_eq hblk hlive, bind,
          Except.bind, pure, Except.pure]
      · intro b1 blk1 hb1 hblk1
        have e : b = b1 := by simpa using hb1
        subst e
        rw [hblk] at hblk1
        injection hblk1 with e
        rw [e]
  · intro c blk1 n hc
    cases sb with
    | none => rfl
    | some b =>
      obtain ⟨blk, hblk, hlive⟩ := hs b rfl
      have hlt := getElem?_lt hblk
      by_cases hcb : c = b
      · subst hcb
        rw [hblk] at hc
        injection hc with hc
        subst hc
        simp [SharedPtr.UseCount, ControlBlock.UseStrongCount, Heap.deref, hblk, hlt, hlive,
          bind, Except.bind, pure, Except.pure]
      · simp [SharedPtr.UseCount, ControlBlock.UseStrongCount, Heap.deref, List.getElem?_set,
          hcb, bind, Except.bind, pure, Except.pure]
  · intro hreg hbool
    have ho : so = 0 := by simpa [SharedPtr.toBool] using hbool
    have hn : sb = none := hreg ho
    subst hn
    rfl

/-- Claim C23, as amended, at a concrete heap. -/
theorem use_count_is_strong_count_witness :
    ∃ n, SharedPtr.UseCount chainHeap { block_ := some 0, observed_ := 7 } = .ok n ∧
      ((some 0 : Option Nat) = none → n = 0) ∧
      (∀ b blk, (some 0 : Option Nat) = some b → chainHeap[b]? = some blk → n = blk.strong_) :=
  (use_count_is_strong_count chainHeap { block_ := some 0, observed_ := 7 }
    (fun b hb => by
      have e : b = 0 := (Option.some.inj hb).symm
      subst e
      exact ⟨_, rfl, rfl⟩)).1

theorem call_keeps_good {f : Nat} {h h1 : Heap} {b : Nat} {x : ControlBlock} {S W F : Nat}
    (hb : h[b]? = some x) (hS : S < SIZE_MOD) (hW : W < SIZE_MOD) (hg : CallsGood S W F x)
    (c : BlockCall) (hrun : c.run (f + 1) h b = .ok h1) :
    ∃ y, h1[b]? = some y ∧ CallsGood S W F y := by
  obtain ⟨g1, g2, g3, g4⟩ := hg
  have hlt := getElem?_lt hb
  cases hfr : x.freed with
  | true =>
    exfalso
    cases c <;>
      simp [BlockCall.run, ControlBlock.Release, ControlBlock.ReleaseWeak, Heap.deref, hb, hfr,
        bind, Except.bind] at hrun
  | false =>
    cases c with
    | Release =>
      simp only [BlockCall.run] at hrun
      by_cases h0 : x.strong_ = 0
      · rw [Release_zero hb hfr h0] at hrun
        injection hrun with e
        subst e
        exact ⟨x, hb, g1, g2, g3, g4⟩
      · by_cases h1s : x.strong_ = 1
        · have hb1 : (h.set b { x with strong_ := 0 })[b]? = some { x with strong_ := 0 } := by
            simp [hlt]
          have hD := Delete_plain (r := fun g c => ControlBlock.Release f g c) hb1
            (by simpa using hfr) (by simpa using g4 h0)
          have hb2 : ((h.set b { x with strong_ := 0 }).set b
              { x with strong_ := 0, trace := x.trace ++ [Event.finalize] })[b]?
              = some { x with strong_ := 0, trace := x.trace ++ [Event.finalize] } := by
            simp [hlt]
          have hR := Release_last hb hfr h1s hD hb2 (by simpa using hfr)
          rw [hR] at hrun
          injection hrun with e
          subst e
          have hS0 : S ≠ 0 := by omega
          by_cases hw : x.weak_ = 0
          · refine ⟨{ x with strong_ := 0, freed := true, trace := x.trace ++ [Event.finalize] ++ [Event.free] },
              by simp [hw, hlt], ?_⟩
            refine ⟨by simp, by simpa using g2, ?_, by simp⟩
            simp [List.count_append, g3, h0, hS0]
          · refine ⟨{ x with strong_ := 0, trace := x.trace ++ [Event.finalize] },
              by simp [hw, hlt], ?_⟩
            refine ⟨by simp, by simpa using g2, ?_, by simp⟩
            simp [List.count_append, g3, h0, hS0]
        · rw [Release_many hb hfr (by omega) (by omega)] at hrun
          injection hrun with e
          subst e
          refine ⟨{ x with strong_ := x.strong_ - 1 }, by simp [hlt], ?_⟩
          refine ⟨by simp; omega, by simpa using g2, ?_, ?_⟩
          · have : ¬ (x.strong_ - 1 = 0) := by omega
            simpa [this, h0] using g3
          · intro _
            exact g4 h0
    | ReleaseWeak =>
      simp only [BlockCall.run] at hrun
      by_cases h0 : x.weak_ = 0
      · rw [ReleaseWeak_zero hb hfr h0] at hrun
        injection hrun with e
        subst e
        exact ⟨x, hb, g1, g2, g3, g4⟩
      · rw [ReleaseWeak_eq hb hfr (by omega) (by omega)] at hrun
        injection hrun with e
        subst e
        by_cases hc : x.weak_ = 1 ∧ x.strong_ = 0
        · refine ⟨{ x with weak_ := 0, freed := true, trace := x.trace ++ [Event.free] },
            by simp [hc, hlt], ?_⟩
          refine ⟨by simpa using g1, by simp, ?_, ?_⟩
          · simpa [List.count_append] using g3
          · intro hne
            exact g4 hne
        · refine ⟨{ x with weak_ := x.weak_ - 1 }, by simp [hc, hlt], ?_⟩
          refine ⟨by simpa using g1, by simp; omega, by simpa using g3, ?_⟩
          intro hne
          exact g4 hne

theorem call_returns {f : Nat} {h : Heap} {b : Nat} {x : ControlBlock}
    (hb : h[b]? = some x) (hf : x.freed = false) (hS : x.strong_ < SIZE_MOD)
    (hW : x.weak_ < SIZE_MOD) (hm : x.strong_ ≠ 0 → x.members = []) (c : BlockCall) :
    ∃ h1, c.run (f + 1) h b = .ok h1 := by
  cases c with
  | Release =>
    obtain ⟨h1, hR, _⟩ := Release_frame (f := f) hb hf hS (fun e => hm (by omega))
    exact ⟨h1, hR⟩
  | ReleaseWeak =>
    by_cases h0 : x.weak_ = 0
    · exact ⟨h, ReleaseWeak_zero hb hf h0⟩
    · exact ⟨_, ReleaseWeak_eq hb hf (by omega) hW⟩

theorem calls_keep_good {f : Nat} {b : Nat} {S W F : Nat} (hS : S < SIZE_MOD)
    (hW : W < SIZE_MOD) (cs : List BlockCall) :
    ∀ (h h1 : Heap) (x : ControlBlock), h[b]? = some x → CallsGood S W F x →
      runCalls (f + 1) b h cs = .ok h1 → ∃ y, h1[b]? = some y ∧ CallsGood S W F y := by
  induction cs with
  | nil =>
    intro h h1 x hb hg hrun
    simp only [runCalls, pure, Except.pure] at hrun
    injection hrun with e
    subst e
    exact ⟨x, hb, hg⟩
  | cons c cs ih =>
    intro h h1 x hb hg hrun
    simp only [runCalls, bind, Except.bind] at hrun
    cases hc : c.run (f + 1) h b with
    | error e => simp [hc] at hrun
    | ok h2 =>
      simp only [hc] at hrun
      obtain ⟨y, hy, hgy⟩ := call_keeps_good hb hS hW hg c hc
      exact ih h2 h1 y hy hgy hrun

/-- Claim C27: on a control block that has not been deleted, `Release()` with
strong count 0 and `ReleaseWeak()` with weak count 0 return and leave the heap
exactly as it was (no counter changes, no `Delete()`, no `delete this`). Hence
after any sequence of `Release()` and `ReleaseWeak()` calls on the block
neither counter has grown (so none has wrapped below zero), and `Delete()` has
run once more than at the start exactly if the strong count has come down to 0
from a non-zero value; and as long as the block has not been deleted the next
call returns. The managed object owns no smart pointers. -/
theorem release_guards_at_zero (fuel : Nat) (h : Heap) (b : Nat) (blk : ControlBlock)
    (hb : h[b]? = some blk) (hlive : blk.freed = false)
    (hS : blk.strong_ < SIZE_MOD) (hW : blk.weak_ < SIZE_MOD)
    (hm : blk.strong_ ≠ 0 → blk.members = []) :
    (blk.strong_ = 0 → ControlBlock.Release (fuel + 1) h b = .ok h) ∧
    (blk.weak_ = 0 → ControlBlock.ReleaseWeak h b = .ok h) ∧
    (∀ cs h1, runCalls (fuel + 1) b h cs = .ok h1 →
      ∃ blk1, h1[b]? = some blk1 ∧
        blk1.strong_ ≤ blk.strong_ ∧ blk1.weak_ ≤ blk.weak_ ∧
        blk1.trace.count Event.finalize = blk.trace.count Event.finalize +
          (if blk.strong_ ≠ 0 ∧ blk1.strong_ = 0 then 1 else 0) ∧
        (blk1.freed = false → ∀ c : BlockCall, ∃ h2, c.run (fuel + 1) h1 b = .ok h2)) := by
  refine ⟨fun h0 => Release_zero hb hlive h0, fun h0 => ReleaseWeak_zero hb hlive h0, ?_⟩
  intro cs h1 hrun
  have hg0 : CallsGood blk.strong_ blk.weak_ (blk.trace.count Event.finalize) blk := by
    refine ⟨le_refl _, le_refl _, ?_, hm⟩
    by_cases h0 : blk.strong_ = 0 <;> simp [h0]
  obtain ⟨y, hy, g1, g2, g3, g4⟩ := calls_keep_good hS hW cs h h1 blk hb hg0 hrun
  refine ⟨y, hy, g1, g2, g3, ?_⟩
  intro hfy c
  exact call_returns hy hfy (by omega) (by omega) g4 c

/-- Claim C27 at a concrete block with counters (1, 0). -/
theorem release_guards_at_zero_witness :
    ((1 : Nat) = 0 → ControlBlock.Release 1 [blockAt BlockKind.ptr 7 1 0] 0
      = .ok [blockAt BlockKind.ptr 7 1 0]) ∧
    ((0 : Nat) = 0 → ControlBlock.ReleaseWeak [blockAt BlockKind.ptr 7 1 0] 0
      = .ok [blockAt BlockKind.ptr 7 1 0]) ∧
    (∀ cs h1, runCalls 1 0 [blockAt BlockKind.ptr 7 1 0] cs = .ok h1 →
      ∃ blk1, h1[0]? = some blk1 ∧
        blk1.strong_ ≤ 1 ∧ blk1.weak_ ≤ 0 ∧
        blk1.trace.count Event.finalize = 0 +
          (if (1 : Nat) ≠ 0 ∧ blk1.strong_ = 0 then 1 else 0) ∧
        (blk1.freed = false → ∀ c : BlockCall, ∃ h2, c.run 1 h1 0 = .ok h2)) :=
  release_guards_at_zero 0 [blockAt BlockKind.ptr 7 1 0] 0 (blockAt BlockKind.ptr 7 1 0)
    rfl rfl (by decide) (by decide) (fun _ => rfl)

/-! ## Copy assignment -/

theorem bind_ok {α β : Type} {x : Except Fault α} {f : α → Except Fault β} {y : β}
    (e : (x >>= f) = .ok y) : ∃ a, x = .ok a ∧ f a = .ok y := by
  cases x with
  | error e1 => exact absurd e (by simp [bind, Except.bind])
  | ok a => exact ⟨a, rfl, e⟩

theorem shaped_empty : SharedPtr.empty.shaped := by
  simp [SharedPtr.shaped, SharedPtr.empty]

theorem weakShaped_empty : WeakPtr.empty.shaped := by
  simp [WeakPtr.shaped, WeakPtr.empty]

theorem copy_shaped {h : Heap} {s : SharedPtr} {r : Heap × SharedPtr}
    (e : SharedPtr.copy h s = .ok r) (hs : s.shaped) : r.2.shaped := by
  unfold SharedPtr.copy at e
  obtain ⟨h1, _, e1⟩ := bind_ok e
  rw [← Except.ok.inj e1]
  exact hs

theorem release_shaped {f : Nat} {h : Heap} {s : SharedPtr} {r : Heap × SharedPtr}
    (e : SharedPtr.Release f h s = .ok r) (hs : s.shaped) : r.2.shaped := by
  unfold SharedPtr.Release SharedPtr.releaseVia at e
  by_cases ho : s.observed_ = 0
  · simp only [ho, ne_eq, not_true_eq_false, if_false] at e
    rw [← Except.ok.inj e]
    exact hs
  · simp only [ne_eq, ho, not_false_eq_true, if_true] at e
    cases hb : s.block_ with
    | none => exact absurd (hs.mp hb) ho
    | some b =>
      rw [hb] at e
      obtain ⟨h1, _, e1⟩ := bind_ok e
      rw [← Except.ok.inj e1]
      exact shaped_empty

theorem copyAssign_shaped {f : Nat} {h : Heap} {d s : SharedPtr} {r : Heap × SharedPtr}
    (e : SharedPtr.copyAssign f h d s = .ok r) (hd : d.shaped) (hs : s.shaped) :
    r.2.shaped := by
  unfold SharedPtr.copyAssign at e
  by_cases ho : d.observed_ = s.observed_
  · simp only [ho, if_true] at e
    rw [← Except.ok.inj e]
    exact hd
  · simp only [ho, if_false] at e
    obtain ⟨r1, _, e1⟩ := bind_ok e
    obtain ⟨h2, _, e2⟩ := bind_ok e1
    rw [← Except.ok.inj e2]
    exact hs

theorem moveAssign_shaped {f : Nat} {h : Heap} {d s : SharedPtr}
    {r : Heap × SharedPtr × SharedPtr}
    (e : SharedPtr.moveAssign f h d s = .ok r) (hd : d.shaped) (hs : s.shaped) :
    r.2.1.shaped ∧ r.2.2.shaped := by
  unfold SharedPtr.moveAssign at e
  by_cases ho : d.observed_ = s.observed_
  · simp only [ho, if_true] at e
    rw [← Except.ok.inj e]
    exact ⟨hd, hs⟩
  · simp only [ho, if_false] at e
    obtain ⟨r1, _, e1⟩ := bind_ok e
    rw [← Except.ok.inj e1]
    exact ⟨hs, shaped_empty⟩

theorem demote_shaped {h : Heap} {s : SharedPtr} {r : Heap × WeakPtr}
    (e : WeakPtr.ofShared h s = .ok r) (hs : s.shaped) : r.2.shaped := by
  unfold WeakPtr.ofShared at e
  obtain ⟨h1, _, e1⟩ := bind_ok e
  rw [← Except.ok.inj e1]
  exact hs

theorem weakCopy_shaped {h : Heap} {s : WeakPtr} {r : Heap × WeakPtr}
    (e : WeakPtr.copy h s = .ok r) (hs : s.shaped) : r.2.shaped := by
  unfold WeakPtr.copy at e
  obtain ⟨h1, _, e1⟩ := bind_ok e
  rw [← Except.ok.inj e1]
  exact hs

theorem releaseWeak_shaped {h : Heap} {s : WeakPtr} {r : Heap × WeakPtr}
    (e : WeakPtr.ReleaseWeak h s = .ok r) (hs : s.shaped) : r.2.shaped := by
  unfold WeakPtr.ReleaseWeak at e
  by_cases ho : s.observed_ = 0
  · simp only [ho, ne_eq, not_true_eq_false, if_false] at e
    rw [← Except.ok.inj e]
    exact hs
  · simp only [ne_eq, ho, not_false_eq_true, if_true] at e
    cases hb : s.block_ with
    | none => exact absurd (hs.mp hb) ho
    | some b =>
      rw [hb] at e
      obtain ⟨h1, _, e1⟩ := bind_ok e
      rw [← Except.ok.inj e1]
      exact weakShaped_empty

theorem weakCopyAssign_shaped {h : Heap} {d s : WeakPtr} {r : Heap × WeakPtr}
    (e : WeakPtr.copyAssign h d s = .ok r) (hd : d.shaped) (hs : s.shaped) :
    r.2.shaped := by
  unfold WeakPtr.copyAssign at e
  by_cases ho : d.observed_ = s.observed_
  · simp only [ho, if_true] at e
    rw [← Except.ok.inj e]
    exact hd
  · simp only [ho, if_false] at e
    obtain ⟨r1, _, e1⟩ := bind_ok e
    obtain ⟨h2, _, e2⟩ := bind_ok e1
    rw [← Except.ok.inj e2]
    exact hs

theorem weakMoveAssign_shaped {h : Heap} {d s : WeakPtr} {r : Heap × WeakPtr × WeakPtr}
    (e : WeakPtr.moveAssign h d s = .ok r) (hd : d.shaped) (hs : s.shaped) :
    r.2.1.shaped ∧ r.2.2.shaped := by
  unfold WeakPtr.moveAssign at e
  by_cases ho : d.observed_ = s.observed_
  · simp only [ho, if_true] at e
    rw [← Except.ok.inj e]
    exact ⟨hd, hs⟩
  · simp only [ho, if_false] at e
    obtain ⟨r1, _, e1⟩ := bind_ok e
    rw [← Except.ok.inj e1]
    exact ⟨hs, weakShaped_empty⟩

theorem promote_shaped {h : Heap} {s : WeakPtr} {r : Heap × SharedPtr}
    (e : SharedPtr.promote h s = .ok r) (hs : s.shaped) : r.2.shaped := by
  unfold SharedPtr.promote at e
  obtain ⟨x, _, e1⟩ := bind_ok e
  cases x with
  | true => exact absurd e1 (by simp)
  | false =>
    simp only [Bool.false_eq_true, if_false] at e1
    obtain ⟨h1, _, e2⟩ := bind_ok e1
    rw [← Except.ok.inj e2]
    exact hs

theorem lock_shaped {h : Heap} {s : WeakPtr} {r : Heap × SharedPtr}
    (e : WeakPtr.Lock h s = .ok r) (hs : s.shaped) : r.2.shaped := by
  unfold WeakPtr.Lock at e
  obtain ⟨x, _, e1⟩ := bind_ok e
  cases x with
  | true =>
    simp only [if_true] at e1
    rw [← Except.ok.inj e1]
    exact shaped_empty
  | false =>
    simp only [Bool.false_eq_true, if_false] at e1
    exact promote_shaped e1 hs

theorem makeShared_shaped {h : Heap} {p : Nat} {r : Heap × SharedPtr}
    (e : MakeShared h p [] = .ok r) (hp : p ≠ 0) : r.2.shaped := by
  unfold MakeShared at e
  obtain ⟨s, hs, e1⟩ := bind_ok e
  rw [← Except.ok.inj e1]
  unfold SharedPtr.ofBlockObj at hs
  obtain ⟨blk, hblk, e2⟩ := bind_ok hs
  rw [← Except.ok.inj e2]
  have hd : Heap.deref (h ++ [ControlBlockObj.new p []]) h.length
      = .ok (ControlBlockObj.new p []) := by
    simp [Heap.deref, ControlBlockObj.new]
  rw [hd] at hblk
  rw [← Except.ok.inj hblk]
  simp [SharedPtr.shaped, ControlBlock.GetPtr, ControlBlockObj.new, hp]

theorem resetPtr_shaped {f : Nat} {h : Heap} {s : SharedPtr} {p : Nat} {r : Heap × SharedPtr}
    (e : SharedPtr.ResetPtr f h s p [] = .ok r) (hp : p ≠ 0) : r.2.shaped := by
  unfold SharedPtr.ResetPtr at e
  cases hb : s.block_ with
  | none =>
    simp only [hb] at e
    rw [← Except.ok.inj e]
    simp [SharedPtr.shaped, hp]
  | some b =>
    simp only [hb] at e
    obtain ⟨h2, _, e1⟩ := bind_ok e
    rw [← Except.ok.inj e1]
    simp [SharedPtr.shaped, hp]

theorem step_shaped (fuel : Nat) (w w1 : World) (o : Op)
    (e : w.step fuel o = .ok w1) (hw : Shaped w) : Shaped w1 := by
  obtain ⟨heap, sh, wk⟩ := w
  obtain ⟨hs, hk⟩ := hw
  simp only at hs hk
  cases o with
  | copyCtor src =>
    cases hsrc : sh[src]? with
    | none =>
      simp only [World.step, hsrc] at e
      rw [← Except.ok.inj e]; exact ⟨hs, hk⟩
    | some s =>
      simp only [World.step, hsrc] at e
      obtain ⟨r, hr, e1⟩ := bind_ok e
      rw [← Except.ok.inj e1]
      exact ⟨forall_mem_push hs (copy_shaped hr (hs s (List.getElem?_mem hsrc))), hk⟩
  | moveCtor src =>
    cases hsrc : sh[src]? with
    | none =>
      simp only [World.step, hsrc] at e
      rw [← Except.ok.inj e]; exact ⟨hs, hk⟩
    | some s =>
      simp only [World.step, hsrc] at e
      rw [← Except.ok.inj e]
      exact ⟨forall_mem_push (forall_mem_set src hs shaped_empty)
        (hs s (List.getElem?_mem hsrc)), hk⟩
  | copyAssign dst src =>
    cases hdst : sh[dst]? with
    | none =>
      simp only [World.step, hdst] at e
      rw [← Except.ok.inj e]; exact ⟨hs, hk⟩
    | some d =>
      cases hsrc : sh[src]? with
      | none =>
        simp only [World.step, hdst, hsrc] at e
        rw [← Except.ok.inj e]; exact ⟨hs, hk⟩
      | some s =>
        simp only [World.step, hdst, hsrc] at e
        obtain ⟨r, hr, e1⟩ := bind_ok e
        rw [← Except.ok.inj e1]
        exact ⟨forall_mem_set dst hs (copyAssign_shaped hr (hs d (List.getElem?_mem hdst))
          (hs s (List.getElem?_mem hsrc))), hk⟩
  | moveAssign dst src =>
    cases hdst : sh[dst]? with
    | none =>
      simp only [World.step, hdst] at e
      rw [← Except.ok.inj e]; exact ⟨hs, hk⟩
    | some d =>
      cases hsrc : sh[src]? with
      | none =>
        simp only [World.step, hdst, hsrc] at e
        rw [← Except.ok.inj e]; exact ⟨hs, hk⟩
      | some s =>
        simp only [World.step, hdst, hsrc] at e
        obtain ⟨r, hr, e1⟩ := bind_ok e
        rw [← Except.ok.inj e1]
        have h2 := moveAssign_shaped hr (hs d (List.getElem?_mem hdst))
          (hs s (List.getElem?_mem hsrc))
        exact ⟨forall_mem_set dst (forall_mem_set src hs h2.2) h2.1, hk⟩
  | reset i =>
    cases hi : sh[i]? with
    | none =>
      simp only [World.step, hi] at e
      rw [← Except.ok.inj e]; exact ⟨hs, hk⟩
    | some s =>
      simp only [World.step, hi] at e
      obtain ⟨r, hr, e1⟩ := bind_ok e
      rw [← Except.ok.inj e1]
      exact ⟨forall_mem_set i hs (release_shaped hr (hs s (List.getElem?_mem hi))), hk⟩
  | destroy i =>
    cases hi : sh[i]? with
    | none =>
      simp only [World.step, hi] at e
      rw [← Except.ok.inj e]; exact ⟨hs, hk⟩
    | some s =>
      simp only [World.step, hi] at e
      obtain ⟨r, hr, e1⟩ := bind_ok e
      rw [← Except.ok.inj e1]
      exact ⟨forall_mem_set i hs (release_shaped hr (hs s (List.getElem?_mem hi))), hk⟩
  | demote src =>
    cases hsrc : sh[src]? with
    | none =>
      simp only [World.step, hsrc] at e
      rw [← Except.ok.inj e]; exact ⟨hs, hk⟩
    | some s =>
      simp only [World.step, hsrc] at e
      obtain ⟨r, hr, e1⟩ := bind_ok e
      rw [← Except.ok.inj e1]
      exact ⟨hs, forall_mem_push hk (demote_shaped hr (hs s (List.getElem?_mem hsrc)))⟩
  | weakCopyCtor src =>
    cases hsrc : wk[src]? with
    | none =>
      simp only [World.step, hsrc] at e
      rw [← Except.ok.inj e]; exact ⟨hs, hk⟩
    | some s =>
      simp only [World.step, hsrc] at e
      obtain ⟨r, hr, e1⟩ := bind_ok e
      rw [← Except.ok.inj e1]
      exact ⟨hs, forall_mem_push hk (weakCopy_shaped hr (hk s (List.getElem?_mem hsrc)))⟩
  | weakMoveCtor src =>
    cases hsrc : wk[src]? with
    | none =>
      simp only [World.step, hsrc] at e
      rw [← Except.ok.inj e]; exact ⟨hs, hk⟩
    | some s =>
      simp only [World.step, hsrc] at e
      rw [← Except.ok.inj e]
      exact ⟨hs, forall_mem_push (forall_mem_set src hk weakShaped_empty)
        (hk s (List.getElem?_mem hsrc))⟩
  | weakCopyAssign dst src =>
    cases hdst : wk[dst]? with
    | none =>
      simp only [World.step, hdst] at e
      rw [← Except.ok.inj e]; exact ⟨hs, hk⟩
    | some d =>
      cases hsrc : wk[src]? with
      | none =>
        simp only [World.step, hdst, hsrc] at e
        rw [← Except.ok.inj e]; exact ⟨hs, hk⟩
      | some s =>
        simp only [World.step, hdst, hsrc] at e
        obtain ⟨r, hr, e1⟩ := bind_ok e
        rw [← Except.ok.inj e1]
        exact ⟨hs, forall_mem_set dst hk (weakCopyAssign_shaped hr
          (hk d (List.getElem?_mem hdst)) (hk s (List.getElem?_mem hsrc)))⟩
  | weakMoveAssign dst src =>
    cases hdst : wk[dst]? with
    | none =>
      simp only [World.step, hdst] at e
      rw [← Except.ok.inj e]; exact ⟨hs, hk⟩
    | some d =>
      cases hsrc : wk[src]? with
      | none =>
        simp only [World.step, hdst, hsrc] at e
        rw [← Except.ok.inj e]; exact ⟨hs, hk⟩
      | some s =>
        simp only [World.step, hdst, hsrc] at e
        obtain ⟨r, hr, e1⟩ := bind_ok e
        rw [← Except.ok.inj e1]
        have h2 := weakMoveAssign_shaped hr (hk d (List.getElem?_mem hdst))
          (hk s (List.getElem?_mem hsrc))
        exact ⟨hs, forall_mem_set dst (forall_mem_set src hk h2.2) h2.1⟩
  | weakReset i =>
    cases hi : wk[i]? with
    | none =>
      simp only [World.step, hi] at e
      rw [← Except.ok.inj e]; exact ⟨hs, hk⟩
    | some s =>
      simp only [World.step, hi] at e
      obtain ⟨r, hr, e1⟩ := bind_ok e
      rw [← Except.ok.inj e1]
      exact ⟨hs, forall_mem_set i hk (releaseWeak_shaped hr (hk s (List.getElem?_mem hi)))⟩
  | weakDestroy i =>
    cases hi : wk[i]? with
    | none =>
      simp only [World.step, hi] at e
      rw [← Except.ok.inj e]; exact ⟨hs, hk⟩
    | some s =>
      simp only [World.step, hi] at e
      obtain ⟨r, hr, e1⟩ := bind_ok e
      rw [← Except.ok.inj e1]
      exact ⟨hs, forall_mem_set i hk (releaseWeak_shaped hr (hk s (List.getElem?_mem hi)))⟩
  | lock src =>
    cases hsrc : wk[src]? with
    | none =>
      simp only [World.step, hsrc] at e
      rw [← Except.ok.inj e]; exact ⟨hs, hk⟩
    | some s =>
      simp only [World.step, hsrc] at e
      obtain ⟨r, hr, e1⟩ := bind_ok e
      rw [← Except.ok.inj e1]
      exact ⟨forall_mem_push hs (lock_shaped hr (hk s (List.getElem?_mem hsrc))), hk⟩

theorem exec_shaped (fuel : Nat) (w w1 : World) (st : Stmt) (hp : st.plain = true)
    (e : w.exec fuel st = .ok w1) (hw : Shaped w) : Shaped w1 := by
  cases st with
  | op o => exact step_shaped fuel w w1 o e hw
  | defaultCtor =>
    simp only [World.exec] at e
    rw [← Except.ok.inj e]
    exact ⟨forall_mem_push hw.1 shaped_empty, hw.2⟩
  | weakDefaultCtor =>
    simp only [World.exec] at e
    rw [← Except.ok.inj e]
    exact ⟨hw.1, forall_mem_push hw.2 weakShaped_empty⟩
  | makeShared p =>
    have hp0 : p ≠ 0 := by simpa [Stmt.plain] using hp
    simp only [World.exec] at e
    obtain ⟨r, hr, e1⟩ := bind_ok e
    rw [← Except.ok.inj e1]
    exact ⟨forall_mem_push hw.1 (makeShared_shaped hr hp0), hw.2⟩
  | adopt p =>
    have hp0 : p ≠ 0 := by simpa [Stmt.plain] using hp
    simp only [World.exec] at e
    rw [← Except.ok.inj e]
    exact ⟨forall_mem_push hw.1 (by simp [SharedPtr.shaped, SharedPtr.ofPtr, hp0]), hw.2⟩
  | aliasCtor src p => simp [Stmt.plain] at hp
  | resetPtr i p =>
    have hp0 : p ≠ 0 := by simpa [Stmt.plain] using hp
    cases hi : w.shared[i]? with
    | none =>
      simp only [World.exec, hi] at e
      rw [← Except.ok.inj e]; exact hw
    | some s =>
      simp only [World.exec, hi] at e
      obtain ⟨r, hr, e1⟩ := bind_ok e
      rw [← Except.ok.inj e1]
      exact ⟨forall_mem_set i hw.1 (resetPtr_shaped hr hp0), hw.2⟩
  | swap i j =>
    cases hi : w.shared[i]? with
    | none =>
      simp only [World.exec, hi] at e
      rw [← Except.ok.inj e]; exact hw
    | some a =>
      cases hj : w.shared[j]? with
      | none =>
        simp only [World.exec, hi, hj] at e
        rw [← Except.ok.inj e]; exact hw
      | some b =>
        simp only [World.exec, hi, hj] at e
        rw [← Except.ok.inj e]
        exact ⟨forall_mem_set j (forall_mem_set i hw.1 (hw.1 b (List.getElem?_mem hj)))
          (hw.1 a (List.getElem?_mem hi)), hw.2⟩
  | weakSwap i j =>
    cases hi : w.weak[i]? with
    | none =>
      simp only [World.exec, hi] at e
      rw [← Except.ok.inj e]; exact hw
    | some a =>
      cases hj : w.weak[j]? with
      | none =>
        simp only [World.exec, hi, hj] at e
        rw [← Except.ok.inj e]; exact hw
      | some b =>
        simp only [World.exec, hi, hj] at e
        rw [← Except.ok.inj e]
        exact ⟨hw.1, forall_mem_set j (forall_mem_set i hw.2 (hw.2 b (List.getElem?_mem hj)))
          (hw.2 a (List.getElem?_mem hi))⟩
  | promote src =>
    cases hsrc : w.weak[src]? with
    | none =>
      simp only [World.exec, hsrc] at e
      rw [← Except.ok.inj e]; exact hw
    | some s =>
      simp only [World.exec, hsrc] at e
      cases hr : SharedPtr.promote w.heap s with
      | ok r =>
        rw [hr] at e
        rw [← Except.ok.inj e]
        exact ⟨forall_mem_push hw.1 (promote_shaped hr (hw.2 s (List.getElem?_mem hsrc))), hw.2⟩
      | error x =>
        rw [hr] at e
        cases x with
        | badWeakPtr => rw [← Except.ok.inj e]; exact hw
        | nullBlock => exact absurd e (by simp)
        | danglingBlock b => exact absurd e (by simp)
        | outOfFuel => exact absurd e (by simp)

theorem execAll_shaped (fuel : Nat) (prog : List Stmt) :
    ∀ w w1 : World, (∀ st ∈ prog, st.plain = true) →
      World.execAll fuel w prog = .ok w1 → Shaped w → Shaped w1 := by
  induction prog with
  | nil =>
    intro w w1 _ e hw
    rw [← Except.ok.inj e]; exact hw
  | cons st sts ih =>
    intro w w1 hp e hw
    unfold World.execAll at e
    obtain ⟨w2, h2, e1⟩ := bind_ok e
    exact ih w2 w1 (fun x hx => hp x (List.mem_cons_of_mem _ hx)) e1
      (exec_shaped fuel w w2 st (hp st (List.mem_cons_self _ _)) h2 hw)

/-- Claim C28: in every state reached from the empty state by default
construction, `MakeShared`, adoption of a non-null pointer, copy and move
construction and assignment, `Reset()`, `Reset(p)` with non-null `p`, `Swap`,
demotion, `Lock` and promotion, every `SharedPtr` and every `WeakPtr` variable
has a null block reference exactly when its cached address is null. So, on any
heap, the paths that test the cached address agree with those that test the
block reference: a handle without a block is left alone by its release and
increment and reports `UseCount() == 0` (a `WeakPtr`: `Expired()`), and for a
handle with block `b` the release and the increment do reach block `b`, the very
block `UseCount()` reads. -/
theorem block_null_iff_address_null (fuel : Nat) (prog : List Stmt) (w : World)
    (hplain : ∀ st ∈ prog, st.plain = true)
    (hrun : World.execAll fuel World.init prog = .ok w) :
    (∀ s ∈ w.shared, (s.block_ = none ↔ s.observed_ = 0) ∧
      ∀ (f : Nat) (h : Heap),
        (s.block_ = none → SharedPtr.Release f h s = .ok (h, s) ∧
          s.IncreaseStrongCounter h = .ok h ∧ s.UseCount h = .ok 0) ∧
        (∀ b, s.block_ = some b →
          SharedPtr.Release f h s
            = (ControlBlock.Release f h b).map (fun g => (g, SharedPtr.empty)) ∧
          s.IncreaseStrongCounter h = ControlBlock.IncreaseStrongCounter h b ∧
          s.UseCount h = ControlBlock.UseStrongCount h b)) ∧
    (∀ s ∈ w.weak, (s.block_ = none ↔ s.observed_ = 0) ∧
      ∀ h : Heap,
        (s.block_ = none → WeakPtr.ReleaseWeak h s = .ok (h, s) ∧
          s.IncreaseWeakCounter h = .ok h ∧ s.UseCount h = .ok 0 ∧
          s.Expired h = .ok true) ∧
        (∀ b, s.block_ = some b →
          WeakPtr.ReleaseWeak h s
            = (ControlBlock.ReleaseWeak h b).map (fun g => (g, WeakPtr.empty)) ∧
          s.IncreaseWeakCounter h = ControlBlock.IncreaseWeakCounter h b ∧
          s.UseCount h = ControlBlock.UseStrongCount h b)) := by
  have hinit : Shaped World.init :=
    ⟨fun s hs => by simp [World.init] at hs, fun s hs => by simp [World.init] at hs⟩
  obtain ⟨hs, hk⟩ := execAll_shaped fuel prog World.init w hplain hrun hinit
  constructor
  · intro s hmem
    have hsh : s.block_ = none ↔ s.observed_ = 0 := hs s hmem
    refine ⟨hsh, fun f h => ⟨?_, ?_⟩⟩
    · intro hb
      have ho := hsh.mp hb
      simp [SharedPtr.Release, SharedPtr.releaseVia, SharedPtr.IncreaseStrongCounter,
        SharedPtr.UseCount, hb, ho, pure, Except.pure]
    · intro b hb
      have ho : s.observed_ ≠ 0 := fun e => by
        have := hsh.mpr e
        rw [hb] at this
        cases this
      refine ⟨?_, ?_, ?_⟩
      · unfold SharedPtr.Release SharedPtr.releaseVia
        simp only [ne_eq, ho, not_false_eq_true, if_true, hb]
        cases ControlBlock.Release f h b <;> rfl
      · unfold SharedPtr.IncreaseStrongCounter
        simp only [ne_eq, ho, not_false_eq_true, if_true, hb]
      · simp [SharedPtr.UseCount, hb]
  · intro s hmem
    have hsh : s.block_ = none ↔ s.observed_ = 0 := hk s hmem
    refine ⟨hsh, fun h => ⟨?_, ?_⟩⟩
    · intro hb
      have ho := hsh.mp hb
      simp [WeakPtr.ReleaseWeak, WeakPtr.IncreaseWeakCounter, WeakPtr.Expired,
        WeakPtr.UseCount, hb, ho, pure, Except.pure]
    · intro b hb
      have ho : s.observed_ ≠ 0 := fun e => by
        have := hsh.mpr e
        rw [hb] at this
        cases this
      refine ⟨?_, ?_, ?_⟩
      · unfold WeakPtr.ReleaseWeak
        simp only [ne_eq, ho, not_false_eq_true, if_true, hb]
        cases ControlBlock.ReleaseWeak h b <;> rfl
      · unfold WeakPtr.IncreaseWeakCounter
        simp only [ne_eq, ho, not_false_eq_true, if_true, hb]
      · simp [WeakPtr.UseCount, hb]

/-- Claim C28 on a concrete program that uses each kind of statement: it
returns, with seven `SharedPtr` and three `WeakPtr` variables on three blocks. -/
theorem block_null_iff_address_null_witness :
    World.execAll 2 World.init shapedProgram = .ok shapedWorld ∧
      (∀ s ∈ shapedWorld.shared, (s.block_ = none ↔ s.observed_ = 0) ∧
        ∀ (f : Nat) (h : Heap),
          (s.block_ = none → SharedPtr.Release f h s = .ok (h, s) ∧
            s.IncreaseStrongCounter h = .ok h ∧ s.UseCount h = .ok 0) ∧
          (∀ b, s.block_ = some b →
            SharedPtr.Release f h s
              = (ControlBlock.Release f h b).map (fun g => (g, SharedPtr.empty)) ∧
            s.IncreaseStrongCounter h = ControlBlock.IncreaseStrongCounter h b ∧
            s.UseCount h = ControlBlock.UseStrongCount h b)) ∧
      (∀ s ∈ shapedWorld.weak, (s.block_ = none ↔ s.observed_ = 0) ∧
        ∀ h : Heap,
          (s.block_ = none → WeakPtr.ReleaseWeak h s = .ok (h, s) ∧
            s.IncreaseWeakCounter h = .ok h ∧ s.UseCount h = .ok 0 ∧
            s.Expired h = .ok true) ∧
          (∀ b, s.block_ = some b →
            WeakPtr.ReleaseWeak h s
              = (ControlBlock.ReleaseWeak h b).map (fun g => (g, WeakPtr.empty)) ∧
            s.IncreaseWeakCounter h = ControlBlock.IncreaseWeakCounter h b ∧
            s.UseCount h = ControlBlock.UseStrongCount h b)) :=
  ⟨rfl, block_null_iff_address_null 2 shapedProgram shapedWorld (by decide) rfl⟩

/-! ## One counter against two -/

theorem single_deref_cases (h : Single.Heap) (b : Nat) :
    (∃ blk, h[b]? = some blk ∧ blk.freed = false ∧ Single.Heap.deref h b = .ok blk) ∨
      Single.Heap.deref h b = .error (Fault.danglingBlock b) := by
  unfold Single.Heap.deref
  cases hb : h[b]? with
  | none => right; rfl
  | some blk =>
    cases hf : blk.freed with
    | false => left; exact ⟨blk, rfl, hf, by simp [hf]⟩
    | true => right; simp [hf]

theorem single_deref_set {h : Single.Heap} {b : Nat} {x : Single.ControlBlock}
    (hlt : b < h.length) (hf : x.freed = false) :
    Single.Heap.deref (h.set b x) b = .ok x := by
  simp [Single.Heap.deref, List.getElem?_set, hlt, hf]

theorem deref_toDual (h : Single.Heap) (b : Nat) :
    Heap.deref (h.map Single.ControlBlock.toDual) b
      = (Single.Heap.deref h b).map Single.ControlBlock.toDual := by
  unfold Heap.deref Single.Heap.deref
  rw [List.getElem?_map]
  cases h[b]? with
  | none => rfl
  | some blk =>
    cases hf : blk.freed <;> simp [Single.ControlBlock.toDual, hf, Except.map]

theorem IncreaseCounter_toDual (h : Single.Heap) (b : Nat) :
    ControlBlock.IncreaseStrongCounter (h.map Single.ControlBlock.toDual) b
      = (Single.ControlBlock.IncreaseCounter h b).map (List.map Single.ControlBlock.toDual) := by
  unfold ControlBlock.IncreaseStrongCounter Single.ControlBlock.IncreaseCounter
  rw [deref_toDual]
  cases Single.Heap.deref h b with
  | error e => rfl
  | ok blk => simp [bind, Except.bind, Except.map, pure, Except.pure, Single.ControlBlock.toDual]

theorem Release_toDual (f : Nat) (h : Single.Heap) (b : Nat) :
    ControlBlock.Release (f + 2) (h.map Single.ControlBlock.toDual) b
      = (Single.ControlBlock.Release (f + 2) h b).map (List.map Single.ControlBlock.toDual) := by
  rcases single_deref_cases h b with ⟨blk, hb, hlive, hd⟩ | hd
  · have hlt : b < h.length := (List.getElem?_eq_some.mp hb).1
    have hbD : (h.map Single.ControlBlock.toDual)[b]? = some blk.toDual := by
      rw [List.getElem?_map, hb]; rfl
    have hliveD : blk.toDual.freed = false := hlive
    by_cases h0 : blk.counter_ = 0
    · rw [Release_zero hbD hliveD h0]
      unfold Single.ControlBlock.Release
      simp [hd, h0, bind, Except.bind, pure, Except.pure, Except.map]
    · have hne : blk.toDual.strong_ ≠ 0 := h0
      by_cases h1 : sizeDec blk.counter_ = 0
      · have hS : Single.ControlBlock.Release (f + 2) h b
            = .ok (h.set b
                { blk with counter_ := sizeDec blk.counter_, freed := true, trace := blk.trace ++ [Event.finalize] ++ [Event.free] }) := by
          unfold Single.ControlBlock.Release Single.ControlBlock.DecreaseCounter
          simp only [hd, bind, Except.bind, pure, Except.pure, h0, ne_eq, not_false_eq_true,
            if_true]
          rw [single_deref_set hlt (by simpa using hlive)]
          simp only [h1, if_true]
          unfold Single.ControlBlock.Delete Single.Heap.deleteThis Single.ControlBlock.Release
          rw [single_deref_set hlt (by simpa using hlive)]
          cases hk : blk.kind with
          | ptr =>
            simp only [hk, bind, Except.bind, pure, Except.pure, List.set_set]
            rw [single_deref_set hlt (by simpa using hlive)]
            simp [List.set_set, single_deref_set hlt, hlive]
          | obj =>
            simp only [hk, bind, Except.bind, pure, Except.pure]
            rw [single_deref_set hlt (by simpa using hlive)]
            simp [List.set_set, hk, single_deref_set hlt, hlive]
        have hD : ControlBlock.Release (f + 2) (h.map Single.ControlBlock.toDual) b
            = .ok ((h.map Single.ControlBlock.toDual).set b
                { blk.toDual with strong_ := sizeDec blk.counter_, freed := true, trace := blk.trace ++ [Event.finalize] ++ [Event.free] }) := by
          have hltD : b < (h.map Single.ControlBlock.toDual).length := by simpa using hlt
          have hb1 : ((h.map Single.ControlBlock.toDual).set b
              { blk.toDual with strong_ := sizeDec blk.toDual.strong_ })[b]?
              = some { blk.toDual with strong_ := sizeDec blk.toDual.strong_ } := by
            simp [hlt]
          have hDel := Delete_plain (r := fun g c => ControlBlock.Release (f + 1) g c) hb1
            (by simpa using hlive) rfl
          unfold ControlBlock.Release ControlBlock.DecreaseStrongCounter Heap.deleteThis
          simp only [deref_eq hbD hliveD, Except.bind, bind, pure, Except.pure, hne, ne_eq,
            not_false_eq_true, if_true]
          rw [deref_set hbD (by simpa using hliveD)]
          have h1D : sizeDec blk.toDual.strong_ = 0 := h1
          simp only [h1D, if_true] at hDel ⊢
          rw [hDel]
          simp only [List.set_set]
          rw [deref_set hbD (by simpa using hliveD)]
          simp [Single.ControlBlock.toDual, h1]
        rw [hS, hD]
        simp [Except.map, Single.ControlBlock.toDual]
      · have hS : Single.ControlBlock.Release (f + 2) h b
            = .ok (h.set b { blk with counter_ := sizeDec blk.counter_ }) := by
          unfold Single.ControlBlock.Release Single.ControlBlock.DecreaseCounter
          simp only [hd, bind, Except.bind, pure, Except.pure, h0, ne_eq, not_false_eq_true,
            if_true]
          rw [single_deref_set hlt (by simpa using hlive)]
          simp [h1]
        have hD : ControlBlock.Release (f + 2) (h.map Single.ControlBlock.toDual) b
            = .ok ((h.map Single.ControlBlock.toDual).set b
                { blk.toDual with strong_ := sizeDec blk.counter_ }) := by
          unfold ControlBlock.Release ControlBlock.DecreaseStrongCounter
          simp only [deref_eq hbD hliveD, Except.bind, bind, pure, Except.pure, hne, ne_eq,
            not_false_eq_true, if_true]
          rw [deref_set hbD (by simpa using hliveD)]
          have h1D : ¬ sizeDec blk.toDual.strong_ = 0 := h1
          simp only [h1D, if_false]
          rfl
        rw [hS, hD]
        simp [Except.map, Single.ControlBlock.toDual]
  · have hdD := deref_toDual h b
    rw [hd] at hdD
    unfold ControlBlock.Release Single.ControlBlock.Release
    rw [hdD, hd]
    rfl

theorem sharedRelease_toDual (f : Nat) (h : Single.Heap) (s : SharedPtr) :
    SharedPtr.Release (f + 2) (h.map Single.ControlBlock.toDual) s
      = (Single.SharedPtr.Release (f + 2) h s).map
          (fun r => (r.1.map Single.ControlBlock.toDual, r.2)) := by
  unfold SharedPtr.Release SharedPtr.releaseVia Single.SharedPtr.Release
  by_cases ho : s.observed_ = 0
  · simp [ho, pure, Except.pure, Except.map]
  · simp only [ne_eq, ho, not_false_eq_true, if_true]
    cases s.block_ with
    | none => rfl
    | some b =>
      simp only []
      rw [Release_toDual]
      cases Single.ControlBlock.Release (f + 2) h b <;> rfl

theorem sharedIncrease_toDual (h : Single.Heap) (s : SharedPtr) :
    s.IncreaseStrongCounter (h.map Single.ControlBlock.toDual)
      = (Single.SharedPtr.IncreaseCounter h s).map (List.map Single.ControlBlock.toDual) := by
  unfold SharedPtr.IncreaseStrongCounter Single.SharedPtr.IncreaseCounter
  by_cases ho : s.observed_ = 0
  · simp [ho, pure, Except.pure, Except.map]
  · simp only [ne_eq, ho, not_false_eq_true, if_true]
    cases s.block_ with
    | none => rfl
    | some b => exact IncreaseCounter_toDual h b

theorem copy_toDual (h : Single.Heap) (s : SharedPtr) :
    SharedPtr.copy (h.map Single.ControlBlock.toDual) s
      = (Single.SharedPtr.copy h s).map
          (fun r => (r.1.map Single.ControlBlock.toDual, r.2)) := by
  unfold SharedPtr.copy Single.SharedPtr.copy
  simp only []
  rw [sharedIncrease_toDual]
  cases Single.SharedPtr.IncreaseCounter h _ <;> rfl

theorem alias_toDual (h : Single.Heap) (s : SharedPtr) (p : Nat) :
    SharedPtr.alias (h.map Single.ControlBlock.toDual) s p
      = (Single.SharedPtr.alias h s p).map
          (fun r => (r.1.map Single.ControlBlock.toDual, r.2)) := by
  unfold SharedPtr.alias Single.SharedPtr.alias
  simp only []
  rw [sharedIncrease_toDual]
  cases Single.SharedPtr.IncreaseCounter h _ <;> rfl

theorem copyAssign_toDual (f : Nat) (h : Single.Heap) (d s : SharedPtr) :
    SharedPtr.copyAssign (f + 2) (h.map Single.ControlBlock.toDual) d s
      = (Single.SharedPtr.copyAssign (f + 2) h d s).map
          (fun r => (r.1.map Single.ControlBlock.toDual, r.2)) := by
  unfold SharedPtr.copyAssign Single.SharedPtr.copyAssign
  by_cases ho : d.observed_ = s.observed_
  · simp [ho, pure, Except.pure, Except.map]
  · simp only [ho, if_false]
    rw [sharedRelease_toDual]
    cases Single.SharedPtr.Release (f + 2) h d with
    | error e => rfl
    | ok r =>
      simp only [Except.map, bind, Except.bind]
      rw [sharedIncrease_toDual]
      cases Single.SharedPtr.IncreaseCounter r.1 _ <;> rfl

theorem moveAssign_toDual (f : Nat) (h : Single.Heap) (d s : SharedPtr) :
    SharedPtr.moveAssign (f + 2) (h.map Single.ControlBlock.toDual) d s
      = (Single.SharedPtr.moveAssign (f + 2) h d s).map
          (fun r => (r.1.map Single.ControlBlock.toDual, r.2)) := by
  unfold SharedPtr.moveAssign Single.SharedPtr.moveAssign
  by_cases ho : d.observed_ = s.observed_
  · simp [ho, pure, Except.pure, Except.map]
  · simp only [ho, if_false]
    rw [sharedRelease_toDual]
    cases Single.SharedPtr.Release (f + 2) h d <;> rfl

theorem resetPtr_toDual (f : Nat) (h : Single.Heap) (s : SharedPtr) (p : Nat) :
    SharedPtr.ResetPtr (f + 2) (h.map Single.ControlBlock.toDual) s p []
      = (Single.SharedPtr.ResetPtr (f + 2) h s p).map
          (fun r => (r.1.map Single.ControlBlock.toDual, r.2)) := by
  have hnew : h.map Single.ControlBlock.toDual ++ [ControlBlockPtr.new p []]
      = (h ++ [Single.ControlBlockPtr.new p]).map Single.ControlBlock.toDual := by
    rw [List.map_append]; rfl
  unfold SharedPtr.ResetPtr Single.SharedPtr.ResetPtr
  simp only [List.length_map]
  rw [hnew]
  cases s.block_ with
  | none => rfl
  | some b =>
    simp only []
    rw [Release_toDual]
    cases Single.ControlBlock.Release (f + 2) (h ++ [Single.ControlBlockPtr.new p]) b <;> rfl

theorem makeShared_toDual (h : Single.Heap) (p : Nat) :
    MakeShared (h.map Single.ControlBlock.toDual) p []
      = (Single.MakeShared h p).map
          (fun r => (r.1.map Single.ControlBlock.toDual, r.2)) := by
  have hnew : h.map Single.ControlBlock.toDual ++ [ControlBlockObj.new p []]
      = (h ++ [Single.ControlBlockObj.new p]).map Single.ControlBlock.toDual := by
    rw [List.map_append]; rfl
  unfold MakeShared Single.MakeShared SharedPtr.ofBlockObj Single.SharedPtr.ofBlockObj
  simp only [List.length_map]
  rw [hnew, deref_toDual]
  cases Single.Heap.deref (h ++ [Single.ControlBlockObj.new p]) h.length <;> rfl

theorem ofPtr_toDual (h : Single.Heap) (p : Nat) :
    SharedPtr.ofPtr (h.map Single.ControlBlock.toDual) p []
      = ((Single.SharedPtr.ofPtr h p).1.map Single.ControlBlock.toDual,
          (Single.SharedPtr.ofPtr h p).2) := by
  simp [SharedPtr.ofPtr, Single.SharedPtr.ofPtr, ControlBlockPtr.new,
    Single.ControlBlockPtr.new, Single.ControlBlock.toDual]

theorem useCount_toDual (h : Single.Heap) (s : SharedPtr) :
    s.UseCount (h.map Single.ControlBlock.toDual) = Single.SharedPtr.UseCount h s := by
  unfold SharedPtr.UseCount Single.SharedPtr.UseCount ControlBlock.UseStrongCount
  cases s.block_ with
  | none => rfl
  | some b =>
    simp only []
    rw [deref_toDual]
    cases Single.Heap.deref h b <;> rfl

theorem exec_toDual (f : Nat) (s : Single.World) (st : Stmt) (hp : st.sharedOnly = true) :
    World.exec (f + 2) s.toDual st
      = (Single.World.exec (f + 2) s st).map Single.World.toDual := by
  obtain ⟨heap, sh⟩ := s
  cases st with
  | op o =>
    cases o with
    | copyCtor src =>
      cases hsrc : sh[src]? with
      | none =>
        simp only [World.exec, World.step, Single.World.exec, Single.World.toDual, hsrc]
        rfl
      | some x =>
        simp only [World.exec, World.step, Single.World.exec, Single.World.toDual, hsrc]
        rw [copy_toDual]
        cases Single.SharedPtr.copy heap x <;> rfl
    | moveCtor src =>
      cases hsrc : sh[src]? with
      | none =>
        simp only [World.exec, World.step, Single.World.exec, Single.World.toDual, hsrc]
        rfl
      | some x =>
        simp only [World.exec, World.step, Single.World.exec, Single.World.toDual, hsrc]
        rfl
    | copyAssign dst src =>
      cases hdst : sh[dst]? with
      | none =>
        simp only [World.exec, World.step, Single.World.exec, Single.World.toDual, hdst]
        rfl
      | some d =>
        cases hsrc : sh[src]? with
        | none =>
          simp only [World.exec, World.step, Single.World.exec, Single.World.toDual, hdst, hsrc]
          rfl
        | some x =>
          simp only [World.exec, World.step, Single.World.exec, Single.World.toDual, hdst, hsrc]
          rw [copyAssign_toDual]
          cases Single.SharedPtr.copyAssign (f + 2) heap d x <;> rfl
    | moveAssign dst src =>
      cases hdst : sh[dst]? with
      | none =>
        simp only [World.exec, World.step, Single.World.exec, Single.World.toDual, hdst]
        rfl
      | some d =>
        cases hsrc : sh[src]? with
        | none =>
          simp only [World.exec, World.step, Single.World.exec, Single.World.toDual, hdst, hsrc]
          rfl
        | some x =>
          simp only [World.exec, World.step, Single.World.exec, Single.World.toDual, hdst, hsrc]
          rw [moveAssign_toDual]
          cases Single.SharedPtr.moveAssign (f + 2) heap d x <;> rfl
    | reset i =>
      cases hi : sh[i]? with
      | none =>
        simp only [World.exec, World.step, Single.World.exec, Single.World.toDual, hi]
        rfl
      | some x =>
        simp only [World.exec, World.step, Single.World.exec, Single.World.toDual, hi,
          SharedPtr.Reset, Single.SharedPtr.Reset]
        rw [sharedRelease_toDual]
        cases Single.SharedPtr.Release (f + 2) heap x <;> rfl
    | destroy i =>
      cases hi : sh[i]? with
      | none =>
        simp only [World.exec, World.step, Single.World.exec, Single.World.toDual, hi]
        rfl
      | some x =>
        simp only [World.exec, World.step, Single.World.exec, Single.World.toDual, hi,
          SharedPtr.destructor, Single.SharedPtr.destructor]
        rw [sharedRelease_toDual]
        cases Single.SharedPtr.Release (f + 2) heap x <;> rfl
    | demote src => simp [Stmt.sharedOnly, Op.sharedOnly] at hp
    | weakCopyCtor src => simp [Stmt.sharedOnly, Op.sharedOnly] at hp
    | weakMoveCtor src => simp [Stmt.sharedOnly, Op.sharedOnly] at hp
    | weakCopyAssign dst src => simp [Stmt.sharedOnly, Op.sharedOnly] at hp
    | weakMoveAssign dst src => simp [Stmt.sharedOnly, Op.sharedOnly] at hp
    | weakReset i => simp [Stmt.sharedOnly, Op.sharedOnly] at hp
    | weakDestroy i => simp [Stmt.sharedOnly, Op.sharedOnly] at hp
    | lock src => simp [Stmt.sharedOnly, Op.sharedOnly] at hp
  | defaultCtor => rfl
  | weakDefaultCtor => simp [Stmt.sharedOnly] at hp
  | makeShared p =>
    simp only [World.exec, Single.World.exec, Single.World.toDual]
    rw [makeShared_toDual]
    cases Single.MakeShared heap p <;> rfl
  | adopt p =>
    simp only [World.exec, Single.World.exec, Single.World.toDual]
    rw [ofPtr_toDual]
    rfl
  | aliasCtor src p =>
    cases hsrc : sh[src]? with
    | none =>
      simp only [World.exec, Single.World.exec, Single.World.toDual, hsrc]
      rfl
    | some x =>
      simp only [World.exec, Single.World.exec, Single.World.toDual, hsrc]
      rw [alias_toDual]
      cases Single.SharedPtr.alias heap x p <;> rfl
  | resetPtr i p =>
    cases hi : sh[i]? with
    | none =>
      simp only [World.exec, Single.World.exec, Single.World.toDual, hi]
      rfl
    | some x =>
      simp only [World.exec, Single.World.exec, Single.World.toDual, hi]
      rw [resetPtr_toDual]
      cases Single.SharedPtr.ResetPtr (f + 2) heap x p <;> rfl
  | swap i j =>
    cases hi : sh[i]? with
    | none =>
      simp only [World.exec, Single.World.exec, Single.World.toDual, hi]
      rfl
    | some a =>
      cases hj : sh[j]? with
      | none =>
        simp only [World.exec, Single.World.exec, Single.World.toDual, hi, hj]
        rfl
      | some b =>
        simp only [World.exec, Single.World.exec, Single.World.toDual, hi, hj]
        rfl
  | weakSwap i j => simp [Stmt.sharedOnly] at hp
  | promote src => simp [Stmt.sharedOnly] at hp

theorem execAll_toDual (f : Nat) (prog : List Stmt) :
    ∀ s : Single.World, (∀ st ∈ prog, st.sharedOnly = true) →
      World.execAll (f + 2) s.toDual prog
        = (Single.World.execAll (f + 2) s prog).map Single.World.toDual := by
  induction prog with
  | nil => intro s _; rfl
  | cons st sts ih =>
    intro s hp
    unfold World.execAll Single.World.execAll
    rw [exec_toDual f s st (hp st (List.mem_cons_self _ _))]
    cases Single.World.exec (f + 2) s st with
    | error e => rfl
    | ok s1 =>
      exact ih s1 (fun x hx => hp x (List.mem_cons_of_mem _ hx))

theorem bind_fuel_ok {α β : Type} {x : Except Fault α} {g : α → Except Fault β}
    (hx : x ≠ .error .outOfFuel) (hg : ∀ a, g a ≠ .error .outOfFuel) :
    (x >>= g) ≠ .error .outOfFuel := by
  cases x with
  | error e =>
    intro h
    exact hx (by simpa [bind, Except.bind] using h)
  | ok a => exact hg a

theorem pure_fuel_ok {α : Type} (a : α) : (pure a : Except Fault α) ≠ .error .outOfFuel := by
  intro h
  cases h

theorem single_deref_fuel_ok (h : Single.Heap) (b : Nat) :
    Single.Heap.deref h b ≠ .error .outOfFuel := by
  rcases single_deref_cases h b with ⟨blk, _, _, hd⟩ | hd <;> rw [hd] <;> simp

theorem single_Release_cases (f : Nat) (h : Single.Heap) (b : Nat) :
    (∃ h1, Single.ControlBlock.Release (f + 2) h b = .ok h1) ∨
      Single.ControlBlock.Release (f + 2) h b = .error (Fault.danglingBlock b) := by
  rcases single_deref_cases h b with ⟨blk, hb, hlive, hd⟩ | hd
  · left
    have hlt : b < h.length := (List.getElem?_eq_some.mp hb).1
    by_cases h0 : blk.counter_ = 0
    · refine ⟨h, ?_⟩
      unfold Single.ControlBlock.Release
      simp [hd, h0, bind, Except.bind, pure, Except.pure]
    · by_cases h1 : sizeDec blk.counter_ = 0
      · refine ⟨h.set b
          { blk with counter_ := sizeDec blk.counter_, freed := true, trace := blk.trace ++ [Event.finalize] ++ [Event.free] }, ?_⟩
        unfold Single.ControlBlock.Release Single.ControlBlock.DecreaseCounter
        simp only [hd, bind, Except.bind, pure, Except.pure, h0, ne_eq, not_false_eq_true,
          if_true]
        rw [single_deref_set hlt (by simpa using hlive)]
        simp only [h1, if_true]
        unfold Single.ControlBlock.Delete Single.Heap.deleteThis Single.ControlBlock.Release
        rw [single_deref_set hlt (by simpa using hlive)]
        cases hk : blk.kind with
        | ptr =>
          simp only [hk, bind, Except.bind, pure, Except.pure, List.set_set]
          rw [single_deref_set hlt (by simpa using hlive)]
          simp [List.set_set, single_deref_set hlt, hlive]
        | obj =>
          simp only [hk, bind, Except.bind, pure, Except.pure]
          rw [single_deref_set hlt (by simpa using hlive)]
          simp [List.set_set, hk, single_deref_set hlt, hlive]
      · refine ⟨h.set b { blk with counter_ := sizeDec blk.counter_ }, ?_⟩
        unfold Single.ControlBlock.Release Single.ControlBlock.DecreaseCounter
        simp only [hd, bind, Except.bind, pure, Except.pure, h0, ne_eq, not_false_eq_true,
          if_true]
        rw [single_deref_set hlt (by simpa using hlive)]
        simp [h1]
  · right
    unfold Single.ControlBlock.Release
    rw [hd]
    rfl

theorem single_Release_fuel_ok (f : Nat) (h : Single.Heap) (b : Nat) :
    Single.ControlBlock.Release (f + 2) h b ≠ .error .outOfFuel := by
  rcases single_Release_cases f h b with ⟨h1, e⟩ | e <;> rw [e] <;> simp

theorem single_increase_fuel_ok (h : Single.Heap) (s : SharedPtr) :
    Single.SharedPtr.IncreaseCounter h s ≠ .error .outOfFuel := by
  unfold Single.SharedPtr.IncreaseCounter
  split
  · cases s.block_ with
    | none => simp
    | some b =>
      exact bind_fuel_ok (single_deref_fuel_ok h b) (fun _ => pure_fuel_ok _)
  · exact pure_fuel_ok _

theorem single_sharedRelease_fuel_ok (f : Nat) (h : Single.Heap) (s : SharedPtr) :
    Single.SharedPtr.Release (f + 2) h s ≠ .error .outOfFuel := by
  unfold Single.SharedPtr.Release
  split
  · cases s.block_ with
    | none => simp
    | some b =>
      exact bind_fuel_ok (single_Release_fuel_ok f h b) (fun _ => pure_fuel_ok _)
  · exact pure_fuel_ok _

theorem single_copy_fuel_ok (h : Single.Heap) (s : SharedPtr) :
    Single.SharedPtr.copy h s ≠ .error .outOfFuel :=
  bind_fuel_ok (single_increase_fuel_ok h _) (fun _ => pure_fuel_ok _)

theorem single_alias_fuel_ok (h : Single.Heap) (s : SharedPtr) (p : Nat) :
    Single.SharedPtr.alias h s p ≠ .error .outOfFuel :=
  bind_fuel_ok (single_increase_fuel_ok h _) (fun _ => pure_fuel_ok _)

theorem single_copyAssign_fuel_ok (f : Nat) (h : Single.Heap) (d s : SharedPtr) :
    Single.SharedPtr.copyAssign (f + 2) h d s ≠ .error .outOfFuel := by
  unfold Single.SharedPtr.copyAssign
  split
  · exact pure_fuel_ok _
  · exact bind_fuel_ok (single_sharedRelease_fuel_ok f h d)
      (fun r => bind_fuel_ok (single_increase_fuel_ok r.1 _) (fun _ => pure_fuel_ok _))

theorem single_moveAssign_fuel_ok (f : Nat) (h : Single.Heap) (d s : SharedPtr) :
    Single.SharedPtr.moveAssign (f + 2) h d s ≠ .error .outOfFuel := by
  unfold Single.SharedPtr.moveAssign
  split
  · exact pure_fuel_ok _
  · exact bind_fuel_ok (single_sharedRelease_fuel_ok f h d) (fun _ => pure_fuel_ok _)

theorem single_resetPtr_fuel_ok (f : Nat) (h : Single.Heap) (s : SharedPtr) (p : Nat) :
    Single.SharedPtr.ResetPtr (f + 2) h s p ≠ .error .outOfFuel := by
  unfold Single.SharedPtr.ResetPtr
  cases s.block_ with
  | none => exact pure_fuel_ok _
  | some b => exact bind_fuel_ok (single_Release_fuel_ok f _ b) (fun _ => pure_fuel_ok _)

theorem single_makeShared_fuel_ok (h : Single.Heap) (p : Nat) :
    Single.MakeShared h p ≠ .error .outOfFuel :=
  bind_fuel_ok (bind_fuel_ok (single_deref_fuel_ok _ _) (fun _ => pure_fuel_ok _))
    (fun _ => pure_fuel_ok _)

theorem single_exec_fuel_ok (f : Nat) (s : Single.World) (st : Stmt) :
    Single.World.exec (f + 2) s st ≠ .error .outOfFuel := by
  obtain ⟨heap, sh⟩ := s
  cases st with
  | op o =>
    cases o with
    | copyCtor src =>
      cases hsrc : sh[src]? with
      | none => simp only [Single.World.exec, hsrc]; exact pure_fuel_ok _
      | some x =>
        simp only [Single.World.exec, hsrc]
        exact bind_fuel_ok (single_copy_fuel_ok heap x) (fun _ => pure_fuel_ok _)
    | moveCtor src =>
      cases hsrc : sh[src]? with
      | none => simp only [Single.World.exec, hsrc]; exact pure_fuel_ok _
      | some x => simp only [Single.World.exec, hsrc]; exact pure_fuel_ok _
    | copyAssign dst src =>
      cases hdst : sh[dst]? with
      | none => simp only [Single.World.exec, hdst]; exact pure_fuel_ok _
      | some d =>
        cases hsrc : sh[src]? with
        | none => simp only [Single.World.exec, hdst, hsrc]; exact pure_fuel_ok _
        | some x =>
          simp only [Single.World.exec, hdst, hsrc]
          exact bind_fuel_ok (single_copyAssign_fuel_ok f heap d x) (fun _ => pure_fuel_ok _)
    | moveAssign dst src =>
      cases hdst : sh[dst]? with
      | none => simp only [Single.World.exec, hdst]; exact pure_fuel_ok _
      | some d =>
        cases hsrc : sh[src]? with
        | none => simp only [Single.World.exec, hdst, hsrc]; exact pure_fuel_ok _
        | some x =>
          simp only [Single.World.exec, hdst, hsrc]
          exact bind_fuel_ok (single_moveAssign_fuel_ok f heap d x) (fun _ => pure_fuel_ok _)
    | reset i =>
      cases hi : sh[i]? with
      | none => simp only [Single.World.exec, hi]; exact pure_fuel_ok _
      | some x =>
        simp only [Single.World.exec, hi, Single.SharedPtr.Reset]
        exact bind_fuel_ok (single_sharedRelease_fuel_ok f heap x) (fun _ => pure_fuel_ok _)
    | destroy i =>
      cases hi : sh[i]? with
      | none => simp only [Single.World.exec, hi]; exact pure_fuel_ok _
      | some x =>
        simp only [Single.World.exec, hi, Single.SharedPtr.destructor]
        exact bind_fuel_ok (single_sharedRelease_fuel_ok f heap x) (fun _ => pure_fuel_ok _)
    | demote src => exact pure_fuel_ok _
    | weakCopyCtor src => exact pure_fuel_ok _
    | weakMoveCtor src => exact pure_fuel_ok _
    | weakCopyAssign dst src => exact pure_fuel_ok _
    | weakMoveAssign dst src => exact pure_fuel_ok _
    | weakReset i => exact pure_fuel_ok _
    | weakDestroy i => exact pure_fuel_ok _
    | lock src => exact pure_fuel_ok _
  | defaultCtor => exact pure_fuel_ok _
  | weakDefaultCtor => exact pure_fuel_ok _
  | makeShared p =>
    simp only [Single.World.exec]
    exact bind_fuel_ok (single_makeShared_fuel_ok heap p) (fun _ => pure_fuel_ok _)
  | adopt p => exact pure_fuel_ok _
  | aliasCtor src p =>
    cases hsrc : sh[src]? with
    | none => simp only [Single.World.exec, hsrc]; exact pure_fuel_ok _
    | some x =>
      simp only [Single.World.exec, hsrc]
      exact bind_fuel_ok (single_alias_fuel_ok heap x p) (fun _ => pure_fuel_ok _)
  | resetPtr i p =>
    cases hi : sh[i]? with
    | none => simp only [Single.World.exec, hi]; exact pure_fuel_ok _
    | some x =>
      simp only [Single.World.exec, hi]
      exact bind_fuel_ok (single_resetPtr_fuel_ok f heap x p) (fun _ => pure_fuel_ok _)
  | swap i j =>
    cases hi : sh[i]? with
    | none => simp only [Single.World.exec, hi]; exact pure_fuel_ok _
    | some a =>
      cases hj : sh[j]? with
      | none => simp only [Single.World.exec, hi, hj]; exact pure_fuel_ok _
      | some b => simp only [Single.World.exec, hi, hj]; exact pure_fuel_ok _
  | weakSwap i j => exact pure_fuel_ok _
  | promote src => exact pure_fuel_ok _

theorem single_execAll_fuel_ok (f : Nat) (prog : List Stmt) :
    ∀ s : Single.World, Single.World.execAll (f + 2) s prog ≠ .error .outOfFuel := by
  induction prog with
  | nil => intro s; exact pure_fuel_ok _
  | cons st sts ih =>
    intro s
    unfold Single.World.execAll
    exact bind_fuel_ok (single_exec_fuel_ok f s st) (fun s1 => ih s1)

/-- Claim C29: for every program of statements that involve no `WeakPtr`
(default construction, `MakeShared`, adoption of a pointer, copy and move
construction and assignment, aliasing construction, `Reset()`, `Reset(p)`,
`Swap`, destruction; the managed objects own no smart pointers) and after every
number `n` of its statements: the single-counter implementation of
`src/shared/shared.h` does not stop for lack of fuel; the dual-counter
implementation of `src/weak/shared.h` stops with the same fault or returns
the same state, seen through `toDual`; and in the state returned the two have
the same handle variables, hence the same `Get()` and `bool`, the same
`UseCount()` for each of them, and for each block the same record of the
destruction of the managed object and of `delete this`, the same `freed` flag
and `strong_ == counter_`. -/
theorem single_counter_agrees (fuel : Nat) (prog : List Stmt)
    (hp : ∀ st ∈ prog, st.sharedOnly = true) :
    ∀ n : Nat,
      Single.World.execAll (fuel + 2) Single.World.init (prog.take n) ≠ .error .outOfFuel ∧
      World.execAll (fuel + 2) World.init (prog.take n)
        = (Single.World.execAll (fuel + 2) Single.World.init (prog.take n)).map
            Single.World.toDual ∧
      ∀ s, Single.World.execAll (fuel + 2) Single.World.init (prog.take n) = .ok s →
        ∃ w, World.execAll (fuel + 2) World.init (prog.take n) = .ok w ∧
          w.shared = s.shared ∧ w.weak = [] ∧ w.heap.length = s.heap.length ∧
          (∀ x ∈ s.shared, Single.SharedPtr.UseCount s.heap x = x.UseCount w.heap ∧
            Single.SharedPtr.Get x = x.Get ∧ Single.SharedPtr.toBool x = x.toBool) ∧
          (∀ (b : Nat) (blk : Single.ControlBlock), s.heap[b]? = some blk →
            ∃ blk2 : ControlBlock, w.heap[b]? = some blk2 ∧
            blk2.trace = blk.trace ∧ blk2.freed = blk.freed ∧
            blk2.strong_ = blk.counter_) := by
  intro n
  have hsim := execAll_toDual fuel (prog.take n) Single.World.init
    (fun st h => hp st (List.mem_of_mem_take h))
  have hinit : Single.World.init.toDual = World.init := rfl
  rw [hinit] at hsim
  refine ⟨single_execAll_fuel_ok fuel _ _, hsim, ?_⟩
  intro s hs
  rw [hs] at hsim
  refine ⟨s.toDual, hsim, rfl, rfl, ?_, ?_, ?_⟩
  · simp [Single.World.toDual]
  · intro x _
    exact ⟨(useCount_toDual s.heap x).symm, rfl, rfl⟩
  · intro b blk hblk
    refine ⟨blk.toDual, ?_, rfl, rfl, rfl⟩
    simp [Single.World.toDual, List.getElem?_map, hblk]

/-- Claim C29 on a concrete program, which returns with eight variables and
four blocks, three of them deleted. -/
theorem single_counter_agrees_witness :
    (∃ s, Single.World.execAll 2 Single.World.init sharedProgram = .ok s ∧
      s.shared.length = 8 ∧ s.heap.map (fun blk => blk.freed) = [true, true, true, false]) ∧
    ∀ n : Nat,
      Single.World.execAll 2 Single.World.init (sharedProgram.take n) ≠ .error .outOfFuel ∧
      World.execAll 2 World.init (sharedProgram.take n)
        = (Single.World.execAll 2 Single.World.init (sharedProgram.take n)).map
            Single.World.toDual ∧
      ∀ s, Single.World.execAll 2 Single.World.init (sharedProgram.take n) = .ok s →
        ∃ w, World.execAll 2 World.init (sharedProgram.take n) = .ok w ∧
          w.shared = s.shared ∧ w.weak = [] ∧ w.heap.length = s.heap.length ∧
          (∀ x ∈ s.shared, Single.SharedPtr.UseCount s.heap x = x.UseCount w.heap ∧
            Single.SharedPtr.Get x = x.Get ∧ Single.SharedPtr.toBool x = x.toBool) ∧
          (∀ (b : Nat) (blk : Single.ControlBlock), s.heap[b]? = some blk →
            ∃ blk2 : ControlBlock, w.heap[b]? = some blk2 ∧
            blk2.trace = blk.trace ∧ blk2.freed = blk.freed ∧
            blk2.strong_ = blk.counter_) :=
  ⟨⟨_, rfl, rfl, rfl⟩, single_counter_agrees 0 sharedProgram (by decide)⟩

/-! ## Counting invariant of intrusive pointers -/

theorem IncRef_eq {h : ObjHeap} {o : Nat} {x : RefCounted} (hb : h[o]? = some x)
    (hl : x.destroyCalls = 0) (hlt : x.count_ + 1 < SIZE_MOD) :
    RefCounted.IncRef h o = .ok (h.set o { x with count_ := x.count_ + 1 }) := by
  unfold RefCounted.IncRef ObjHeap.deref
  simp [hb, hl, sizeInc_eq _ hlt, bind, Except.bind, pure, Except.pure]

theorem DecRef_eq {h : ObjHeap} {o : Nat} {x : RefCounted} (hb : h[o]? = some x)
    (hl : x.destroyCalls = 0) (h1 : 1 ≤ x.count_) (hlt : x.count_ < SIZE_MOD) :
    RefCounted.DecRef h o
      = .ok (h.set o { count_ := x.count_ - 1, destroyCalls := if x.count_ = 1 then 1 else 0 }) := by
  have hlen : o < h.length := (List.getElem?_eq_some.mp hb).1
  have hd := sizeDec_eq _ h1 hlt
  unfold RefCounted.DecRef RefCounted.RefCount ObjHeap.deref
  by_cases h2 : x.count_ = 1
  · have hd1 : sizeDec 1 = 0 := rfl
    simp [hb, hl, hd1, h2, hlen, bind, Except.bind, pure, Except.pure]
  · have h3 : x.count_ - 1 ≠ 0 := by omega
    simp [hb, hl, hd, h2, h3, hlen, bind, Except.bind, pure, Except.pure]

theorem IncRef_dangling {h : ObjHeap} {o : Nat}
    (hd : ∀ x, h[o]? = some x → x.destroyCalls ≠ 0) :
    RefCounted.IncRef h o = .error (IFault.danglingObject o) := by
  unfold RefCounted.IncRef ObjHeap.deref
  cases hb : h[o]? with
  | none => rfl
  | some x => simp [hd x hb, bind, Except.bind]

theorem holdersIn_push (l : List IntrusivePtr) (s : IntrusivePtr) (o : Nat) :
    holdersIn (l ++ [s]) o = holdersIn l o + (if s.ptr_ = some o then 1 else 0) := by
  unfold holdersIn
  rw [List.countP_append]
  by_cases hs : s.ptr_ = some o <;> simp [List.countP_cons, hs]

theorem holdersIn_set (l : List IntrusivePtr) (i : Nat) (x a : IntrusivePtr) (o : Nat)
    (hx : l[i]? = some x) :
    holdersIn (l.set i a) o + (if x.ptr_ = some o then 1 else 0)
      = holdersIn l o + (if a.ptr_ = some o then 1 else 0) := by
  have := countP_set_add (fun s : IntrusivePtr => s.ptr_ == some o) l i x a hx
  unfold holdersIn
  simpa using this

theorem holdersIn_le (l : List IntrusivePtr) (o : Nat) : holdersIn l o ≤ l.length :=
  List.countP_le_length _

theorem holdersIn_pos {l : List IntrusivePtr} {i : Nat} {x : IntrusivePtr} {o : Nat}
    (hx : l[i]? = some x) (hp : x.ptr_ = some o) : 1 ≤ holdersIn l o :=
  countP_pos_of_get (fun s : IntrusivePtr => s.ptr_ == some o) l i x hx (by simp [hp])

theorem Counts_live {h : ObjHeap} {c : Nat → Nat} {o : Nat} (hC : Counts h c)
    (hpos : 1 ≤ c o) : ∃ x, h[o]? = some x ∧ x.destroyCalls = 0 ∧ x.count_ = c o := by
  have hlt : o < h.length := by
    by_contra hge
    have := hC.2 o (by omega)
    omega
  have hx : h[o]? = some (h.get ⟨o, hlt⟩) := by simp [List.getElem?_eq_getElem hlt]
  rcases hC.1 o _ hx with ⟨a, b⟩ | ⟨_, _, z⟩
  · exact ⟨_, hx, a, b⟩
  · omega

theorem Counts_set {h : ObjHeap} {c d : Nat → Nat} {o : Nat} {x y : RefCounted}
    (hC : Counts h c) (hb : h[o]? = some x)
    (hy : (y.destroyCalls = 0 ∧ y.count_ = d o) ∨
      (y.destroyCalls = 1 ∧ y.count_ = 0 ∧ d o = 0))
    (hd : ∀ z, z ≠ o → d z = c z) : Counts (h.set o y) d := by
  have hlt : o < h.length := (List.getElem?_eq_some.mp hb).1
  constructor
  · intro z obj hz
    by_cases e : z = o
    · subst e
      have : obj = y := by simpa [hlt] using hz.symm
      rw [this]; exact hy
    · have hz1 : h[z]? = some obj := by
        rw [List.getElem?_set_ne (Ne.symm e)] at hz
        exact hz
      rw [hd z e]
      exact hC.1 z obj hz1
  · intro z hz
    have hz1 : h.length ≤ z := by simpa using hz
    have e : z ≠ o := by omega
    rw [hd z e]
    exact hC.2 z hz1

theorem Counts_congr {h : ObjHeap} {c d : Nat → Nat} (hC : Counts h c)
    (hd : ∀ z, d z = c z) : Counts h d := by
  have e : d = c := funext hd
  rw [e]; exact hC

theorem Counts_alloc {h : ObjHeap} {c : Nat → Nat} (hC : Counts h c) :
    Counts (h ++ [{ count_ := 0, destroyCalls := 0 }]) c := by
  constructor
  · intro z obj hz
    by_cases hlt : z < h.length
    · rw [List.getElem?_append_left hlt] at hz
      exact hC.1 z obj hz
    · have hge : h.length ≤ z := by omega
      rw [List.getElem?_append_right hge] at hz
      have hz0 : z - h.length = 0 := by
        by_contra hne
        have : ([{ count_ := 0, destroyCalls := 0 }] : ObjHeap)[z - h.length]? = none := by
          apply List.getElem?_eq_none
          simp; omega
        rw [this] at hz
        cases hz
      rw [hz0] at hz
      have : obj = { count_ := 0, destroyCalls := 0 } := by simpa using hz.symm
      rw [this]
      left
      exact ⟨rfl, (hC.2 z hge).symm⟩
  · intro z hz
    have : h.length ≤ z := by simp at hz; omega
    exact hC.2 z this

theorem Eff_refl (h : ObjHeap) : Eff h h := by
  intro z
  by_cases a : countOf h z = 1 <;> simp [a]

theorem Eff_trans {h h1 h2 : ObjHeap} (e1 : Eff h h1) (e2 : Eff h1 h2)
    (hd : ∀ z, (countOf h1 z = countOf h z ∧ destroyCallsOf h1 z = destroyCallsOf h z) ∨
      h2[z]? = h1[z]?) : Eff h h2 := by
  intro z
  rcases hd z with ⟨a, b⟩ | a
  · rw [← a, ← b]; exact e2 z
  · have c1 : countOf h2 z = countOf h1 z := by simp [countOf, a]
    have c2 : destroyCallsOf h2 z = destroyCallsOf h1 z := by simp [destroyCallsOf, a]
    rw [c1, c2]; exact e1 z

theorem Eff_set {h : ObjHeap} {o : Nat} {x y : RefCounted} (hb : h[o]? = some x)
    (hy : y.destroyCalls = x.destroyCalls + (if x.count_ = 1 ∧ y.count_ = 0 then 1 else 0)) :
    Eff h (h.set o y) := by
  have hlt : o < h.length := (List.getElem?_eq_some.mp hb).1
  intro z
  by_cases e : z = o
  · subst e
    simp [countOf, destroyCallsOf, hb, hlt, hy]
  · have hz : (h.set o y)[z]? = h[z]? := List.getElem?_set_ne (Ne.symm e)
    have c1 : countOf (h.set o y) z = countOf h z := by simp [countOf, hz]
    have c2 : destroyCallsOf (h.set o y) z = destroyCallsOf h z := by
      simp [destroyCallsOf, hz]
    rw [c1, c2]
    by_cases a : countOf h z = 1 <;> simp [a]

theorem alloc_same (h : ObjHeap) (z : Nat) :
    countOf (h ++ [{ count_ := 0, destroyCalls := 0 }]) z = countOf h z ∧
      destroyCallsOf (h ++ [{ count_ := 0, destroyCalls := 0 }]) z = destroyCallsOf h z := by
  by_cases hlt : z < h.length
  · simp [countOf, destroyCallsOf, List.getElem?_append_left hlt]
  · have hge : h.length ≤ z := by omega
    have hn : h[z]? = none := List.getElem?_eq_none hge
    by_cases e : z = h.length
    · subst e
      simp [countOf, destroyCallsOf]
    · have hn1 : (h ++ [({ count_ := 0, destroyCalls := 0 } : RefCounted)])[z]? = none := by
        apply List.getElem?_eq_none
        simp; omega
      simp [countOf, destroyCallsOf, hn, hn1]

theorem Eff_alloc (h : ObjHeap) : Eff h (h ++ [{ count_ := 0, destroyCalls := 0 }]) := by
  intro z
  obtain ⟨a, b⟩ := alloc_same h z
  rw [a, b]
  by_cases c : countOf h z = 1 <;> simp [c]

theorem inc_good {h : ObjHeap} {c : Nat → Nat} {o : Nat} {x : RefCounted} (hC : Counts h c)
    (hb : h[o]? = some x) (hl : x.destroyCalls = 0) (hlt : c o + 1 < SIZE_MOD) :
    ∃ h1, RefCounted.IncRef h o = .ok h1 ∧
      (∀ d : Nat → Nat, d o = c o + 1 → (∀ z, z ≠ o → d z = c z) → Counts h1 d) ∧
      Eff h h1 ∧ ∀ z, z ≠ o → h1[z]? = h[z]? := by
  have hx : x.count_ = c o := by
    rcases hC.1 o x hb with ⟨_, b⟩ | ⟨a, _, _⟩
    · exact b
    · omega
  refine ⟨_, IncRef_eq hb hl (by omega), ?_, ?_, ?_⟩
  · intro d hd ho
    exact Counts_set hC hb (Or.inl ⟨hl, by simp [hd, hx]⟩) ho
  · exact Eff_set hb (by simp [hl])
  · intro z hz
    exact List.getElem?_set_ne (Ne.symm hz)

theorem dec_good {h : ObjHeap} {c : Nat → Nat} {o : Nat} (hC : Counts h c)
    (hpos : 1 ≤ c o) (hlt : c o < SIZE_MOD) :
    ∃ h1, RefCounted.DecRef h o = .ok h1 ∧
      (∀ d : Nat → Nat, d o + 1 = c o → (∀ z, z ≠ o → d z = c z) → Counts h1 d) ∧
      Eff h h1 ∧ ∀ z, z ≠ o → h1[z]? = h[z]? := by
  obtain ⟨x, hb, hl, hx⟩ := Counts_live hC hpos
  refine ⟨_, DecRef_eq hb hl (by omega) (by omega), ?_, ?_, ?_⟩
  · intro d hd ho
    refine Counts_set hC hb ?_ ho
    by_cases h1 : x.count_ = 1
    · right
      simp [h1]
      omega
    · left
      simp [h1]
      omega
  · apply Eff_set hb
    by_cases h1 : x.count_ = 1
    · simp [h1, hl]
    · have : x.count_ - 1 ≠ 0 := by omega
      simp [h1, hl]
  · intro z hz
    exact List.getElem?_set_ne (Ne.symm hz)

theorem same_of_get {h h1 : ObjHeap} {z : Nat} (e : h1[z]? = h[z]?) :
    countOf h1 z = countOf h z ∧ destroyCallsOf h1 z = destroyCallsOf h z := by
  simp [countOf, destroyCallsOf, e]

theorem reset_good {h : ObjHeap} {c : Nat → Nat} (s : IntrusivePtr) (hC : Counts h c)
    (hs : ∀ o, s.ptr_ = some o → 1 ≤ c o) (hlt : ∀ o, c o < SIZE_MOD) :
    ∃ h1, IntrusivePtr.Reset h s = .ok (h1, IntrusivePtr.empty) ∧
      (∀ d : Nat → Nat, (∀ z, d z + (if s.ptr_ = some z then 1 else 0) = c z) → Counts h1 d) ∧
      Eff h h1 ∧ ∀ z, s.ptr_ ≠ some z → h1[z]? = h[z]? := by
  cases hp : s.ptr_ with
  | none =>
    refine ⟨h, ?_, ?_, Eff_refl h, fun _ _ => rfl⟩
    · simp [IntrusivePtr.Reset, hp, IntrusivePtr.empty, pure, Except.pure]
    · intro d hd
      exact Counts_congr hC (fun z => by simpa using hd z)
  | some o =>
    obtain ⟨h1, hR, hCo, hE, hF⟩ := dec_good hC (hs o hp) (hlt o)
    refine ⟨h1, ?_, ?_, hE, ?_⟩
    · simp [IntrusivePtr.Reset, hp, hR, IntrusivePtr.empty, bind, Except.bind, pure,
        Except.pure]
    · intro d hd
      apply hCo d
      · simpa using hd o
      · intro z hz
        have hne : ¬ (o = z) := fun e => hz e.symm
        simpa [hne] using hd z
    · intro z hz
      exact hF z (fun e => hz (by rw [e]))

theorem ofPtr_good {h : ObjHeap} {c : Nat → Nat} (p : Option Nat) (hC : Counts h c)
    (hp : ∀ o, p = some o → ∃ x, h[o]? = some x ∧ x.destroyCalls = 0)
    (hlt : ∀ o, c o + 1 < SIZE_MOD) :
    ∃ h1, IntrusivePtr.ofPtr h p = .ok (h1, { ptr_ := p }) ∧
      (∀ d : Nat → Nat, (∀ z, d z = c z + (if p = some z then 1 else 0)) → Counts h1 d) ∧
      Eff h h1 ∧ ∀ z, p ≠ some z → h1[z]? = h[z]? := by
  cases p with
  | none =>
    refine ⟨h, rfl, ?_, Eff_refl h, fun _ _ => rfl⟩
    intro d hd
    exact Counts_congr hC (fun z => by simpa using hd z)
  | some o =>
    obtain ⟨x, hb, hl⟩ := hp o rfl
    obtain ⟨h1, hR, hCo, hE, hF⟩ := inc_good hC hb hl (hlt o)
    refine ⟨h1, ?_, ?_, hE, ?_⟩
    · simp [IntrusivePtr.ofPtr, hR, bind, Except.bind, pure, Except.pure]
    · intro d hd
      apply hCo d
      · simpa using hd o
      · intro z hz
        have hne : ¬ (o = z) := fun e => hz e.symm
        simpa [hne] using hd z
    · intro z hz
      exact hF z (fun e => hz (by rw [e]))

theorem copy_eq_ofPtr (h : ObjHeap) (s : IntrusivePtr) :
    IntrusivePtr.copy h s = IntrusivePtr.ofPtr h s.ptr_ := by
  unfold IntrusivePtr.copy IntrusivePtr.ofPtr
  cases s.ptr_ <;> rfl

theorem copyAssign_eq {h h1 : ObjHeap} {d s e : IntrusivePtr}
    {r : ObjHeap × IntrusivePtr} (hne : d.ptr_ ≠ s.ptr_)
    (hR : IntrusivePtr.Reset h d = .ok (h1, e))
    (hO : IntrusivePtr.ofPtr h1 s.ptr_ = .ok r) :
    IntrusivePtr.copyAssign h d s = .ok r := by
  unfold IntrusivePtr.copyAssign
  unfold IntrusivePtr.ofPtr at hO
  simp only [hne, if_false, hR, bind, Except.bind]
  cases hs : s.ptr_ with
  | none => rw [hs] at hO; exact hO
  | some o => rw [hs] at hO; exact hO

theorem moveAssign_eq {h h1 : ObjHeap} {d s e : IntrusivePtr} (hne : d.ptr_ ≠ s.ptr_)
    (hR : IntrusivePtr.Reset h d = .ok (h1, e)) :
    IntrusivePtr.moveAssign h d s = .ok (h1, { ptr_ := s.ptr_ }, { ptr_ := none }) := by
  unfold IntrusivePtr.moveAssign
  simp only [hne, if_false, hR, bind, Except.bind]
  rfl

theorem holdersIn_set_same (l : List IntrusivePtr) (i : Nat) (x a : IntrusivePtr)
    (hx : l[i]? = some x) (ha : a.ptr_ = x.ptr_) (o : Nat) :
    holdersIn (l.set i a) o = holdersIn l o := by
  have := holdersIn_set l i x a o hx
  rw [ha] at this
  omega

theorem live_get {w : IWorld} {o : Nat} (hv : w.live o = true) :
    ∃ x, w.heap[o]? = some x ∧ x.destroyCalls = 0 := by
  unfold IWorld.live at hv
  cases hb : w.heap[o]? with
  | none => simp [hb] at hv
  | some x => exact ⟨x, rfl, by simpa [hb] using hv⟩

theorem istep_good (n : Nat) (w : IWorld) (hinv : IInv n w) (hn : n + 1 < SIZE_MOD)
    (op : IOp) (hv : op.valid w = true) : IStepGood n w op := by
  obtain ⟨h, l⟩ := w
  obtain ⟨hC, hlen⟩ := hinv
  simp only at hC hlen
  have hb : ∀ o, holdersIn l o + 1 < SIZE_MOD := fun o => by
    have := holdersIn_le l o
    omega
  have hb0 : ∀ o, holdersIn l o < SIZE_MOD := fun o => by
    have := hb o
    omega
  have hold : ∀ {i : Nat} {s : IntrusivePtr} {o : Nat}, l[i]? = some s → s.ptr_ = some o →
      ∃ x, h[o]? = some x ∧ x.destroyCalls = 0 := by
    intro i s o hi hp
    obtain ⟨x, a, b, _⟩ := Counts_live hC (holdersIn_pos hi hp)
    exact ⟨x, a, b⟩
  have hE : ∀ {α : Type} (x : α), (pure x : Except IFault α) = .ok x := fun _ => rfl
  cases op with
  | makeIntrusive =>
    have hCa := Counts_alloc hC
    have hlive : ∀ o, some h.length = some o →
        ∃ x, (h ++ [({ count_ := 0, destroyCalls := 0 } : RefCounted)])[o]? = some x ∧
          x.destroyCalls = 0 := by
      intro o e
      have e1 : o = h.length := (Option.some.inj e).symm
      subst e1
      exact ⟨{ count_ := 0, destroyCalls := 0 }, by simp, rfl⟩
    obtain ⟨h1, hO, hCo, hEf, _⟩ := ofPtr_good (some h.length) hCa hlive hb
    refine ⟨⟨h1, l ++ [{ ptr_ := some h.length }]⟩, ?_, ⟨?_, ?_⟩, ?_⟩
    · simp [IWorld.step, MakeIntrusive, hO, bind, Except.bind, hE]
    · exact hCo _ (fun z => holdersIn_push l _ z)
    · simp
      omega
    · exact Eff_trans (Eff_alloc h) hEf (fun z => Or.inl (alloc_same h z))
  | newObject =>
    exact ⟨⟨h ++ [{ count_ := 0, destroyCalls := 0 }], l⟩, by simp [IWorld.step, hE],
      ⟨Counts_alloc hC, by simp only; omega⟩, Eff_alloc h⟩
  | ofPtr p =>
    have hp : ∀ o, p = some o → ∃ x, h[o]? = some x ∧ x.destroyCalls = 0 := by
      intro o e
      subst e
      exact live_get (w := ⟨h, l⟩) hv
    obtain ⟨h1, hO, hCo, hEf, _⟩ := ofPtr_good p hC hp hb
    refine ⟨⟨h1, l ++ [{ ptr_ := p }]⟩, ?_, ⟨?_, ?_⟩, hEf⟩
    · simp [IWorld.step, hO, bind, Except.bind, hE]
    · exact hCo _ (fun z => holdersIn_push l _ z)
    · simp
      omega
  | copyCtor src =>
    cases hsrc : l[src]? with
    | none =>
      exact ⟨⟨h, l⟩, by simp [IWorld.step, hsrc, hE], ⟨hC, by simp only; omega⟩, Eff_refl h⟩
    | some s =>
      obtain ⟨h1, hO, hCo, hEf, _⟩ := ofPtr_good s.ptr_ hC (fun o hp => hold hsrc hp) hb
      refine ⟨⟨h1, l ++ [{ ptr_ := s.ptr_ }]⟩, ?_, ⟨?_, ?_⟩, hEf⟩
      · simp [IWorld.step, hsrc, copy_eq_ofPtr, hO, bind, Except.bind, hE]
      · exact hCo _ (fun z => holdersIn_push l _ z)
      · simp
        omega
  | moveCtor src =>
    cases hsrc : l[src]? with
    | none =>
      exact ⟨⟨h, l⟩, by simp [IWorld.step, hsrc, hE], ⟨hC, by simp only; omega⟩, Eff_refl h⟩
    | some s =>
      refine ⟨⟨h, l.set src { ptr_ := none } ++ [{ ptr_ := s.ptr_ }]⟩, ?_, ⟨?_, ?_⟩, Eff_refl h⟩
      · simp [IWorld.step, hsrc, IntrusivePtr.move, hE]
      · refine Counts_congr hC (fun z => ?_)
        show holdersIn (l.set src { ptr_ := none } ++ [{ ptr_ := s.ptr_ }]) z = holdersIn l z
        have h1 : holdersIn (l.set src { ptr_ := none } ++ [{ ptr_ := s.ptr_ }]) z
            = holdersIn (l.set src { ptr_ := none }) z + (if s.ptr_ = some z then 1 else 0) :=
          holdersIn_push (l.set src { ptr_ := none }) { ptr_ := s.ptr_ } z
        have h2 : holdersIn (l.set src { ptr_ := none }) z + (if s.ptr_ = some z then 1 else 0)
            = holdersIn l z + 0 := holdersIn_set l src s { ptr_ := none } z hsrc
        omega
      · simp
        omega
  | copyAssign dst src =>
    cases hdst : l[dst]? with
    | none =>
      exact ⟨⟨h, l⟩, by simp [IWorld.step, hdst, hE], ⟨hC, by simp only; omega⟩, Eff_refl h⟩
    | some d =>
      cases hsrc : l[src]? with
      | none =>
        exact ⟨⟨h, l⟩, by simp [IWorld.step, hdst, hsrc, hE], ⟨hC, by simp only; omega⟩,
          Eff_refl h⟩
      | some s =>
        by_cases hg : d.ptr_ = s.ptr_
        · refine ⟨⟨h, l.set dst d⟩, ?_, ⟨?_, ?_⟩, Eff_refl h⟩
          · simp [IWorld.step, hdst, hsrc, IntrusivePtr.copyAssign, hg, bind, Except.bind, hE]
          · exact Counts_congr hC (holdersIn_set_same l dst d d hdst rfl)
          · simp
            omega
        · obtain ⟨h1, hR, hC1, hE1, hF1⟩ := reset_good d hC
            (fun o hp => holdersIn_pos hdst hp) hb0
          have hc1 : Counts h1
              (fun z => holdersIn l z - (if d.ptr_ = some z then 1 else 0)) := by
            apply hC1
            intro z
            by_cases hz : d.ptr_ = some z
            · have := holdersIn_pos hdst hz
              simp only [hz, if_true]
              omega
            · simp [hz]
          have hlive : ∀ o, s.ptr_ = some o → ∃ x, h1[o]? = some x ∧ x.destroyCalls = 0 := by
            intro o hp
            have hne : d.ptr_ ≠ some o := fun e => hg (e.trans hp.symm)
            obtain ⟨x, a, b⟩ := hold hsrc hp
            exact ⟨x, by rw [hF1 o hne]; exact a, b⟩
          obtain ⟨h2, hO, hC2, hE2, hF2⟩ := ofPtr_good s.ptr_ hc1 hlive
            (fun o => by
              have := hb o
              show holdersIn l o - (if d.ptr_ = some o then 1 else 0) + 1 < SIZE_MOD
              omega)
          refine ⟨⟨h2, l.set dst { ptr_ := s.ptr_ }⟩, ?_, ⟨?_, ?_⟩, ?_⟩
          · simp [IWorld.step, hdst, hsrc, copyAssign_eq hg hR hO, bind, Except.bind, hE]
          · apply hC2
            intro z
            have h3 : holdersIn (l.set dst { ptr_ := s.ptr_ }) z
                + (if d.ptr_ = some z then 1 else 0)
                = holdersIn l z + (if s.ptr_ = some z then 1 else 0) :=
              holdersIn_set l dst d { ptr_ := s.ptr_ } z hdst
            show holdersIn (l.set dst { ptr_ := s.ptr_ }) z
              = holdersIn l z - (if d.ptr_ = some z then 1 else 0)
                + (if s.ptr_ = some z then 1 else 0)
            by_cases hz : d.ptr_ = some z
            · have := holdersIn_pos hdst hz
              simp only [hz, if_true] at h3 ⊢
              omega
            · simp only [hz, if_false] at h3 ⊢
              omega
          · simp
            omega
          · refine Eff_trans hE1 hE2 (fun z => ?_)
            by_cases hz : d.ptr_ = some z
            · right
              exact hF2 z (fun e => hg (hz.trans e.symm))
            · left
              exact same_of_get (hF1 z hz)
  | moveAssign dst src =>
    cases hdst : l[dst]? with
    | none =>
      exact ⟨⟨h, l⟩, by simp [IWorld.step, hdst, hE], ⟨hC, by simp only; omega⟩, Eff_refl h⟩
    | some d =>
      cases hsrc : l[src]? with
      | none =>
        exact ⟨⟨h, l⟩, by simp [IWorld.step, hdst, hsrc, hE], ⟨hC, by simp only; omega⟩,
          Eff_refl h⟩
      | some s =>
        by_cases hg : d.ptr_ = s.ptr_
        · refine ⟨⟨h, (l.set src s).set dst d⟩, ?_, ⟨?_, ?_⟩, Eff_refl h⟩
          · simp [IWorld.step, hdst, hsrc, IntrusivePtr.moveAssign, hg, bind, Except.bind, hE]
          · refine Counts_congr hC (fun z => ?_)
            show holdersIn ((l.set src s).set dst d) z = holdersIn l z
            have h1 := holdersIn_set_same l src s s hsrc rfl z
            have h2 := holdersIn_set_same (l.set src s) dst _ d
              (get_set_of_get s hsrc hdst) (by split <;> simp [hg]) z
            omega
          · simp
            omega
        · have hds : src ≠ dst := by
            intro e
            subst e
            rw [hdst] at hsrc
            exact hg (congrArg IntrusivePtr.ptr_ (Option.some.inj hsrc))
          obtain ⟨h1, hR, hC1, hE1, _⟩ := reset_good d hC
            (fun o hp => holdersIn_pos hdst hp) hb0
          refine ⟨⟨h1, (l.set src { ptr_ := none }).set dst { ptr_ := s.ptr_ }⟩, ?_, ⟨?_, ?_⟩,
            hE1⟩
          · simp [IWorld.step, hdst, hsrc, moveAssign_eq hg hR, bind, Except.bind, hE]
          · apply hC1
            intro z
            have h2 : holdersIn (l.set src { ptr_ := none }) z
                + (if s.ptr_ = some z then 1 else 0) = holdersIn l z + 0 :=
              holdersIn_set l src s { ptr_ := none } z hsrc
            have hget : (l.set src { ptr_ := none })[dst]? = some d := by
              have := get_set_of_get ({ ptr_ := none } : IntrusivePtr) hsrc hdst
              simpa [hds] using this
            have h3 : holdersIn ((l.set src { ptr_ := none }).set dst { ptr_ := s.ptr_ }) z
                + (if d.ptr_ = some z then 1 else 0)
                = holdersIn (l.set src { ptr_ := none }) z
                  + (if s.ptr_ = some z then 1 else 0) :=
              holdersIn_set (l.set src { ptr_ := none }) dst d { ptr_ := s.ptr_ } z hget
            show holdersIn ((l.set src { ptr_ := none }).set dst { ptr_ := s.ptr_ }) z
              + (if d.ptr_ = some z then 1 else 0) = holdersIn l z
            omega
          · simp
            omega
  | reset i =>
    cases hi : l[i]? with
    | none =>
      exact ⟨⟨h, l⟩, by simp [IWorld.step, hi, hE], ⟨hC, by simp only; omega⟩, Eff_refl h⟩
    | some s =>
      obtain ⟨h1, hR, hC1, hE1, _⟩ := reset_good s hC (fun o hp => holdersIn_pos hi hp) hb0
      refine ⟨⟨h1, l.set i IntrusivePtr.empty⟩, ?_, ⟨?_, ?_⟩, hE1⟩
      · simp [IWorld.step, hi, hR, bind, Except.bind, hE]
      · apply hC1
        intro z
        have h2 : holdersIn (l.set i IntrusivePtr.empty) z
            + (if s.ptr_ = some z then 1 else 0) = holdersIn l z + 0 :=
          holdersIn_set l i s IntrusivePtr.empty z hi
        show holdersIn (l.set i IntrusivePtr.empty) z
          + (if s.ptr_ = some z then 1 else 0) = holdersIn l z
        omega
      · simp
        omega
  | swap i j =>
    cases hi : l[i]? with
    | none =>
      exact ⟨⟨h, l⟩, by simp [IWorld.step, hi, hE], ⟨hC, by simp only; omega⟩, Eff_refl h⟩
    | some a =>
      cases hj : l[j]? with
      | none =>
        exact ⟨⟨h, l⟩, by simp [IWorld.step, hi, hj, hE], ⟨hC, by simp only; omega⟩,
          Eff_refl h⟩
      | some b =>
        refine ⟨⟨h, (l.set i b).set j a⟩, ?_, ⟨?_, ?_⟩, Eff_refl h⟩
        · simp [IWorld.step, hi, hj, IntrusivePtr.Swap, hE]
        · refine Counts_congr hC (fun z => ?_)
          have h2 := holdersIn_set l i a b z hi
          have hget : (l.set i b)[j]? = some b := by
            have := get_set_of_get b hi hj
            simpa using this
          have h3 := holdersIn_set (l.set i b) j b a z hget
          show holdersIn ((l.set i b).set j a) z = holdersIn l z
          omega
        · simp
          omega
  | destroy i =>
    cases hi : l[i]? with
    | none =>
      exact ⟨⟨h, l⟩, by simp [IWorld.step, hi, hE], ⟨hC, by simp only; omega⟩, Eff_refl h⟩
    | some s =>
      obtain ⟨h1, hR, hC1, hE1, _⟩ := reset_good s hC (fun o hp => holdersIn_pos hi hp) hb0
      refine ⟨⟨h1, l.set i IntrusivePtr.empty⟩, ?_, ⟨?_, ?_⟩, hE1⟩
      · simp [IWorld.step, hi, IntrusivePtr.destructor, hR, bind, Except.bind, hE]
      · apply hC1
        intro z
        have h2 : holdersIn (l.set i IntrusivePtr.empty) z
            + (if s.ptr_ = some z then 1 else 0) = holdersIn l z + 0 :=
          holdersIn_set l i s IntrusivePtr.empty z hi
        show holdersIn (l.set i IntrusivePtr.empty) z
          + (if s.ptr_ = some z then 1 else 0) = holdersIn l z
        omega
      · simp
        omega

theorem istep_invalid {w : IWorld} {op : IOp} (hv : op.valid w = false) :
    ∃ e, w.step op = .error e := by
  cases op with
  | ofPtr p =>
    cases p with
    | none => simp [IOp.valid] at hv
    | some o =>
      have hd : ∀ x, w.heap[o]? = some x → x.destroyCalls ≠ 0 := by
        intro x hx
        simpa [IOp.valid, IWorld.live, hx] using hv
      exact ⟨IFault.danglingObject o,
        by simp [IWorld.step, IntrusivePtr.ofPtr, IncRef_dangling hd, bind, Except.bind]⟩
  | makeIntrusive => simp [IOp.valid] at hv
  | newObject => simp [IOp.valid] at hv
  | copyCtor src => simp [IOp.valid] at hv
  | moveCtor src => simp [IOp.valid] at hv
  | copyAssign dst src => simp [IOp.valid] at hv
  | moveAssign dst src => simp [IOp.valid] at hv
  | reset i => simp [IOp.valid] at hv
  | swap i j => simp [IOp.valid] at hv
  | destroy i => simp [IOp.valid] at hv

theorem irun_inv (ops : List IOp) :
    ∀ (n : Nat) (w w1 : IWorld), IInv n w → n + ops.length < SIZE_MOD →
      IWorld.run w ops = .ok w1 → IInv (n + ops.length) w1 := by
  induction ops with
  | nil =>
    intro n w w1 hinv _ e
    have e1 : w = w1 := Except.ok.inj e
    rw [← e1]
    simpa using hinv
  | cons op ops ih =>
    intro n w w1 hinv hn e
    simp only [List.length_cons] at hn
    unfold IWorld.run at e
    cases hs : w.step op with
    | error x =>
      rw [hs] at e
      exact absurd e (by simp [bind, Except.bind])
    | ok w2 =>
      rw [hs] at e
      have hv : op.valid w = true := by
        cases hv : op.valid w with
        | true => rfl
        | false =>
          obtain ⟨x, hx⟩ := istep_invalid hv
          rw [hx] at hs
          cases hs
      obtain ⟨w3, h3, hinv3, _⟩ := istep_good n w hinv (by omega) op hv
      have e3 : w3 = w2 := by
        rw [h3] at hs
        exact Except.ok.inj hs
      rw [e3] at hinv3
      have := ih (n + 1) w2 w1 hinv3 (by omega) e
      have e4 : n + (op :: ops).length = n + 1 + ops.length := by
        simp only [List.length_cons]
        omega
      rw [e4]
      exact this

theorem irun_append (ops : List IOp) (op : IOp) :
    ∀ (w w1 w2 : IWorld), IWorld.run w ops = .ok w1 → w1.step op = .ok w2 →
      IWorld.run w (ops ++ [op]) = .ok w2 := by
  induction ops with
  | nil =>
    intro w w1 w2 h1 h2
    have e1 : w = w1 := Except.ok.inj h1
    subst e1
    simp [IWorld.run, h2, bind, Except.bind, pure, Except.pure]
  | cons o ops ih =>
    intro w w1 w2 h1 h2
    unfold IWorld.run at h1
    cases hs : w.step o with
    | error e =>
      rw [hs] at h1
      exact absurd h1 (by simp [bind, Except.bind])
    | ok w3 =>
      rw [hs] at h1
      have := ih w3 w1 w2 h1 h2
      simp [IWorld.run, hs, this, bind, Except.bind]

theorem IInv_facts {n : Nat} {w : IWorld} (hinv : IInv n w) :
    (∀ o, w.live o = true → RefCounted.RefCount w.heap o = .ok (w.holders o)) ∧
    (∀ s ∈ w.ptrs, ∀ o, s.ptr_ = some o →
      w.live o = true ∧ s.UseCount w.heap = .ok (w.holders o)) ∧
    (∀ o, w.destroyCalls o ≤ 1) := by
  obtain ⟨hC, _⟩ := hinv
  have hlive : ∀ o, w.live o = true → RefCounted.RefCount w.heap o = .ok (w.holders o) := by
    intro o hl
    obtain ⟨x, hx, hd⟩ := live_get hl
    have hc : x.count_ = holdersIn w.ptrs o := by
      rcases hC.1 o x hx with ⟨_, b⟩ | ⟨a, _, _⟩
      · exact b
      · omega
    simp [RefCounted.RefCount, ObjHeap.deref, hx, hd, hc, IWorld.holders, bind, Except.bind,
      pure, Except.pure]
  refine ⟨hlive, ?_, ?_⟩
  · intro s hs o hp
    obtain ⟨i, hi⟩ := List.getElem?_of_mem hs
    obtain ⟨x, hx, hd, _⟩ := Counts_live hC (holdersIn_pos hi hp)
    have hl : w.live o = true := by simp [IWorld.live, hx, hd]
    refine ⟨hl, ?_⟩
    simp only [IntrusivePtr.UseCount, hp]
    exact hlive o hl
  · intro o
    unfold IWorld.destroyCalls destroyCallsOf
    cases hx : w.heap[o]? with
    | none => simp
    | some x =>
      rcases hC.1 o x hx with ⟨a, _⟩ | ⟨a, _, _⟩ <;> simp [a]

/-- Claim C31: a program over `IntrusivePtr` variables (`MakeIntrusive`, `new T`,
construction from a raw pointer, copy and move construction and assignment,
`Reset()`, `Swap`, destruction; the objects own no smart pointers) has returned
the state `w`, and `op` is a next statement that does not hand the constructor a
raw pointer to a destroyed object. In `w` every object that is not destroyed has
`RefCount()` equal to the number of variables that point at it, every variable
that is not null points at such an object and `UseCount()` is that number, and
`Deleter::Destroy` has been invoked at most once on any object. The statement
`op` returns; in the state after it the same holds, and `Deleter::Destroy` has
been invoked once more on an object exactly if its count went from 1 to 0 in
this statement. Assigning a `SimpleCounter` to another, by copy or by move,
leaves the count of the target as it was. -/
theorem intrusive_count_is_holders (ops : List IOp) (op : IOp) (w : IWorld)
    (hsize : ops.length + 2 < SIZE_MOD)
    (hrun : IWorld.run IWorld.init ops = .ok w)
    (hvalid : op.valid w = true) :
    ((∀ o, w.live o = true → RefCounted.RefCount w.heap o = .ok (w.holders o)) ∧
      (∀ s ∈ w.ptrs, ∀ o, s.ptr_ = some o →
        w.live o = true ∧ s.UseCount w.heap = .ok (w.holders o)) ∧
      (∀ o, w.destroyCalls o ≤ 1)) ∧
    (∃ w1, w.step op = .ok w1 ∧ IWorld.run IWorld.init (ops ++ [op]) = .ok w1 ∧
      ((∀ o, w1.live o = true → RefCounted.RefCount w1.heap o = .ok (w1.holders o)) ∧
        (∀ s ∈ w1.ptrs, ∀ o, s.ptr_ = some o →
          w1.live o = true ∧ s.UseCount w1.heap = .ok (w1.holders o)) ∧
        (∀ o, w1.destroyCalls o ≤ 1)) ∧
      (∀ o, w1.destroyCalls o = w.destroyCalls o +
        (if w.count o = 1 ∧ w1.count o = 0 then 1 else 0))) ∧
    (∀ a b : SimpleCounter, (a.copyAssign b).RefCount = a.RefCount ∧
      (a.moveAssign b).RefCount = a.RefCount) := by
  have hinit : IInv 0 IWorld.init := by
    refine ⟨⟨?_, ?_⟩, ?_⟩
    · intro o obj ho
      simp [IWorld.init] at ho
    · intro o _
      simp [IWorld.init, holdersIn]
    · simp [IWorld.init]
  have hinv := irun_inv ops 0 IWorld.init w hinit (by omega) hrun
  obtain ⟨w1, hstep, hinv1, hE⟩ := istep_good (0 + ops.length) w hinv (by omega) op hvalid
  exact ⟨IInv_facts hinv, ⟨w1, hstep, irun_append ops op _ w w1 hrun hstep, IInv_facts hinv1,
    hE⟩, fun _ _ => ⟨rfl, rfl⟩⟩

/-- Claim C31 on a concrete program: after `intrusiveProgram` the variable
`ptrs[1]` is the only one on object 1, and `ptrs[1].Reset()` destroys it. -/
theorem intrusive_count_is_holders_witness :
    ((∀ o, intrusiveWorld.live o = true →
        RefCounted.RefCount intrusiveWorld.heap o = .ok (intrusiveWorld.holders o)) ∧
      (∀ s ∈ intrusiveWorld.ptrs, ∀ o, s.ptr_ = some o →
        intrusiveWorld.live o = true ∧
          s.UseCount intrusiveWorld.heap = .ok (intrusiveWorld.holders o)) ∧
      (∀ o, intrusiveWorld.destroyCalls o ≤ 1)) ∧
    (∃ w1, intrusiveWorld.step (IOp.reset 1) = .ok w1 ∧
      IWorld.run IWorld.init (intrusiveProgram ++ [IOp.reset 1]) = .ok w1 ∧
      ((∀ o, w1.live o = true → RefCounted.RefCount w1.heap o = .ok (w1.holders o)) ∧
        (∀ s ∈ w1.ptrs, ∀ o, s.ptr_ = some o →
          w1.live o = true ∧ s.UseCount w1.heap = .ok (w1.holders o)) ∧
        (∀ o, w1.destroyCalls o ≤ 1)) ∧
      (∀ o, w1.destroyCalls o = intrusiveWorld.destroyCalls o +
        (if intrusiveWorld.count o = 1 ∧ w1.count o = 0 then 1 else 0))) ∧
    (∀ a b : SimpleCounter, (a.copyAssign b).RefCount = a.RefCount ∧
      (a.moveAssign b).RefCount = a.RefCount) :=
  intrusive_count_is_holders intrusiveProgram (IOp.reset 1) intrusiveWorld (by decide) rfl rfl

end SmartPtrs
